import Mathlib

/-!
# Bruinbase: B+tree index and index-driven selection

A shallow embedding of `BTreeNode.cc`, `BTreeIndex.cc` and `SqlEngine.cc`.

* A page buffer is a list of 32-bit words; the code only ever touches it at
  4-byte aligned offsets and in multiples of 4 bytes, so byte offsets of the
  source are kept and divided by 4 when the list is indexed.
* C `int` values are `Int`; wrap-around is written explicitly where the code
  narrows or subtracts (`wrap32`, `wrap64`).
* A function returns `Option` where the C code can leave defined behaviour
  (a copy outside a buffer) or where a loop needs fuel; `none` is that case.
* The constants `PAGE_SIZE`, `ENTRIES_PER_PAGE` and `KEYS_PER_PAGE` live in
  headers that are not among the sources, so they are the fields of `Config`.
-/

namespace Bruinbase

/-! ## Machine integers and return codes -/

abbrev RC := Int
abbrev PageId := Int

def INT_MIN : Int := -2147483648
def INT_MAX : Int := 2147483647
def LONG_MIN : Int := -9223372036854775808
def LONG_MAX : Int := 9223372036854775807

/-- Conversion of an integer to a 32-bit `int` (two's complement, modulo 2^32). -/
def wrap32 (x : Int) : Int := (x + 2147483648) % 4294967296 - 2147483648

/-- Conversion of an integer to a 64-bit `long` (two's complement, modulo 2^64). -/
def wrap64 (x : Int) : Int :=
  (x + 9223372036854775808) % 18446744073709551616 - 9223372036854775808

/-- Modelled from the spec: the error codes are declared in `Bruinbase.h`, which is
not among the sources; the spec only names them.  The numbers are those of the
original header; the code depends only on their being negative and distinct. -/
def RC_FILE_OPEN_FAILED : RC := -1001

/-- Modelled from the spec: see `RC_FILE_OPEN_FAILED`. -/
def RC_FILE_WRITE_FAILED : RC := -1005

/-- Modelled from the spec: see `RC_FILE_OPEN_FAILED`. -/
def RC_INVALID_PID : RC := -1007

/-- Modelled from the spec: see `RC_FILE_OPEN_FAILED`. -/
def RC_INVALID_RID : RC := -1008

/-- Modelled from the spec: see `RC_FILE_OPEN_FAILED`. -/
def RC_NODE_FULL : RC := -1010

/-- Modelled from the spec: see `RC_FILE_OPEN_FAILED` (the spec's `InvalidCursor`). -/
def RC_INVALID_CURSOR : RC := -1011

/-- Modelled from the spec: see `RC_FILE_OPEN_FAILED` (the spec's `NoSuchRecord`). -/
def RC_NO_SUCH_RECORD : RC := -1012

/-- Equality of results is decidable, so that concrete runs can be evaluated. -/
instance instDecidableEqExcept {ε α : Type} [DecidableEq ε] [DecidableEq α] :
    DecidableEq (Except ε α) := fun a b =>
  match a, b with
  | Except.ok x, Except.ok y =>
    if h : x = y then isTrue (by rw [h]) else isFalse (fun h1 => h (Except.ok.inj h1))
  | Except.error x, Except.error y =>
    if h : x = y then isTrue (by rw [h]) else isFalse (fun h1 => h (Except.error.inj h1))
  | Except.ok _, Except.error _ => isFalse (fun h => Except.noConfusion h)
  | Except.error _, Except.ok _ => isFalse (fun h => Except.noConfusion h)

/-! ## C library functions used by `SqlEngine.cc` -/

def isspace (c : Char) : Bool :=
  c = ' ' || c = '\t' || c = '\n' || c = '\r' || c.toNat = 11 || c.toNat = 12

/-- The value of the leading decimal digits of `cs`, continuing from `acc`. -/
def digitsValue : List Char → Int → Int
  | [], acc => acc
  | ch :: cs, acc =>
    if ch.isDigit then digitsValue cs (acc * 10 + ((ch.toNat : Int) - 48)) else acc

/-- Clamp to the range of `long`, as `strtol` does. -/
def clampLong (x : Int) : Int :=
  if x < LONG_MIN then LONG_MIN else if x > LONG_MAX then LONG_MAX else x

/-- The C library `atol`: optional white space, optional sign, decimal digits. -/
def atol (s : String) : Int :=
  match s.toList.dropWhile isspace with
  | '-' :: cs => clampLong (-(digitsValue cs 0))
  | '+' :: cs => clampLong (digitsValue cs 0)
  | cs => clampLong (digitsValue cs 0)

/-- The C library `atoi`: `(int) strtol(s, NULL, 10)`. -/
def atoi (s : String) : Int := wrap32 (atol s)

/-- Character-wise comparison of two C strings. -/
def strcmpChars : List Char → List Char → Int
  | [], [] => 0
  | [], _ :: _ => -1
  | _ :: _, [] => 1
  | a :: as, b :: bs =>
    if a.toNat < b.toNat then -1
    else if a.toNat > b.toNat then 1
    else strcmpChars as bs

/-- The C library `strcmp`; only the sign of the result is specified. -/
def strcmp (a b : String) : Int := strcmpChars a.toList b.toList

/-! ## `SqlEngine.cc`: predicates -/

/-- `SelCond::Comparator`. -/
inductive Comparator where
  | EQ | NE | LT | GT | LE | GE
  deriving DecidableEq, Repr

/-- Modelled from the spec: the attribute of a predicate; `SelCond` is declared in
`SqlEngine.h`, not among the sources.  The spec's data model has `attr` in
`{key = 1, value = 2}`, the two cases the code switches on. -/
inductive Attr where
  | key | value
  deriving DecidableEq, Repr

/-- Modelled from the spec: `SelCond`, a predicate `(attr, comp, value)` whose
literal is the text the parser stored (`char* value`). -/
structure SelCond where
  attr : Attr
  comp : Comparator
  value : String
  deriving DecidableEq, Repr

/-- The tail of `processRange` shared by `GT` (after `val++`) and `GE`. -/
def processRangeGE (newCond : List SelCond) (val lo hi : Int) :
    Int × List SelCond × Int × Int :=
  if val > hi then (-1, newCond, lo, hi)
  else if val > lo then (0, newCond, val, hi)
  else (0, newCond, lo, hi)

/-- The tail of `processRange` shared by `LT` (after `val--`) and `LE`. -/
def processRangeLE (newCond : List SelCond) (val lo hi : Int) :
    Int × List SelCond × Int × Int :=
  if val < lo then (-1, newCond, lo, hi)
  else if val < hi then (0, newCond, lo, val)
  else (0, newCond, lo, hi)

/-- `processRange(newCond, cond, lo, hi)`: returns the code and the updated
`newCond`, `lo`, `hi` (the three reference parameters). -/
def processRange (newCond : List SelCond) (cond : SelCond) (lo hi : Int) :
    Int × List SelCond × Int × Int :=
  let val := atol cond.value
  match cond.comp with
  | Comparator.EQ =>
    if val < lo ∨ val > hi then (-1, newCond, lo, hi)
    else (0, newCond, val, val)
  | Comparator.NE =>
    if val > lo ∧ val < hi then (-2, newCond ++ [cond], lo, hi)
    else if val = lo ∧ val = hi then (-1, newCond, lo, hi)
    else if val = lo then (0, newCond, wrap64 (lo + 1), hi)
    else if val = hi then (0, newCond, lo, wrap64 (hi - 1))
    else (0, newCond, lo, hi)
  | Comparator.GT => processRangeGE newCond (wrap64 (val + 1)) lo hi
  | Comparator.GE => processRangeGE newCond val lo hi
  | Comparator.LT => processRangeLE newCond (wrap64 (val - 1)) lo hi
  | Comparator.LE => processRangeLE newCond val lo hi

/-- The second `switch` of `checkConditions` entered at `case SelCond::LE`:
`false` is `return false`, `true` is leaving the switch. -/
def switchFromLE (diff : Int) : Bool :=
  if diff > 0 then false else true

/-- Entered at `case SelCond::GE`; no `break`, so control falls into `LE`. -/
def switchFromGE (diff : Int) : Bool :=
  if diff < 0 then false else switchFromLE diff

/-- Entered at `case SelCond::LT`; falls into `GE`. -/
def switchFromLT (diff : Int) : Bool :=
  if diff ≥ 0 then false else switchFromGE diff

/-- Entered at `case SelCond::GT`; falls into `LT`. -/
def switchFromGT (diff : Int) : Bool :=
  if diff ≤ 0 then false else switchFromLT diff

/-- Entered at `case SelCond::NE`; falls into `GT`. -/
def switchFromNE (diff : Int) : Bool :=
  if diff = 0 then false else switchFromGT diff

/-- Entered at `case SelCond::EQ`; falls into `NE`. -/
def switchFromEQ (diff : Int) : Bool :=
  if diff ≠ 0 then false else switchFromNE diff

/-- The second `switch (cond[i].comp)` of `checkConditions`. -/
def switchComp (comp : Comparator) (diff : Int) : Bool :=
  match comp with
  | Comparator.EQ => switchFromEQ diff
  | Comparator.NE => switchFromNE diff
  | Comparator.GT => switchFromGT diff
  | Comparator.LT => switchFromLT diff
  | Comparator.GE => switchFromGE diff
  | Comparator.LE => switchFromLE diff

/-- The first `switch (cond[i].attr)` of `checkConditions`: the difference between
the tuple and the literal. -/
def condDiff (c : SelCond) (key : Int) (value : String) : Int :=
  match c.attr with
  | Attr.key => wrap32 (key - atoi c.value)
  | Attr.value => strcmp value c.value

/-- `checkConditions(cond, rid, key, value)` (`rid` is not used by the body). -/
def checkConditions : List SelCond → Int → String → Bool
  | [], _, _ => true
  | c :: cs, key, value =>
    if switchComp c.comp (condDiff c key value) then checkConditions cs key value
    else false

/-- What the spec means by a predicate holding of a tuple: the comparison the
comparator names, between the tuple attribute and the literal. -/
def SelCond.holds (c : SelCond) (key : Int) (value : String) : Bool :=
  let diff : Int :=
    match c.attr with
    | Attr.key => if key < atoi c.value then -1 else if key = atoi c.value then 0 else 1
    | Attr.value => strcmp value c.value
  match c.comp with
  | Comparator.EQ => decide (diff = 0)
  | Comparator.NE => decide (diff ≠ 0)
  | Comparator.GT => decide (diff > 0)
  | Comparator.LT => decide (diff < 0)
  | Comparator.GE => decide (diff ≥ 0)
  | Comparator.LE => decide (diff ≤ 0)

/-! ## Page buffers -/

/-- The constants of `PageFile.h` and `BTreeNode.h` (headers not among the sources). -/
structure Config where
  PAGE_SIZE : Nat
  ENTRIES_PER_PAGE : Nat
  KEYS_PER_PAGE : Nat
  deriving DecidableEq, Repr

/-- The constants as the spec derives them from the page size:
`ENTRIES_PER_PAGE = (PAGE_SIZE - 4 - 4) / 12` and
`KEYS_PER_PAGE = (PAGE_SIZE - 4 - 4) / 8`. -/
def Config.ofPageSize (pageSize : Nat) : Config :=
  ⟨pageSize, (pageSize - 4 - 4) / 12, (pageSize - 4 - 4) / 8⟩

/-- The constants for `PAGE_SIZE = 1024`: `ENTRIES_PER_PAGE = 84` and
`KEYS_PER_PAGE = 127`. -/
def shipped : Config := Config.ofPageSize 1024

/-- The constants of the spec's concrete scenarios,
`ENTRIES_PER_PAGE = KEYS_PER_PAGE = 4`, on the smallest page that holds four
leaf entries: `4 + 4 * 12 + 4 = 56` bytes. -/
def illustration : Config := ⟨56, 4, 4⟩

/-- A page buffer, one list element per aligned 4-byte word. -/
abbrev Buffer := List Int

/-- The result of `memset(buffer, 0, PAGE_SIZE)`. -/
def zeroPage (c : Config) : Buffer := List.replicate (c.PAGE_SIZE / 4) 0

/-- Reads the `int` at byte offset `off`: `memcpy(&x, buffer + off, 4)`. -/
def rd32 (b : Buffer) (off : Nat) : Int := b.getD (off / 4) 0

/-- Writes the `int` at byte offset `off`: `memcpy(buffer + off, &x, 4)`. -/
def wr32 (b : Buffer) (off : Nat) (v : Int) : Buffer := b.set (off / 4) v

/-- The bytes `[src, src + len)` of a buffer, as read by a `memcpy` out of it. -/
def memcpyFrom (b : Buffer) (src len : Nat) : Buffer :=
  (b.drop (src / 4)).take (len / 4)

/-- Writes the first `len` bytes of `data` at `dst`: `memcpy(buffer + dst, data, len)`. -/
def memcpyInto (b : Buffer) (dst : Nat) (data : Buffer) (len : Nat) : Buffer :=
  b.take (dst / 4) ++ data.take (len / 4) ++ b.drop (dst / 4 + len / 4)

/-- Moves `len` bytes inside one buffer, the ranges possibly overlapping:
`memmove(buffer + dst, buffer + src, len)`. -/
def memmove (b : Buffer) (dst src len : Nat) : Buffer :=
  memcpyInto b dst (memcpyFrom b src len) len

/-- A `memmove` inside a buffer of `size` bytes; `none` when a range leaves it. -/
def memmoveChecked (size : Nat) (b : Buffer) (dst src len : Nat) : Option Buffer :=
  if dst + len ≤ size ∧ src + len ≤ size then some (memmove b dst src len) else none

/-- A 4-byte read inside a buffer of `size` bytes; `none` when it leaves it. -/
def rd32Checked (size : Nat) (b : Buffer) (off : Nat) : Option Int :=
  if off + 4 ≤ size then some (rd32 b off) else none

/-- A 4-byte write inside a buffer of `size` bytes; `none` when it leaves it. -/
def wr32Checked (size : Nat) (b : Buffer) (off : Nat) (v : Int) : Option Buffer :=
  if off + 4 ≤ size then some (wr32 b off v) else none

/-- A `memcpy` of `[src, src + len)` out of a buffer of `size` bytes into a
temporary array of `cap` bytes; `none` when the source range leaves the buffer or
`len` exceeds `cap`. -/
def memcpyFromChecked (size cap : Nat) (b : Buffer) (src len : Nat) : Option Buffer :=
  if src + len ≤ size ∧ len ≤ cap then some (memcpyFrom b src len) else none

/-- Modelled from the spec: `RecordId`, declared in `RecordFile.h` (not among the
sources): a pair of 32-bit integers `(pid, sid)`, 8 bytes. -/
structure RecordId where
  pid : Int
  sid : Int
  deriving DecidableEq, Repr

/-! ## `BTreeNode.cc`: leaf nodes

Layout: `count` at byte 0, entry `i` at `4 + i * 12` (`RecordId` then key), the
next-leaf pointer in the last four bytes. -/

structure BTLeafNode where
  buffer : Buffer
  deriving DecidableEq, Repr

/-- `BTLeafNode::BTLeafNode()`. -/
def BTLeafNode.init (c : Config) : BTLeafNode := ⟨zeroPage c⟩

/-- `BTLeafNode::getKeyCount`. -/
def BTLeafNode.getKeyCount (n : BTLeafNode) : Int := rd32 n.buffer 0

/-- The `for` loop of `BTLeafNode::locate`: the first argument counts the
iterations left (`count - i`), the second is `i`; `ptr` is `4 + 8 + i * 12`. -/
def BTLeafNode.locateLoop (buffer : Buffer) (searchKey : Int) : Nat → Nat → RC × Int
  | 0, i => (RC_NO_SUCH_RECORD, i)
  | left + 1, i =>
    let key := rd32 buffer (4 + 8 + i * 12)
    if key = searchKey then (0, i)
    else if key > searchKey then (RC_NO_SUCH_RECORD, i)
    else BTLeafNode.locateLoop buffer searchKey left (i + 1)

/-- `BTLeafNode::locate(searchKey, eid)`: the code and `eid`. -/
def BTLeafNode.locate (n : BTLeafNode) (searchKey : Int) : RC × Int :=
  BTLeafNode.locateLoop n.buffer searchKey n.getKeyCount.toNat 0

/-- `BTLeafNode::readEntry(eid, key, rid)`. -/
def BTLeafNode.readEntry (n : BTLeafNode) (eid : Int) : Except RC (Int × RecordId) :=
  if eid < 0 ∨ eid ≥ n.getKeyCount then Except.error RC_INVALID_RID
  else
    let ptr := 4 + eid.toNat * 12
    Except.ok (rd32 n.buffer (ptr + 8), ⟨rd32 n.buffer ptr, rd32 n.buffer (ptr + 4)⟩)

/-- `BTLeafNode::insert(key, rid)`: the code and the node afterwards. -/
def BTLeafNode.insert (c : Config) (n : BTLeafNode) (key : Int) (rid : RecordId) :
    RC × BTLeafNode :=
  let count := n.getKeyCount
  if count = c.ENTRIES_PER_PAGE then (RC_NODE_FULL, n)
  else
    let eid := (n.locate key).2
    let ptr := 4 + eid.toNat * 12
    let b1 := if eid ≠ count then memmove n.buffer (ptr + 12) ptr ((count - eid).toNat * 12)
              else n.buffer
    let b2 := wr32 (wr32 b1 ptr rid.pid) (ptr + 4) rid.sid
    let b3 := wr32 b2 (ptr + 8) key
    (0, ⟨wr32 b3 0 (count + 1)⟩)

/-- `BTLeafNode::splitFromSibling(count, copy)`. -/
def BTLeafNode.splitFromSibling (n : BTLeafNode) (count : Nat) (copy : Buffer) :
    RC × BTLeafNode :=
  if n.getKeyCount > 0 then (-1, n)
  else (0, ⟨memcpyInto (wr32 n.buffer 0 count) 4 copy (count * 12)⟩)

/-- `BTLeafNode::insertAndSplit(key, rid, sibling, siblingKey)`: the code, this
node, the sibling and `siblingKey` afterwards.  `copy` is an array of
`half * 12` bytes; the result is `none` when the `memcpy` into it is longer than
that or reads outside the page. -/
def BTLeafNode.insertAndSplit (c : Config) (n : BTLeafNode) (key : Int) (rid : RecordId)
    (sibling : BTLeafNode) (siblingKey : Int) :
    Option (RC × BTLeafNode × BTLeafNode × Int) :=
  if sibling.getKeyCount > 0 then some (-1, n, sibling, siblingKey)
  else
    let half := (c.ENTRIES_PER_PAGE + 1) / 2
    let eid := (n.locate key).2
    let split := if eid < half then half - 1 else half
    match memcpyFromChecked c.PAGE_SIZE (half * 12) n.buffer (4 + split * 12)
        ((c.ENTRIES_PER_PAGE - split) * 12) with
    | none => none
    | some copy =>
      let sibling1 := (sibling.splitFromSibling (c.ENTRIES_PER_PAGE - split) copy).2
      let n1 : BTLeafNode := ⟨wr32 n.buffer 0 split⟩
      let n2 := if split < half then (n1.insert c key rid).2 else n1
      let sibling2 := if split < half then sibling1 else (sibling1.insert c key rid).2
      let siblingKey1 :=
        match sibling2.readEntry 0 with
        | Except.ok (k, _) => k
        | Except.error _ => siblingKey
      some (0, n2, sibling2, siblingKey1)

/-- `BTLeafNode::getNextNodePtr`. -/
def BTLeafNode.getNextNodePtr (c : Config) (n : BTLeafNode) : PageId :=
  rd32 n.buffer (c.PAGE_SIZE - 4)

/-- `BTLeafNode::setNextNodePtr`. -/
def BTLeafNode.setNextNodePtr (c : Config) (n : BTLeafNode) (pid : PageId) : BTLeafNode :=
  ⟨wr32 n.buffer (c.PAGE_SIZE - 4) pid⟩

/-! ## `BTreeNode.cc`: non-leaf nodes

Layout: `count` at byte 0, the first child at byte 4, entry `i` at `8 + i * 8`
(key then child). -/

structure BTNonLeafNode where
  buffer : Buffer
  deriving DecidableEq, Repr

/-- `BTNonLeafNode::BTNonLeafNode()`. -/
def BTNonLeafNode.init (c : Config) : BTNonLeafNode := ⟨zeroPage c⟩

/-- `BTNonLeafNode::getKeyCount`. -/
def BTNonLeafNode.getKeyCount (n : BTNonLeafNode) : Int := rd32 n.buffer 0

/-- The `for` loop of `BTNonLeafNode::locate`; arguments as in
`BTLeafNode.locateLoop`, `ptr` is `8 + i * 8`. -/
def BTNonLeafNode.locateLoop (buffer : Buffer) (searchKey : Int) : Nat → Nat → Nat
  | 0, i => i
  | left + 1, i =>
    if rd32 buffer (8 + i * 8) > searchKey then i
    else BTNonLeafNode.locateLoop buffer searchKey left (i + 1)

/-- `BTNonLeafNode::locate(searchKey, eid)`. -/
def BTNonLeafNode.locate (n : BTNonLeafNode) (searchKey : Int) : Nat :=
  BTNonLeafNode.locateLoop n.buffer searchKey n.getKeyCount.toNat 0

/-- `BTNonLeafNode::insert(key, pid)`. -/
def BTNonLeafNode.insert (c : Config) (n : BTNonLeafNode) (key : Int) (pid : PageId) :
    RC × BTNonLeafNode :=
  let count := n.getKeyCount
  if count = c.KEYS_PER_PAGE then (RC_NODE_FULL, n)
  else
    let eid := n.locate key
    let ptr := 4 + 4 + eid * 8
    let b1 := if (eid : Int) ≠ count then
                memmove n.buffer (ptr + 8) ptr ((count - eid).toNat * 8)
              else n.buffer
    let b2 := wr32 (wr32 b1 ptr key) (ptr + 4) pid
    (0, ⟨wr32 b2 0 (count + 1)⟩)

/-- `BTNonLeafNode::splitFromSibling(count, sibPid1, data, dsize)`. -/
def BTNonLeafNode.splitFromSibling (n : BTNonLeafNode) (count : Nat) (sibPid1 : PageId)
    (data : Buffer) (dsize : Nat) : RC × BTNonLeafNode :=
  if n.getKeyCount > 0 then (-1, n)
  else (0, ⟨memcpyInto (wr32 (wr32 n.buffer 0 count) 4 sibPid1) 8 data dsize⟩)

/-- The three-way branch of `BTNonLeafNode::insertAndSplit` on `eid` against
`half`: `midKey`, `sibPid1` and the buffer afterwards (`ptr` is byte 8).  Every
access is checked against the page; `none` when one leaves it. -/
def BTNonLeafNode.splitBranch (c : Config) (b : Buffer) (key : Int) (pid : PageId)
    (eid half : Nat) : Option (Int × PageId × Buffer) :=
  if eid = half then some (key, pid, b)
  else if eid < half then do
    let h := half - 1
    let midKey ← rd32Checked c.PAGE_SIZE b (8 + h * 8)
    let sibPid1 ← rd32Checked c.PAGE_SIZE b (8 + h * 8 + 4)
    let tmp := 8 + eid * 8
    let b1 ← memmoveChecked c.PAGE_SIZE b (tmp + 8) tmp ((h - eid) * 8)
    let b2 ← wr32Checked c.PAGE_SIZE b1 tmp key
    let b3 ← wr32Checked c.PAGE_SIZE b2 (tmp + 4) pid
    some (midKey, sibPid1, b3)
  else do
    let midKey ← rd32Checked c.PAGE_SIZE b (8 + half * 8)
    let sibPid1 ← rd32Checked c.PAGE_SIZE b (8 + half * 8 + 4)
    let b1 ← memmoveChecked c.PAGE_SIZE b (8 + half * 8) (8 + (half + 1) * 8)
      ((eid - half) * 8)
    let b2 ← wr32Checked c.PAGE_SIZE b1 (8 + eid * 8) key
    let b3 ← wr32Checked c.PAGE_SIZE b2 (8 + eid * 8 + 4) pid
    some (midKey, sibPid1, b3)

/-- `BTNonLeafNode::insertAndSplit(key, pid, sibling, midKey)`: the code, this
node, the sibling and `midKey` afterwards; `none` when an access leaves the page
buffer.  In every branch `half` has its initial value again when the sibling's
part is copied. -/
def BTNonLeafNode.insertAndSplit (c : Config) (n : BTNonLeafNode) (key : Int) (pid : PageId)
    (sibling : BTNonLeafNode) (midKey : Int) :
    Option (RC × BTNonLeafNode × BTNonLeafNode × Int) :=
  if sibling.getKeyCount > 0 then some (-1, n, sibling, midKey)
  else
    let half := (c.KEYS_PER_PAGE + 1) / 2
    let sibSize := (c.KEYS_PER_PAGE / 2) * 8
    let eid := n.locate key
    let b0 := wr32 n.buffer 0 half
    match BTNonLeafNode.splitBranch c b0 key pid eid half with
    | none => none
    | some (midKey1, sibPid1, b3) =>
      match memcpyFromChecked c.PAGE_SIZE sibSize b3 (8 + half * 8) sibSize with
      | none => none
      | some copy =>
        let sibling1 :=
          (sibling.splitFromSibling (c.KEYS_PER_PAGE / 2) sibPid1 copy sibSize).2
        some (0, ⟨b3⟩, sibling1, midKey1)

/-- The `for` loop of `BTNonLeafNode::locateChildPtr` together with the final
`memcpy(&pid, ptr - sizeof(PageId), ...)`; `ptr` is `8 + i * 8`. -/
def BTNonLeafNode.locateChildPtrLoop (buffer : Buffer) (searchKey : Int) :
    Nat → Nat → PageId
  | 0, i => rd32 buffer (8 + i * 8 - 4)
  | left + 1, i =>
    let key := rd32 buffer (8 + i * 8)
    if key = searchKey then rd32 buffer (8 + i * 8 + 4)
    else if key > searchKey then rd32 buffer (8 + i * 8 - 4)
    else BTNonLeafNode.locateChildPtrLoop buffer searchKey left (i + 1)

/-- `BTNonLeafNode::locateChildPtr(searchKey, pid)`. -/
def BTNonLeafNode.locateChildPtr (n : BTNonLeafNode) (searchKey : Int) : PageId :=
  BTNonLeafNode.locateChildPtrLoop n.buffer searchKey n.getKeyCount.toNat 0

/-- `BTNonLeafNode::initializeRoot(pid1, key, pid2)`. -/
def BTNonLeafNode.initializeRoot (n : BTNonLeafNode) (pid1 : PageId) (key : Int)
    (pid2 : PageId) : BTNonLeafNode :=
  ⟨wr32 (wr32 (wr32 (wr32 n.buffer 0 1) 4 pid1) 8 key) 12 pid2⟩

/-! ## The page file -/

/-- Modelled from the spec: the mode of `PageFile::open` (section 4.1,
`mode ∈ {read, write}`); `PageFile.cc` is not among the sources. -/
inductive Mode where
  | read | write
  deriving DecidableEq, Repr

/-- Modelled from the spec: `PageFile` (section 4.1), a dense sequence of pages
starting at page 0, and whether it was opened read-only. -/
structure PageFile where
  pages : List Buffer
  readOnly : Bool
  deriving DecidableEq, Repr

/-- Modelled from the spec: `PageFile::open`; the file is `none` when it does not
exist.  Write mode creates a missing file, read mode fails with `FileOpenFailed`. -/
def PageFile.openFile (file : Option (List Buffer)) (mode : Mode) : Except RC PageFile :=
  match file, mode with
  | some pages, Mode.read => Except.ok ⟨pages, true⟩
  | some pages, Mode.write => Except.ok ⟨pages, false⟩
  | none, Mode.read => Except.error RC_FILE_OPEN_FAILED
  | none, Mode.write => Except.ok ⟨[], false⟩

/-- Modelled from the spec: `PageFile::endPid`, the smallest pid not yet allocated. -/
def PageFile.endPid (pf : PageFile) : PageId := pf.pages.length

/-- Modelled from the spec: `PageFile::read`, `InvalidPid` if `pid < 0` or
`pid ≥ end_pid`. -/
def PageFile.read (pf : PageFile) (pid : PageId) : Except RC Buffer :=
  if pid < 0 ∨ pid ≥ pf.endPid then Except.error RC_INVALID_PID
  else Except.ok (pf.pages.getD pid.toNat [])

/-- Modelled from the spec: `PageFile::write`; writing at `end_pid` extends the
file, beyond it fails with `InvalidPid`, and a read-only file cannot be written. -/
def PageFile.write (pf : PageFile) (pid : PageId) (buf : Buffer) : RC × PageFile :=
  if pf.readOnly then (RC_FILE_WRITE_FAILED, pf)
  else if pid < 0 ∨ pid > pf.endPid then (RC_INVALID_PID, pf)
  else if pid = pf.endPid then (0, { pf with pages := pf.pages ++ [buf] })
  else (0, { pf with pages := pf.pages.set pid.toNat buf })

/-! ## `BTreeIndex.cc` -/

/-- `IndexCursor`. -/
structure IndexCursor where
  pid : PageId
  eid : Int
  deriving DecidableEq, Repr

structure BTreeIndex where
  pf : PageFile
  rootPid : PageId
  treeHeight : Int
  deriving DecidableEq, Repr

/-- `BTreeIndex::BTreeIndex()`: `rootPid(-1), treeHeight(0)`. -/
def BTreeIndex.init : BTreeIndex := ⟨⟨[], true⟩, -1, 0⟩

/-- `BTreeIndex::open(indexname, mode)`; `file` is the content of the named file,
`none` when it does not exist.  The bytes of the local page buffer that the code
leaves unset are taken to be zero. -/
def BTreeIndex.openIndex (c : Config) (t : BTreeIndex) (file : Option (List Buffer))
    (mode : Mode) : RC × BTreeIndex :=
  match PageFile.openFile file mode with
  | Except.error rc => (rc, t)
  | Except.ok pf =>
    if pf.endPid = 0 then
      let buffer := wr32 (wr32 (zeroPage c) 0 t.rootPid) 4 t.treeHeight
      let w := pf.write 0 buffer
      if w.1 < 0 then (w.1, { t with pf := w.2 }) else (0, { t with pf := w.2 })
    else
      match pf.read 0 with
      | Except.error rc => (rc, { t with pf := pf })
      | Except.ok buffer => (0, ⟨pf, rd32 buffer 0, rd32 buffer 4⟩)

/-- `BTreeIndex::close()`: the code and the content of the file afterwards. -/
def BTreeIndex.close (c : Config) (t : BTreeIndex) : RC × List Buffer :=
  let buffer := wr32 (wr32 (zeroPage c) 0 t.rootPid) 4 t.treeHeight
  let w := t.pf.write 0 buffer
  if w.1 < 0 then (w.1, w.2.pages) else (0, w.2.pages)

/-- `BTreeIndex::insertHelper(key, rid, nodeId, level, keyUp, newNodeId)`: the code,
the page file, `keyUp` and `newNodeId` afterwards.  The first argument bounds the
recursion depth; `none` when it is used up or a split leaves a buffer. -/
def BTreeIndex.insertHelper (c : Config) (treeHeight : Int) (key : Int) (rid : RecordId) :
    Nat → PageFile → PageId → Int → Int → PageId → Option (RC × PageFile × Int × PageId)
  | 0, _, _, _, _, _ => none
  | fuel + 1, pf, nodeId, level, keyUp, newNodeId =>
    if level < 0 then some (-1, pf, keyUp, newNodeId)
    else if level = treeHeight then
      match pf.read nodeId with
      | Except.error rc => some (rc, pf, keyUp, newNodeId)
      | Except.ok buf =>
        let node : BTLeafNode := ⟨buf⟩
        let r := node.insert c key rid
        if r.1 = RC_NODE_FULL then
          match node.insertAndSplit c key rid (BTLeafNode.init c) keyUp with
          | none => none
          | some (rc, node1, sibling1, keyUp1) =>
            if rc < 0 then some (rc, pf, keyUp1, newNodeId)
            else
              let newNodeId1 := pf.endPid
              let sibling2 := sibling1.setNextNodePtr c (node1.getNextNodePtr c)
              let node2 := node1.setNextNodePtr c newNodeId1
              let w1 := pf.write newNodeId1 sibling2.buffer
              if w1.1 < 0 then some (w1.1, w1.2, keyUp1, newNodeId1)
              else
                let w2 := w1.2.write nodeId node2.buffer
                if w2.1 < 0 then some (w2.1, w2.2, keyUp1, newNodeId1)
                else some (0, w2.2, keyUp1, newNodeId1)
        else
          let w := pf.write nodeId r.2.buffer
          if w.1 < 0 then some (w.1, w.2, keyUp, newNodeId)
          else some (0, w.2, keyUp, newNodeId)
    else
      match pf.read nodeId with
      | Except.error rc => some (rc, pf, keyUp, newNodeId)
      | Except.ok buf =>
        let node : BTNonLeafNode := ⟨buf⟩
        let childId := node.locateChildPtr key
        match BTreeIndex.insertHelper c treeHeight key rid fuel pf childId (level + 1)
            keyUp newNodeId with
        | none => none
        | some (rc, pf1, keyUp1, newNodeId1) =>
          if rc < 0 then some (rc, pf1, keyUp1, newNodeId1)
          else if newNodeId1 ≠ -1 then
            let r := node.insert c keyUp1 newNodeId1
            if r.1 = RC_NODE_FULL then
              match node.insertAndSplit c keyUp1 newNodeId1 (BTNonLeafNode.init c) keyUp1 with
              | none => none
              | some (rc2, node1, sibling1, keyUp2) =>
                if rc2 < 0 then some (rc2, pf1, keyUp2, newNodeId1)
                else
                  let newNodeId2 := pf1.endPid
                  let w1 := pf1.write newNodeId2 sibling1.buffer
                  if w1.1 < 0 then some (w1.1, w1.2, keyUp2, newNodeId2)
                  else
                    let w2 := w1.2.write nodeId node1.buffer
                    if w2.1 < 0 then some (w2.1, w2.2, keyUp2, newNodeId2)
                    else some (0, w2.2, keyUp2, newNodeId2)
            else
              let w := pf1.write nodeId r.2.buffer
              if w.1 < 0 then some (w.1, w.2, -1, -1)
              else some (0, w.2, -1, -1)
          else some (0, pf1, keyUp1, newNodeId1)

/-- `BTreeIndex::insert(key, rid)`: the code and the index afterwards.  The helper
runs from level 1 down to level `treeHeight`, which bounds its depth. -/
def BTreeIndex.insert (c : Config) (t : BTreeIndex) (key : Int) (rid : RecordId) :
    Option (RC × BTreeIndex) :=
  if t.treeHeight = 0 then
    let node := ((BTLeafNode.init c).insert c key rid).2
    let rootPid := t.pf.endPid
    let w := t.pf.write rootPid node.buffer
    if w.1 < 0 then some (w.1, ⟨w.2, rootPid, t.treeHeight⟩)
    else some (0, ⟨w.2, rootPid, 1⟩)
  else
    match BTreeIndex.insertHelper c t.treeHeight key rid ((t.treeHeight - 1).toNat + 1)
        t.pf t.rootPid 1 (-1) (-1) with
    | none => none
    | some (rc, pf1, keyUp, newNodeId) =>
      if rc < 0 then some (rc, { t with pf := pf1 })
      else if newNodeId ≠ -1 then
        let newRoot := (BTNonLeafNode.init c).initializeRoot t.rootPid keyUp newNodeId
        let rootPid := pf1.endPid
        let w := pf1.write rootPid newRoot.buffer
        if w.1 < 0 then some (w.1, ⟨w.2, rootPid, t.treeHeight⟩)
        else some (0, ⟨w.2, rootPid, t.treeHeight + 1⟩)
      else some (0, { t with pf := pf1 })

/-- The `for (int i = 1; i < treeHeight; i++)` loop of `BTreeIndex::locate`: the
first argument is the number of iterations left, the second is `pid`. -/
def BTreeIndex.descend (t : BTreeIndex) (searchKey : Int) : Nat → PageId → Except RC PageId
  | 0, pid => Except.ok pid
  | left + 1, pid =>
    match t.pf.read pid with
    | Except.error rc => Except.error rc
    | Except.ok buf =>
      BTreeIndex.descend t searchKey left ((⟨buf⟩ : BTNonLeafNode).locateChildPtr searchKey)

/-- `BTreeIndex::locate(searchKey, cursor)`: the code and the cursor afterwards. -/
def BTreeIndex.locate (t : BTreeIndex) (searchKey : Int) (cursor : IndexCursor) :
    RC × IndexCursor :=
  match BTreeIndex.descend t searchKey (t.treeHeight - 1).toNat t.rootPid with
  | Except.error rc => (rc, cursor)
  | Except.ok pid =>
    match t.pf.read pid with
    | Except.error rc => (rc, cursor)
    | Except.ok buf =>
      let r := (⟨buf⟩ : BTLeafNode).locate searchKey
      (r.1, ⟨pid, r.2⟩)

/-- `BTreeIndex::readForward(cursor, key, rid)`: an error code, or the cursor, key
and rid afterwards. -/
def BTreeIndex.readForward (c : Config) (t : BTreeIndex) (cursor : IndexCursor) :
    Except RC (IndexCursor × Int × RecordId) :=
  match t.pf.read cursor.pid with
  | Except.error rc => Except.error rc
  | Except.ok buf =>
    let node : BTLeafNode := ⟨buf⟩
    match node.readEntry cursor.eid with
    | Except.error rc => Except.error rc
    | Except.ok (key, rid) =>
      if cursor.eid + 1 ≥ c.ENTRIES_PER_PAGE then
        Except.ok (⟨node.getNextNodePtr c, 0⟩, key, rid)
      else Except.ok (⟨cursor.pid, cursor.eid + 1⟩, key, rid)

/-! ## `SqlEngine.cc`: `select` -/

/-- Modelled from the spec: `RecordFile` (declared in `RecordFile.h`, not among the
sources), "an opaque sequence of `(key, value)` tuples addressable by
`RecordId`"; the rows are listed in `RecordId` order, the order in which the
scan `rid = (0,0); rid < endRid(); ++rid` meets them. -/
structure RecordFile where
  rows : List (RecordId × Int × String)
  deriving DecidableEq, Repr

/-- Modelled from the spec: `RecordFile::read(rid, key, value)`. -/
def RecordFile.read (rf : RecordFile) (rid : RecordId) : Except RC (Int × String) :=
  match rf.rows.find? (fun row => decide (row.1 = rid)) with
  | some row => Except.ok row.2
  | none => Except.error RC_INVALID_RID

/-- One line written to standard output: `printTuple` writes the first three
forms, the final `count(*)` line is the fourth. -/
inductive Line where
  | key (k : Int)
  | value (v : String)
  | both (k : Int) (v : String)
  | count (n : Int)
  deriving DecidableEq, Repr

/-- `printTuple(attr, key, value)`. -/
def printTuple (attr : Int) (key : Int) (value : String) : List Line :=
  if attr = 1 then [Line.key key]
  else if attr = 2 then [Line.value value]
  else if attr = 3 then [Line.both key value]
  else []

/-- The outcome of the folding loop of `select`: either the early `return 0`
("range is invalid") or `newCond`, `NEonKey`, `lo`, `hi` after the loop. -/
inductive Folded where
  | invalid
  | range (newCond : List SelCond) (NEonKey : Nat) (lo hi : Int)
  deriving DecidableEq, Repr

/-- The `for` loop of `select` over `cond` that calls `processRange`. -/
def SqlEngine.foldLoop : List SelCond → List SelCond → Nat → Int → Int → Folded
  | [], newCond, NEonKey, lo, hi => Folded.range newCond NEonKey lo hi
  | cnd :: rest, newCond, NEonKey, lo, hi =>
    match cnd.attr with
    | Attr.key =>
      let r := processRange newCond cnd lo hi
      if r.1 = -1 then Folded.invalid
      else
        SqlEngine.foldLoop rest r.2.1 (if r.1 = -2 then NEonKey + 1 else NEonKey)
          r.2.2.1 r.2.2.2
    | Attr.value => SqlEngine.foldLoop rest (newCond ++ [cnd]) NEonKey lo hi

/-- The folding of `select`, starting from `lo = LONG_MIN, hi = LONG_MAX`. -/
def SqlEngine.fold (cond : List SelCond) : Folded :=
  SqlEngine.foldLoop cond [] 0 LONG_MIN LONG_MAX

/-- `int loKey = (int) lo, hiKey = (int) hi;`. -/
def SqlEngine.keyBounds (lo hi : Int) : Int × Int := (wrap32 lo, wrap32 hi)

/-- The state of a scan loop of `select` when it is left: `rc`, `count` and the
lines printed; `jump` is set when the loop was left by `goto exit_select`. -/
structure ScanState where
  rc : RC
  count : Int
  out : List Line
  jump : Bool
  deriving DecidableEq, Repr

/-- The first `while` loop of `select` (no residual predicate, `SELECT key`).  The
first argument bounds the number of iterations; `none` when it is used up. -/
def SqlEngine.keyOnlyLoop (c : Config) (tree : BTreeIndex) (attr hiKey : Int) :
    Nat → IndexCursor → ScanState → Option ScanState
  | 0, _, _ => none
  | fuel + 1, cur, st =>
    if cur.pid > 0 then
      match tree.readForward c cur with
      | Except.error rc => some { st with rc := rc }
      | Except.ok (cur1, key, _) =>
        if key > hiKey then some { st with rc := 0 }
        else
          SqlEngine.keyOnlyLoop c tree attr hiKey fuel cur1
            ⟨0, st.count + 1, st.out ++ printTuple attr key "", false⟩
    else some st

/-- The inner `for` loop of the second `while` loop:
`for (i ...) if (key == atoi(newCond[i].value)) continue;`.  Its `continue`
resumes this `for` loop, so both branches go on with the next `i`. -/
def SqlEngine.neInnerLoop (key : Int) : List SelCond → Unit
  | [] => ()
  | cnd :: rest =>
    if key = atoi cnd.value then SqlEngine.neInnerLoop key rest
    else SqlEngine.neInnerLoop key rest

/-- The second `while` loop of `select` (every residual is an `NE` on key,
`SELECT key`). -/
def SqlEngine.neLoop (c : Config) (tree : BTreeIndex) (attr hiKey : Int)
    (newCond : List SelCond) : Nat → IndexCursor → ScanState → Option ScanState
  | 0, _, _ => none
  | fuel + 1, cur, st =>
    if cur.pid > 0 then
      match tree.readForward c cur with
      | Except.error rc => some { st with rc := rc }
      | Except.ok (cur1, key, _) =>
        if key > hiKey then some { st with rc := 0 }
        else
          match SqlEngine.neInnerLoop key newCond with
          | () =>
            SqlEngine.neLoop c tree attr hiKey newCond fuel cur1
              ⟨0, st.count + 1, st.out ++ printTuple attr key "", false⟩
    else some st

/-- The third `while` loop of `select` (the general index scan). -/
def SqlEngine.generalLoop (c : Config) (tree : BTreeIndex) (rf : RecordFile)
    (attr hiKey : Int) (newCond : List SelCond) :
    Nat → IndexCursor → ScanState → Option ScanState
  | 0, _, _ => none
  | fuel + 1, cur, st =>
    if cur.pid > 0 then
      match tree.readForward c cur with
      | Except.error rc => some { st with rc := rc }
      | Except.ok (cur1, key, rid) =>
        if key > hiKey then some { st with rc := 0 }
        else
          match rf.read rid with
          | Except.error rc => some { st with rc := rc, jump := true }
          | Except.ok (key1, value) =>
            if checkConditions newCond key1 value then
              SqlEngine.generalLoop c tree rf attr hiKey newCond fuel cur1
                ⟨0, st.count + 1, st.out ++ printTuple attr key1 value, false⟩
            else
              SqlEngine.generalLoop c tree rf attr hiKey newCond fuel cur1
                { st with rc := 0 }
    else some st

/-- The loop under the label `scan_table`, over the rows in `RecordId` order. -/
def SqlEngine.scanTable (attr : Int) (cond : List SelCond) :
    List (RecordId × Int × String) → Int → List Line → Int × List Line
  | [], count, out => (count, out)
  | row :: rest, count, out =>
    if checkConditions cond row.2.1 row.2.2 then
      SqlEngine.scanTable attr cond rest (count + 1) (out ++ printTuple attr row.2.1 row.2.2)
    else SqlEngine.scanTable attr cond rest count out

/-- The end of `select`: the `count(*)` line and `rc = 0`. -/
def SqlEngine.finish (attr : Int) (count : Int) (out : List Line) : RC × List Line :=
  (0, if attr = 4 then out ++ [Line.count count] else out)

/-- A bound on the iterations of a terminating index scan: every iteration but the
last reads one entry, at most `ENTRIES_PER_PAGE` in a row on one page. -/
def SqlEngine.scanFuel (c : Config) (tree : BTreeIndex) : Nat :=
  (tree.pf.pages.length + 1) * c.ENTRIES_PER_PAGE + 1

/-- `SqlEngine::select(attr, table, cond)`: the returned code and the lines
printed to standard output.  `table` is the content of `table.tbl` and `index`
that of `table.idx`, `none` when the file does not exist. -/
def SqlEngine.select (c : Config) (attr : Int) (table : Option RecordFile)
    (index : Option (List Buffer)) (cond : List SelCond) : Option (RC × List Line) :=
  match table with
  | none => some (RC_FILE_OPEN_FAILED, [])
  | some rf =>
    let scan := SqlEngine.scanTable attr cond rf.rows 0 []
    let opened := BTreeIndex.init.openIndex c index Mode.read
    if opened.1 = 0 then
      let tree := opened.2
      match SqlEngine.fold cond with
      | Folded.invalid => some (0, [])
      | Folded.range newCond NEonKey lo hi =>
        if lo = LONG_MIN ∧ hi = LONG_MAX then some (SqlEngine.finish attr scan.1 scan.2)
        else
          let loKey := (SqlEngine.keyBounds lo hi).1
          let hiKey := (SqlEngine.keyBounds lo hi).2
          let located := tree.locate loKey ⟨0, 0⟩
          let rc := located.1
          let cur := located.2
          if rc ≠ 0 ∧ rc ≠ RC_NO_SUCH_RECORD then some (rc, [])
          else
            let st0 : ScanState := ⟨rc, 0, [], false⟩
            let fuel := SqlEngine.scanFuel c tree
            let scanned :=
              if rc = 0 ∧ newCond = [] ∧ attr = 1 then
                SqlEngine.keyOnlyLoop c tree attr hiKey fuel cur st0
              else if rc = 0 ∧ NEonKey = newCond.length ∧ attr = 1 then
                SqlEngine.neLoop c tree attr hiKey newCond fuel cur st0
              else if rc = 0 then
                SqlEngine.generalLoop c tree rf attr hiKey newCond fuel cur st0
              else some st0
            match scanned with
            | none => none
            | some st =>
              if st.jump then some (st.rc, st.out)
              else if st.rc < 0 ∧ st.rc ≠ RC_NO_SUCH_RECORD then some (st.rc, st.out)
              else some (SqlEngine.finish attr st.count st.out)
    else some (SqlEngine.finish attr scan.1 scan.2)

/-! ## Clients used to state the properties -/

/-- Inserts the pairs in order with `BTreeIndex::insert`; `some` only when every
call returned 0. -/
def BTreeIndex.insertAll (c : Config) : List (Int × RecordId) → BTreeIndex → Option BTreeIndex
  | [], t => some t
  | kr :: rest, t =>
    match t.insert c kr.1 kr.2 with
    | some (rc, t1) => if rc = 0 then BTreeIndex.insertAll c rest t1 else none
    | none => none

/-- A freshly opened empty index: `BTreeIndex::open` in write mode on a file that
does not exist yet. -/
def BTreeIndex.fresh (c : Config) : BTreeIndex :=
  (BTreeIndex.init.openIndex c none Mode.write).2

/-- Calls `readForward` repeatedly while the cursor's pid is positive and the call
returns 0, collecting the pairs read; returns them with the code of the last call
(0 when the scan ended on `pid <= 0`).  `none` when the fuel is used up. -/
def BTreeIndex.forwardScan (c : Config) (t : BTreeIndex) :
    Nat → IndexCursor → List (Int × RecordId) → Option (RC × List (Int × RecordId))
  | 0, _, _ => none
  | fuel + 1, cur, acc =>
    if cur.pid > 0 then
      match t.readForward c cur with
      | Except.error rc => some (rc, acc)
      | Except.ok (cur1, key, rid) => BTreeIndex.forwardScan c t fuel cur1 (acc ++ [(key, rid)])
    else some (0, acc)

/-- The scan of the round-trip property: `locate(INT_MIN)`, then `readForward`
until the cursor's pid is `<= 0`. -/
def BTreeIndex.scanFromMin (c : Config) (t : BTreeIndex) :
    Option (RC × List (Int × RecordId)) :=
  BTreeIndex.forwardScan c t (SqlEngine.scanFuel c t) (t.locate INT_MIN ⟨0, 0⟩).2 []

/-- The key of entry `i` of a leaf: the word `BTLeafNode::readEntry` reads at
`4 + i * 12 + 8`. -/
def BTLeafNode.keyAt (n : BTLeafNode) (i : Nat) : Int := rd32 n.buffer (4 + i * 12 + 8)

/-- The keys of the entries `0 .. count - 1` of a leaf, in entry order. -/
def BTLeafNode.keys (n : BTLeafNode) : List Int :=
  (List.range n.getKeyCount.toNat).map n.keyAt

/-- The keys of a leaf are strictly increasing. -/
def BTLeafNode.Sorted (n : BTLeafNode) : Prop := n.keys.Pairwise (fun a b => a < b)

instance BTLeafNode.decidableSorted (n : BTLeafNode) : Decidable n.Sorted := by
  unfold BTLeafNode.Sorted; infer_instance

/-- The pairs `(k, rid)` for the keys `ks`, the rid of key `k` being `(0, k)`. -/
def pairsOf (ks : List Int) : List (Int × RecordId) := ks.map (fun k => (k, ⟨0, k⟩))

/-- The keys `10, 20, ..., 10 * n` in ascending order. -/
def tens (n : Nat) : List Int := (List.range n).map (fun i => 10 * ((i : Int) + 1))

/-- A table whose rows are the keys `ks`, the row of key `k` stored at rid `(0, k)`
with the value `"v"`. -/
def tableOf (ks : List Int) : RecordFile := ⟨ks.map (fun k => (⟨0, k⟩, k, "v"))⟩

/-- The index file that `SqlEngine::load` leaves for the pairs: opened in write
mode, one `insert` per pair, then `close`; `some` only when every call returned 0. -/
def SqlEngine.indexFile (c : Config) (pairs : List (Int × RecordId)) : Option (List Buffer) :=
  match BTreeIndex.insertAll c pairs (BTreeIndex.fresh c) with
  | none => none
  | some t => if (t.close c).1 = 0 then some (t.close c).2 else none


/-! ## Views of nodes used to state the properties -/

/-- The entries of both node kinds fit into a page: `ENTRIES_PER_PAGE` leaf
entries between the count and the next-leaf pointer, `KEYS_PER_PAGE` non-leaf
entries after the count and the first child.  The constants derived from a page
size (`Config.ofPageSize`) satisfy it. -/
def Config.Fits (c : Config) : Prop :=
  4 + c.ENTRIES_PER_PAGE * 12 + 4 ≤ c.PAGE_SIZE ∧ 4 + 4 + c.KEYS_PER_PAGE * 8 ≤ c.PAGE_SIZE

instance Config.decidableFits (c : Config) : Decidable c.Fits := by
  unfold Config.Fits; infer_instance

/-- The node's buffer is a whole page. -/
def BTLeafNode.IsPage (c : Config) (n : BTLeafNode) : Prop :=
  n.buffer.length = c.PAGE_SIZE / 4

instance BTLeafNode.decidableIsPage (c : Config) (n : BTLeafNode) : Decidable (n.IsPage c) := by
  unfold BTLeafNode.IsPage; infer_instance

/-- The `RecordId` of entry `i` of a leaf: the two words `BTLeafNode::readEntry`
reads at `4 + i * 12`. -/
def BTLeafNode.ridAt (n : BTLeafNode) (i : Nat) : RecordId :=
  ⟨rd32 n.buffer (4 + i * 12), rd32 n.buffer (4 + i * 12 + 4)⟩

/-- The entries `0 .. count - 1` of a leaf as `(key, rid)` pairs, in entry order. -/
def BTLeafNode.entries (n : BTLeafNode) : List (Int × RecordId) :=
  (List.range n.getKeyCount.toNat).map (fun i => (n.keyAt i, n.ridAt i))

/-- The page image of a leaf that holds `entries` (in this order) and the next-leaf
pointer `next`: the count, then `(rid.pid, rid.sid, key)` per entry, zero up to
the last word, which is the pointer. -/
def BTLeafNode.ofEntries (c : Config) (entries : List (Int × RecordId)) (next : PageId) :
    BTLeafNode :=
  ⟨(entries.length : Int) :: (entries.flatMap (fun e => [e.2.pid, e.2.sid, e.1]) ++
    (List.replicate (c.PAGE_SIZE / 4 - 2 - 3 * entries.length) 0 ++ [next]))⟩

/-- The node's buffer is a whole page. -/
def BTNonLeafNode.IsPage (c : Config) (n : BTNonLeafNode) : Prop :=
  n.buffer.length = c.PAGE_SIZE / 4

instance BTNonLeafNode.decidableIsPage (c : Config) (n : BTNonLeafNode) :
    Decidable (n.IsPage c) := by
  unfold BTNonLeafNode.IsPage; infer_instance

/-- The first child `p0` of a non-leaf node, at byte 4. -/
def BTNonLeafNode.firstChild (n : BTNonLeafNode) : PageId := rd32 n.buffer 4

/-- The key of entry `i` of a non-leaf node, at byte `8 + i * 8`. -/
def BTNonLeafNode.keyAt (n : BTNonLeafNode) (i : Nat) : Int := rd32 n.buffer (8 + i * 8)

/-- The child of entry `i` of a non-leaf node, at byte `8 + i * 8 + 4`. -/
def BTNonLeafNode.pidAt (n : BTNonLeafNode) (i : Nat) : PageId := rd32 n.buffer (8 + i * 8 + 4)

/-- The keys of the entries `0 .. count - 1` of a non-leaf node. -/
def BTNonLeafNode.keys (n : BTNonLeafNode) : List Int :=
  (List.range n.getKeyCount.toNat).map n.keyAt

/-- The entries `0 .. count - 1` of a non-leaf node as `(key, child)` pairs. -/
def BTNonLeafNode.entries (n : BTNonLeafNode) : List (Int × PageId) :=
  (List.range n.getKeyCount.toNat).map (fun i => (n.keyAt i, n.pidAt i))

/-- The keys of a non-leaf node are strictly increasing. -/
def BTNonLeafNode.Sorted (n : BTNonLeafNode) : Prop := n.keys.Pairwise (fun a b => a < b)

instance BTNonLeafNode.decidableSorted (n : BTNonLeafNode) : Decidable n.Sorted := by
  unfold BTNonLeafNode.Sorted; infer_instance

/-- The page image of a non-leaf node with first child `p0` that holds `entries`
(in this order): the count, `p0`, then `(key, child)` per entry, zero after. -/
def BTNonLeafNode.ofEntries (c : Config) (p0 : PageId) (entries : List (Int × PageId)) :
    BTNonLeafNode :=
  ⟨(entries.length : Int) :: p0 :: (entries.flatMap (fun e => [e.1, e.2]) ++
    List.replicate (c.PAGE_SIZE / 4 - 2 - 2 * entries.length) 0)⟩

/-- The entries `(10, 1), (20, 2), ..., (10 * n, n)` of a non-leaf node. -/
def tensChildren (n : Nat) : List (Int × PageId) :=
  (List.range n).map (fun i => (10 * ((i : Int) + 1), (i : Int) + 1))

/-- Spec-side: `half = ⌈(k + 1) / 2⌉`, the cut point the specification names for a
node with `k` slots. -/
def specHalf (k : Nat) : Nat := (k + 1 + 1) / 2

/-- A full leaf with the shipped constants: the 84 keys 10, 20, ..., 840 (key `k` with
record id `(0, k)`), next-leaf pointer 7. -/
def fullLeaf : BTLeafNode := BTLeafNode.ofEntries shipped (pairsOf (tens 84)) 7

/-- A full non-leaf node with the shipped constants: first child 0 and the 127 keys
10, 20, ..., 1270, key `10 * i` followed by child `i`. -/
def fullNonLeaf : BTNonLeafNode := BTNonLeafNode.ofEntries shipped 0 (tensChildren 127)

/-! ## The chain of leaves -/

/-- The index of the spec's scenarios (`ENTRIES_PER_PAGE = KEYS_PER_PAGE = 4`) after the
keys 10, 20, 30, 40 were inserted into the empty index: the root is a full leaf. -/
def fourKeys : BTreeIndex :=
  (BTreeIndex.insertAll illustration (pairsOf (tens 4)) (BTreeIndex.fresh illustration)).getD
    BTreeIndex.init

/-- The children of a non-leaf node, `p_0, ..., p_count`: `p_0` is the first child and
`p_j`, for `j ≥ 1`, the child stored after the key of entry `j - 1`. -/
def BTNonLeafNode.childAt (n : BTNonLeafNode) (j : Nat) : PageId :=
  if j = 0 then n.firstChild else n.pidAt (j - 1)

/-! ## The leaves of a tree -/

theorem wrap64_id (x : Int) (h1 : LONG_MIN ≤ x) (h2 : x ≤ LONG_MAX) : wrap64 x = x := by
  unfold wrap64
  simp only [LONG_MIN, LONG_MAX] at h1 h2
  omega

/-- The second switch of `checkConditions` lets a tuple pass only under `GE` with
a zero difference or under `LE` with a difference that is not positive. -/
theorem switchComp_true_iff (comp : Comparator) (diff : Int) :
    switchComp comp diff = true ↔
      (comp = Comparator.GE ∧ diff = 0) ∨ (comp = Comparator.LE ∧ diff ≤ 0) := by
  cases comp <;>
    simp [switchComp, switchFromEQ, switchFromNE, switchFromGT, switchFromLT, switchFromGE,
      switchFromLE] <;> omega

theorem BTLeafNode.sorted_keyAt (n : BTLeafNode) (hs : n.Sorted) (i j : Nat) (hij : i < j)
    (hj : j < n.getKeyCount.toNat) : n.keyAt i < n.keyAt j := by
  unfold BTLeafNode.Sorted BTLeafNode.keys at hs
  have h := List.pairwise_iff_getElem.mp hs i j (by simp; omega) (by simp; omega) hij
  simpa using h

/-- The loop of `BTLeafNode::locate` started at `i` with every earlier key below
`k` stops at the first entry whose key is `k` or greater. -/
theorem BTLeafNode.locateLoop_spec (buf : Buffer) (k : Int) :
    ∀ (left i : Nat), (∀ j, j < i → rd32 buf (4 + j * 12 + 8) < k) →
      ∃ (e : Nat) (rc : RC), BTLeafNode.locateLoop buf k left i = (rc, (e : Int)) ∧
        i ≤ e ∧ e ≤ i + left ∧ (∀ j, j < e → rd32 buf (4 + j * 12 + 8) < k) ∧
        ((rc = 0 ∧ e < i + left ∧ rd32 buf (4 + e * 12 + 8) = k) ∨
         (rc = RC_NO_SUCH_RECORD ∧ (e < i + left → k < rd32 buf (4 + e * 12 + 8)))) := by
  intro left
  induction left with
  | zero =>
    intro i hi
    exact ⟨i, RC_NO_SUCH_RECORD, rfl, le_refl _, le_refl _, hi,
      Or.inr ⟨rfl, fun h => absurd h (by omega)⟩⟩
  | succ m ih =>
    intro i hi
    have hoff : 4 + 8 + i * 12 = 4 + i * 12 + 8 := by omega
    unfold BTLeafNode.locateLoop
    simp only [hoff]
    by_cases h1 : rd32 buf (4 + i * 12 + 8) = k
    · simp only [h1, if_true]
      exact ⟨i, 0, rfl, le_refl _, by omega, hi, Or.inl ⟨rfl, by omega, h1⟩⟩
    · by_cases h2 : rd32 buf (4 + i * 12 + 8) > k
      · simp only [h1, h2, if_true, if_false]
        exact ⟨i, RC_NO_SUCH_RECORD, rfl, le_refl _, by omega, hi, Or.inr ⟨rfl, fun _ => h2⟩⟩
      · simp only [h1, h2, if_false]
        have hi1 : ∀ j, j < i + 1 → rd32 buf (4 + j * 12 + 8) < k := by
          intro j hj
          by_cases hji : j < i
          · exact hi j hji
          · have : j = i := by omega
            subst this
            omega
        obtain ⟨e, rc, he, h3, h4, h5, h6⟩ := ih (i + 1) hi1
        refine ⟨e, rc, he, by omega, by omega, h5, ?_⟩
        rcases h6 with ⟨a, b, c⟩ | ⟨a, b⟩
        · exact Or.inl ⟨a, by omega, c⟩
        · exact Or.inr ⟨a, fun h => b (by omega)⟩

/-- What `readForward` does on a valid cursor: it returns the entry and moves to
the next leaf exactly when `eid + 1 >= ENTRIES_PER_PAGE`, whatever the leaf's
key count is. -/
theorem BTreeIndex.readForward_advance (c : Config) (t : BTreeIndex) (cursor : IndexCursor)
    (buf : Buffer) (hr : t.pf.read cursor.pid = Except.ok buf) (h0 : 0 ≤ cursor.eid)
    (h1 : cursor.eid < (⟨buf⟩ : BTLeafNode).getKeyCount) :
    ∃ key rid, (⟨buf⟩ : BTLeafNode).readEntry cursor.eid = Except.ok (key, rid) ∧
      t.readForward c cursor = Except.ok
        (if cursor.eid + 1 ≥ c.ENTRIES_PER_PAGE
          then ⟨(⟨buf⟩ : BTLeafNode).getNextNodePtr c, 0⟩
          else ⟨cursor.pid, cursor.eid + 1⟩, key, rid) := by
  have hre : ¬ (cursor.eid < 0 ∨ cursor.eid ≥ (⟨buf⟩ : BTLeafNode).getKeyCount) := by omega
  refine ⟨rd32 buf (4 + cursor.eid.toNat * 12 + 8),
    ⟨rd32 buf (4 + cursor.eid.toNat * 12), rd32 buf (4 + cursor.eid.toNat * 12 + 4)⟩, ?_, ?_⟩
  · simp only [BTLeafNode.readEntry, hre, if_false]
  · simp only [BTreeIndex.readForward, hr, BTLeafNode.readEntry, hre, if_false]
    split_ifs <;> rfl

/-- The 32-bit bounds after folding the single predicate `key >= v`: the upper
bound `(int) LONG_MAX` is `-1`. -/
theorem SqlEngine.keyBounds_single_GE (cnd : SelCond) (v : Int) (ha : cnd.attr = Attr.key)
    (hc : cnd.comp = Comparator.GE) (hv : atol cnd.value = v) (hmin : INT_MIN ≤ v)
    (hmax : v ≤ INT_MAX) :
    SqlEngine.fold [cnd] = Folded.range [] 0 v LONG_MAX ∧
    SqlEngine.keyBounds v LONG_MAX = (v, -1) := by
  simp only [INT_MIN, INT_MAX] at hmin hmax
  have h1 : ¬ v > LONG_MAX := by simp only [LONG_MAX]; omega
  have h2 : v > LONG_MIN := by simp only [LONG_MIN]; omega
  have h3 : wrap32 v = v := by unfold wrap32; omega
  have h4 : wrap32 LONG_MAX = -1 := by decide
  refine ⟨?_, ?_⟩
  · simp [SqlEngine.fold, SqlEngine.foldLoop, ha, processRange, hc, hv, processRangeGE, h1, h2]
  · simp [SqlEngine.keyBounds, h3, h4]

/-! ### C1: the round trip -/

set_option maxRecDepth 1000000 in
/-- C1: with `ENTRIES_PER_PAGE = 4` the five distinct keys 10, 20, 30, 40, 50 are
inserted into a freshly opened empty index, every insert returning 0.  The scan
`locate(INT_MIN)` then `readForward` until `pid <= 0` does not return the five
pairs: it returns the pairs of the keys 10 and 20 and then `readForward` fails
with `RC_INVALID_RID`, the cursor never reaching a pid `<= 0`.  With the shipped
constants the scan of an index holding only the keys 10 and 20 also ends on that
error instead of on `pid <= 0`. -/
theorem roundtrip_scan_stops_in_first_leaf :
    (BTreeIndex.insertAll illustration (pairsOf (tens 5)) (BTreeIndex.fresh illustration)).bind
        (fun t => t.scanFromMin illustration)
      = some (RC_INVALID_RID, pairsOf (tens 2)) ∧
    (BTreeIndex.insertAll shipped (pairsOf (tens 2)) (BTreeIndex.fresh shipped)).bind
        (fun t => t.scanFromMin shipped)
      = some (RC_INVALID_RID, pairsOf (tens 2)) := by
  decide!

/-! ### C2: `locate` after a non-leaf split -/

set_option maxRecDepth 1000000 in
/-- C2: with `ENTRIES_PER_PAGE = KEYS_PER_PAGE = 4`, the fourteen distinct keys
10, 20, ..., 110, 81, 82, 83 are inserted into an empty index, every insert
returning 0; the last insert splits the root (a non-leaf node) at position
`eid = 3 > half = 2`.  Afterwards `locate` does not find the inserted keys 81, 82
and 83: it returns `RC_NO_SUCH_RECORD` with the cursor one past the end of the
leaf at page 5, while a key of another leaf, 80, is still found.  The same
happens with the constants derived from a page of 56 bytes
(`ENTRIES_PER_PAGE = 4`, `KEYS_PER_PAGE = 6`) for the keys 10, 20, ..., 150, 101,
102, 103: before the last insert 101 and 102 are found, after it (root split at
`eid = 4 > half = 3`) none of 101, 102, 103 is. -/
theorem locate_misses_keys_after_root_split :
    (BTreeIndex.insertAll illustration (pairsOf (tens 11 ++ [81, 82, 83]))
        (BTreeIndex.fresh illustration)).map
        (fun t => (t.treeHeight, [t.locate 81 ⟨0, 0⟩, t.locate 82 ⟨0, 0⟩, t.locate 83 ⟨0, 0⟩,
          t.locate 80 ⟨0, 0⟩]))
      = some (3, [(RC_NO_SUCH_RECORD, ⟨5, 2⟩), (RC_NO_SUCH_RECORD, ⟨5, 2⟩),
          (RC_NO_SUCH_RECORD, ⟨5, 2⟩), (0, ⟨5, 1⟩)]) ∧
    Config.ofPageSize 56 = ⟨56, 4, 6⟩ ∧
    (BTreeIndex.insertAll (Config.ofPageSize 56) (pairsOf (tens 15 ++ [101, 102]))
        (BTreeIndex.fresh (Config.ofPageSize 56))).map
        (fun t => (t.treeHeight, [t.locate 101 ⟨0, 0⟩, t.locate 102 ⟨0, 0⟩]))
      = some (2, [(0, ⟨6, 2⟩), (0, ⟨6, 3⟩)]) ∧
    (BTreeIndex.insertAll (Config.ofPageSize 56) (pairsOf (tens 15 ++ [101, 102, 103]))
        (BTreeIndex.fresh (Config.ofPageSize 56))).map
        (fun t => (t.treeHeight, [t.locate 101 ⟨0, 0⟩, t.locate 102 ⟨0, 0⟩,
          t.locate 103 ⟨0, 0⟩]))
      = some (3, [(RC_NO_SUCH_RECORD, ⟨6, 2⟩), (RC_NO_SUCH_RECORD, ⟨6, 2⟩),
          (RC_NO_SUCH_RECORD, ⟨6, 2⟩)]) := by
  decide!

/-! ### C3: `readForward` at the end of a leaf that is not full -/

set_option maxRecDepth 1000000 in
/-- C3: with the shipped constants, in the index holding the keys 10 and 20 the
leaf at page 1 has `count = 2` and next-leaf pointer 0.  `readForward` at the
cursor `(1, 1)`, the last entry (`eid + 1 = count`), returns key 20 and leaves the
cursor at `(1, 2)` inside the same leaf, not at `(next_leaf_pid, 0) = (0, 0)`; the
next `readForward` fails with `RC_INVALID_RID`. -/
theorem readForward_stays_in_exhausted_leaf :
    (BTreeIndex.insertAll shipped (pairsOf [10, 20]) (BTreeIndex.fresh shipped)).map
        (fun t => (t.pf.read 1).map (fun b => [(⟨b⟩ : BTLeafNode).getKeyCount,
            (⟨b⟩ : BTLeafNode).getNextNodePtr shipped]))
      = some (Except.ok [2, 0]) ∧
    (BTreeIndex.insertAll shipped (pairsOf [10, 20]) (BTreeIndex.fresh shipped)).map
        (fun t => [t.readForward shipped ⟨1, 1⟩, t.readForward shipped ⟨1, 2⟩])
      = some [Except.ok (⟨1, 2⟩, 20, ⟨0, 20⟩), Except.error RC_INVALID_RID] := by
  decide!

/-! ### C4: `select` when the lower bound is not a stored key -/

set_option maxRecDepth 1000000 in
/-- C4: with the shipped constants, on the table with keys 10 and 20 and its index,
`SELECT key ... WHERE key >= 15 AND key <= 30` folds to the interval `[15, 30]`,
whose lower bound is not a stored key.  `select` returns 0 but prints nothing,
although the tuple with key 20 lies in the interval: every scan loop is guarded by
`rc == 0` and `locate` returned `RC_NO_SUCH_RECORD`. -/
theorem select_prints_nothing_when_lo_not_stored :
    SqlEngine.fold [⟨Attr.key, Comparator.GE, "15"⟩, ⟨Attr.key, Comparator.LE, "30"⟩]
      = Folded.range [] 0 15 30 ∧
    (SqlEngine.indexFile shipped (pairsOf [10, 20])).bind
        (fun idx => SqlEngine.select shipped 1 (some (tableOf [10, 20])) (some idx)
          [⟨Attr.key, Comparator.GE, "15"⟩, ⟨Attr.key, Comparator.LE, "30"⟩])
      = some (0, []) := by
  decide!

/-! ### C5: `checkConditions` -/

/-- C5: the single predicate `key = 5` holds of the tuple with key 5, yet
`checkConditions` returns false on it: the `EQ` case has no `break` and falls
through into the `NE` test. -/
theorem checkConditions_rejects_equal_key :
    checkConditions [⟨Attr.key, Comparator.EQ, "5"⟩] 5 "v" = false ∧
    SelCond.holds ⟨Attr.key, Comparator.EQ, "5"⟩ 5 "v" = true := by
  decide

/-! ### C6: the 32-bit bounds of the index walk -/

set_option maxRecDepth 1000000 in
/-- C6: the folding starts from `LONG_MIN` and `LONG_MAX`, not from `INT_MIN` and
`INT_MAX`.  For the single predicate `key >= 10` it ends with `hi = LONG_MAX`, and
`(int) hi` is `-1`, not `INT_MAX`; for the single predicate `key <= 10` it ends
with `lo = LONG_MIN`, and `(int) lo` is `0`, not `INT_MIN`.  So the stored key 10
satisfies `key >= 10` but is outside `[loKey, hiKey] = [10, -1]`, and `select`
prints nothing for that query on the indexed table with keys 10 and 20. -/
theorem keyBounds_truncate_open_ends :
    SqlEngine.fold [⟨Attr.key, Comparator.GE, "10"⟩] = Folded.range [] 0 10 LONG_MAX ∧
    SqlEngine.keyBounds 10 LONG_MAX = (10, -1) ∧
    SqlEngine.fold [⟨Attr.key, Comparator.LE, "10"⟩] = Folded.range [] 0 LONG_MIN 10 ∧
    SqlEngine.keyBounds LONG_MIN 10 = (0, 10) ∧
    (SqlEngine.indexFile shipped (pairsOf [10, 20])).bind
        (fun idx => SqlEngine.select shipped 1 (some (tableOf [10, 20])) (some idx)
          [⟨Attr.key, Comparator.GE, "10"⟩])
      = some (0, []) := by
  decide!

/-! ### C7: the key-only scan with `NE` residuals -/

set_option maxRecDepth 1000000 in
/-- C7: with the shipped constants, on the indexed table with keys 10, 15, 20, 25,
`SELECT key ... WHERE key >= 10 AND key <= 20 AND key <> 15` folds to `[10, 20]`
with the one residual `key <> 15` and takes the key-only scan with `NE`
residuals; it prints 10, 15 and 20: the key equal to the `NE` literal is not
skipped, because the `continue` belongs to the inner `for` loop. -/
theorem select_ne_scan_prints_excluded_key :
    SqlEngine.fold [⟨Attr.key, Comparator.GE, "10"⟩, ⟨Attr.key, Comparator.LE, "20"⟩,
        ⟨Attr.key, Comparator.NE, "15"⟩]
      = Folded.range [⟨Attr.key, Comparator.NE, "15"⟩] 1 10 20 ∧
    (SqlEngine.indexFile shipped (pairsOf [10, 15, 20, 25])).bind
        (fun idx => SqlEngine.select shipped 1 (some (tableOf [10, 15, 20, 25])) (some idx)
          [⟨Attr.key, Comparator.GE, "10"⟩, ⟨Attr.key, Comparator.LE, "20"⟩,
            ⟨Attr.key, Comparator.NE, "15"⟩])
      = some (0, [Line.key 10, Line.key 15, Line.key 20]) := by
  decide!

/-! ### C8: the fold table of `processRange` -/

/-- C8: for one key predicate whose literal `v = atol(value)` is a 32-bit integer
and a current interval `lo <= hi`, `processRange` does what the fold table says.
`EQ`: returns -1 iff `v` is outside `[lo, hi]`, otherwise sets `lo = hi = v`.
`GE`: returns -1 iff `v > hi`, otherwise sets `lo = max(lo, v)`.
`LE`: returns -1 iff `v < lo`, otherwise sets `hi = min(hi, v)`.
`GT` behaves as `GE` with the literal `v + 1`, `LT` as `LE` with `v - 1`.
`NE`: appends the predicate to the residual list (bounds unchanged, code -2) iff
`lo < v < hi`; returns -1 iff `v = lo = hi`; increments `lo` iff `v = lo < hi`;
decrements `hi` iff `v = hi > lo`; changes nothing when `v` is outside the
interval.  And the list `key = 5, key = 7` folds to the empty result. -/
theorem processRange_fold_table (newCond : List SelCond) (cnd : SelCond) (v lo hi : Int)
    (hv : atol cnd.value = v) (hmin : INT_MIN ≤ v) (hmax : v ≤ INT_MAX) (hlh : lo ≤ hi) :
    (cnd.comp = Comparator.EQ →
      ((processRange newCond cnd lo hi).1 = -1 ↔ (v < lo ∨ hi < v)) ∧
      (lo ≤ v → v ≤ hi → processRange newCond cnd lo hi = (0, newCond, v, v))) ∧
    (cnd.comp = Comparator.GE →
      ((processRange newCond cnd lo hi).1 = -1 ↔ hi < v) ∧
      (v ≤ hi → processRange newCond cnd lo hi = (0, newCond, max lo v, hi))) ∧
    (cnd.comp = Comparator.LE →
      ((processRange newCond cnd lo hi).1 = -1 ↔ v < lo) ∧
      (lo ≤ v → processRange newCond cnd lo hi = (0, newCond, lo, min hi v))) ∧
    (cnd.comp = Comparator.GT →
      (∀ ge : SelCond, ge.comp = Comparator.GE → atol ge.value = v + 1 →
        processRange newCond cnd lo hi = processRange newCond ge lo hi) ∧
      ((processRange newCond cnd lo hi).1 = -1 ↔ hi < v + 1) ∧
      (v + 1 ≤ hi → processRange newCond cnd lo hi = (0, newCond, max lo (v + 1), hi))) ∧
    (cnd.comp = Comparator.LT →
      (∀ le : SelCond, le.comp = Comparator.LE → atol le.value = v - 1 →
        processRange newCond cnd lo hi = processRange newCond le lo hi) ∧
      ((processRange newCond cnd lo hi).1 = -1 ↔ v - 1 < lo) ∧
      (lo ≤ v - 1 → processRange newCond cnd lo hi = (0, newCond, lo, min hi (v - 1)))) ∧
    (cnd.comp = Comparator.NE →
      (lo < v ∧ v < hi → processRange newCond cnd lo hi = (-2, newCond ++ [cnd], lo, hi)) ∧
      ((processRange newCond cnd lo hi).2.1 = newCond ++ [cnd] ↔ lo < v ∧ v < hi) ∧
      ((processRange newCond cnd lo hi).1 = -1 ↔ v = lo ∧ v = hi) ∧
      (v = lo ∧ lo < hi → processRange newCond cnd lo hi = (0, newCond, lo + 1, hi)) ∧
      ((processRange newCond cnd lo hi).2.2.1 = lo + 1 ↔ v = lo ∧ lo < hi) ∧
      (v = hi ∧ lo < hi → processRange newCond cnd lo hi = (0, newCond, lo, hi - 1)) ∧
      ((processRange newCond cnd lo hi).2.2.2 = hi - 1 ↔ v = hi ∧ lo < hi) ∧
      (v < lo ∨ hi < v → processRange newCond cnd lo hi = (0, newCond, lo, hi))) ∧
    SqlEngine.fold [⟨Attr.key, Comparator.EQ, "5"⟩, ⟨Attr.key, Comparator.EQ, "7"⟩]
      = Folded.invalid := by
  have hw1 : wrap64 (v + 1) = v + 1 := by
    apply wrap64_id <;> simp only [INT_MIN, INT_MAX, LONG_MIN, LONG_MAX] at * <;> omega
  have hw2 : wrap64 (v - 1) = v - 1 := by
    apply wrap64_id <;> simp only [INT_MIN, INT_MAX, LONG_MIN, LONG_MAX] at * <;> omega
  have hw3 : wrap64 (lo + 1) = lo + 1 ∨ v ≠ lo := by
    by_cases h : v = lo
    · left; subst h
      exact hw1
    · right; exact h
  have hw4 : wrap64 (hi - 1) = hi - 1 ∨ v ≠ hi := by
    by_cases h : v = hi
    · left; subst h
      exact hw2
    · right; exact h
  have hne : newCond ≠ newCond ++ [cnd] := by
    intro h
    have := congrArg List.length h
    simp at this
  refine ⟨?_, ?_, ?_, ?_, ?_, ?_, ?_⟩
  · intro hc
    simp only [processRange, hc, hv]
    split_ifs <;> simp <;> omega
  · intro hc
    simp only [processRange, hc, hv, processRangeGE]
    split_ifs <;> simp <;> omega
  · intro hc
    simp only [processRange, hc, hv, processRangeLE]
    split_ifs <;> simp <;> omega
  · intro hc
    refine ⟨?_, ?_⟩
    · intro ge hge hgv
      simp only [processRange, hc, hv, hge, hgv, hw1]
    · simp only [processRange, hc, hv, processRangeGE, hw1]
      split_ifs <;> simp <;> omega
  · intro hc
    refine ⟨?_, ?_⟩
    · intro le hle hlv
      simp only [processRange, hc, hv, hle, hlv, hw2]
    · simp only [processRange, hc, hv, processRangeLE, hw2]
      split_ifs <;> simp <;> omega
  · intro hc
    simp only [processRange, hc, hv]
    rcases hw3 with h3 | h3 <;> rcases hw4 with h4 | h4 <;>
      split_ifs <;> simp_all <;> omega
  · decide

/-- C8, at a concrete input: on the point interval `[5, 5]` left by `key = 5`, the
predicate `key = 7` makes `processRange` return -1. -/
theorem processRange_fold_table_witness :
    (processRange [] ⟨Attr.key, Comparator.EQ, "7"⟩ 5 5).1 = -1 :=
  ((processRange_fold_table [] ⟨Attr.key, Comparator.EQ, "7"⟩ 7 5 5 (by decide) (by decide)
    (by decide) (by decide)).1 rfl).1.2 (Or.inr (by decide))

/-! ### C9: `locate` in a leaf -/

/-- C9: in a leaf whose keys are strictly increasing, `BTLeafNode::locate` returns
0 and the index of the entry holding `searchKey` when it is stored; when it is
not stored it returns `RC_NO_SUCH_RECORD` and an `eid` that is at most `count`,
with every entry before `eid` holding a smaller key and, unless `eid = count`,
entry `eid` holding a greater key (so `eid` is the smallest index whose key is
greater, or `count`).  `BTreeIndex::locate`, once its descent has reached the
page `pid` of that leaf, returns the same code and the cursor `(pid, eid)`. -/
theorem leaf_locate_spec (n : BTLeafNode) (searchKey : Int) (hs : n.Sorted) :
    (∀ i : Nat, i < n.getKeyCount.toNat → n.keyAt i = searchKey →
      n.locate searchKey = (0, (i : Int))) ∧
    ((∀ i : Nat, i < n.getKeyCount.toNat → n.keyAt i ≠ searchKey) →
      ∃ e : Nat, n.locate searchKey = (RC_NO_SUCH_RECORD, (e : Int)) ∧
        e ≤ n.getKeyCount.toNat ∧
        (∀ i : Nat, i < e → n.keyAt i < searchKey) ∧
        (e < n.getKeyCount.toNat → searchKey < n.keyAt e)) ∧
    (∀ (t : BTreeIndex) (cursor : IndexCursor) (pid : PageId),
      BTreeIndex.descend t searchKey (t.treeHeight - 1).toNat t.rootPid = Except.ok pid →
      t.pf.read pid = Except.ok n.buffer →
      t.locate searchKey cursor = ((n.locate searchKey).1, ⟨pid, (n.locate searchKey).2⟩)) := by
  obtain ⟨e, rc, he, -, h4, h5, h6⟩ :=
    BTLeafNode.locateLoop_spec n.buffer searchKey n.getKeyCount.toNat 0
      (fun j hj => absurd hj (by omega))
  have hloc : n.locate searchKey = (rc, (e : Int)) := he
  refine ⟨?_, ?_, ?_⟩
  · intro i hi hk
    rw [hloc]
    rcases h6 with ⟨a, b, c⟩ | ⟨a, b⟩
    · have hei : e = i := by
        rcases Nat.lt_trichotomy e i with h | h | h
        · have := n.sorted_keyAt hs e i h hi
          unfold BTLeafNode.keyAt at this hk
          omega
        · exact h
        · have := h5 i h
          unfold BTLeafNode.keyAt at hk
          omega
      subst hei
      rw [a]
    · exfalso
      rcases Nat.lt_trichotomy e i with h | h | h
      · have h7 := n.sorted_keyAt hs e i h hi
        have h8 := b (by omega)
        unfold BTLeafNode.keyAt at h7 hk
        omega
      · subst h
        have h8 := b (by omega)
        unfold BTLeafNode.keyAt at hk
        omega
      · have := h5 i h
        unfold BTLeafNode.keyAt at hk
        omega
  · intro hno
    rcases h6 with ⟨a, b, c⟩ | ⟨a, b⟩
    · exact absurd c (hno e (by omega))
    · exact ⟨e, by rw [hloc, a], by omega, h5, fun h => b (by omega)⟩
  · intro t cursor pid hd hr
    unfold BTreeIndex.locate
    rw [hd]
    simp only [hr]

/-- C9, at a concrete input: in the leaf that holds the keys 10, 20, 30 (inserted
in the order 30, 10, 20) the stored key 20 is located at entry 1 with code 0. -/
theorem leaf_locate_spec_witness :
    (((((BTLeafNode.init illustration).insert illustration 30 ⟨0, 30⟩).2.insert
        illustration 10 ⟨0, 10⟩).2.insert illustration 20 ⟨0, 20⟩).2).Sorted ∧
    (((((BTLeafNode.init illustration).insert illustration 30 ⟨0, 30⟩).2.insert
        illustration 10 ⟨0, 10⟩).2.insert illustration 20 ⟨0, 20⟩).2).locate 20 = (0, 1) :=
  ⟨by decide,
   (leaf_locate_spec _ 20 (by decide)).1 1 (by decide) (by decide)⟩

/-! ### C10: `readForward` after a `locate` that misses -/

set_option maxRecDepth 1000000 in
/-- C10: with `ENTRIES_PER_PAGE = KEYS_PER_PAGE = 4`, after inserting 10, 20, 30,
40, 50 (left leaf at page 1 with keys 10, 20; right leaf with 30, 40, 50),
`locate(25)` returns `RC_NO_SUCH_RECORD` with the cursor `(1, 2)`, one past the
last entry of the left leaf, and the next `readForward` on that cursor does not
yield key 30: it fails with `RC_INVALID_RID`. -/
theorem readForward_fails_after_locate_past_leaf_end :
    (BTreeIndex.insertAll illustration (pairsOf [10, 20, 30, 40, 50])
        (BTreeIndex.fresh illustration)).map
        (fun t => (t.locate 25 ⟨0, 0⟩, t.readForward illustration (t.locate 25 ⟨0, 0⟩).2))
      = some ((RC_NO_SUCH_RECORD, ⟨1, 2⟩), Except.error RC_INVALID_RID) := by
  decide!


/-! ### Page buffers: reads after writes -/

theorem length_wr32 (b : Buffer) (off : Nat) (v : Int) : (wr32 b off v).length = b.length := by
  simp [wr32]

theorem getD_set_word (b : Buffer) (i j : Nat) (v : Int) :
    (b.set i v).getD j 0 = if i = j ∧ i < b.length then v else b.getD j 0 := by
  rw [List.getD_eq_getElem?_getD, List.getD_eq_getElem?_getD, List.getElem?_set]
  by_cases h : i = j
  · subst h
    by_cases h2 : i < b.length
    · simp [h2]
    · have h3 : b.length ≤ i := by omega
      simp [h2, List.getElem?_eq_none h3]
  · simp [h]

/-- Reading a word after a write: the written value at the written word (when it
lies inside the buffer), the old value elsewhere. -/
theorem rd32_wr32 (b : Buffer) (off off' : Nat) (v : Int) :
    rd32 (wr32 b off v) off' =
      if off / 4 = off' / 4 ∧ off / 4 < b.length then v else rd32 b off' := by
  unfold rd32 wr32
  exact getD_set_word b _ _ v

theorem getElem?_splice (b data : List Int) (d l j : Nat) (h1 : d + l ≤ b.length)
    (h2 : l ≤ data.length) :
    (b.take d ++ data.take l ++ b.drop (d + l))[j]? =
      if j < d then b[j]? else if j < d + l then data[j - d]? else b[j]? := by
  have e1 : (b.take d).length = d := by rw [List.length_take]; omega
  have e2 : (data.take l).length = l := by rw [List.length_take]; omega
  by_cases c1 : j < d
  · rw [if_pos c1, List.append_assoc, List.getElem?_append_left (by omega),
      List.getElem?_take_of_lt c1]
  · rw [if_neg c1]
    by_cases c2 : j < d + l
    · rw [if_pos c2, List.getElem?_append_left (by rw [List.length_append]; omega),
        List.getElem?_append_right (by omega), e1, List.getElem?_take_of_lt (by omega)]
    · rw [if_neg c2, List.getElem?_append_right (by rw [List.length_append]; omega),
        List.length_append, e1, e2, List.getElem?_drop]
      congr 1; omega

theorem length_memcpyInto (b data : Buffer) (dst len : Nat) (h1 : dst / 4 + len / 4 ≤ b.length)
    (h2 : len / 4 ≤ data.length) : (memcpyInto b dst data len).length = b.length := by
  simp only [memcpyInto, List.length_append, List.length_take, List.length_drop]
  omega

/-- Reading a word after a `memcpy` into the buffer. -/
theorem getD_memcpyInto (b data : Buffer) (dst len j : Nat) (h1 : dst / 4 + len / 4 ≤ b.length)
    (h2 : len / 4 ≤ data.length) :
    (memcpyInto b dst data len).getD j 0 =
      if dst / 4 ≤ j ∧ j < dst / 4 + len / 4 then data.getD (j - dst / 4) 0 else b.getD j 0 := by
  simp only [memcpyInto, List.getD_eq_getElem?_getD]
  rw [getElem?_splice b data _ _ j h1 h2]
  split_ifs <;> first | rfl | omega

theorem length_memcpyFrom (b : Buffer) (src len : Nat) (h : src / 4 + len / 4 ≤ b.length) :
    (memcpyFrom b src len).length = len / 4 := by
  simp only [memcpyFrom, List.length_take, List.length_drop]
  omega

/-- Reading a word of a `memcpy` out of the buffer. -/
theorem getD_memcpyFrom (b : Buffer) (src len j : Nat) (hj : j < len / 4) :
    (memcpyFrom b src len).getD j 0 = b.getD (src / 4 + j) 0 := by
  simp only [memcpyFrom, List.getD_eq_getElem?_getD]
  rw [List.getElem?_take_of_lt hj, List.getElem?_drop]

theorem length_memmove (b : Buffer) (dst src len : Nat) (h1 : dst / 4 + len / 4 ≤ b.length)
    (h2 : src / 4 + len / 4 ≤ b.length) : (memmove b dst src len).length = b.length := by
  unfold memmove
  exact length_memcpyInto b _ dst len h1 (by rw [length_memcpyFrom b src len h2])

/-- Reading a word after a `memmove` inside the buffer. -/
theorem getD_memmove (b : Buffer) (dst src len j : Nat) (h1 : dst / 4 + len / 4 ≤ b.length)
    (h2 : src / 4 + len / 4 ≤ b.length) :
    (memmove b dst src len).getD j 0 =
      if dst / 4 ≤ j ∧ j < dst / 4 + len / 4 then b.getD (src / 4 + (j - dst / 4)) 0
      else b.getD j 0 := by
  unfold memmove
  rw [getD_memcpyInto b _ dst len j h1 (by rw [length_memcpyFrom b src len h2])]
  split_ifs with h
  · exact getD_memcpyFrom b src len _ (by omega)
  · rfl

theorem getD_set_eq (b : Buffer) (i : Nat) (v : Int) (h : i < b.length) :
    (b.set i v).getD i 0 = v := by
  rw [getD_set_word, if_pos ⟨rfl, h⟩]

theorem getD_set_ne (b : Buffer) (i j : Nat) (v : Int) (h : i ≠ j) :
    (b.set i v).getD j 0 = b.getD j 0 := by
  rw [getD_set_word, if_neg (fun h1 => h h1.1)]

/-! ### Leaf insert: the page image and the entries -/

/-- The page image after `BTLeafNode::insert` into a node that is not full, word by
word: the count, the entries before `eid` unchanged, the new entry at `eid`, the
entries from `eid` on one slot to the right, the rest of the page unchanged. -/
theorem BTLeafNode.insert_words (c : Config) (n : BTLeafNode) (key : Int) (rid : RecordId)
    (cnt e : Nat) (hc : n.getKeyCount = cnt) (he : (n.locate key).2 = e) (hle : e ≤ cnt)
    (hN : cnt < c.ENTRIES_PER_PAGE) (hlen : 1 + 3 * (cnt + 1) ≤ n.buffer.length) :
    (n.insert c key rid).1 = 0 ∧
    (n.insert c key rid).2.buffer.length = n.buffer.length ∧
    ∀ j, (n.insert c key rid).2.buffer.getD j 0 =
      if j = 0 then (cnt : Int) + 1
      else if j < 1 + 3 * e then n.buffer.getD j 0
      else if j = 1 + 3 * e then rid.pid
      else if j = 2 + 3 * e then rid.sid
      else if j = 3 + 3 * e then key
      else if j < 1 + 3 * (cnt + 1) then n.buffer.getD (j - 3) 0
      else n.buffer.getD j 0 := by
  have hfull : ¬ ((cnt : Int) = (c.ENTRIES_PER_PAGE : Int)) := by
    intro h; have := Int.ofNat.inj h; omega
  have hd : (4 + e * 12 + 12) / 4 = 4 + 3 * e := by omega
  have hs : (4 + e * 12) / 4 = 1 + 3 * e := by omega
  have hl : ((cnt - e) * 12) / 4 = 3 * (cnt - e) := by omega
  have htn : ((cnt : Int) - (e : Int)).toNat = cnt - e := by omega
  have hb1len : ∀ b1 : Buffer, b1 = (if (e : Int) ≠ (cnt : Int) then
      memmove n.buffer (4 + e * 12 + 12) (4 + e * 12) ((cnt - e) * 12) else n.buffer) →
      b1.length = n.buffer.length ∧ ∀ j, b1.getD j 0 =
        if 4 + 3 * e ≤ j ∧ j < 1 + 3 * (cnt + 1) then n.buffer.getD (j - 3) 0
        else n.buffer.getD j 0 := by
    intro b1 hb1
    by_cases hec : (e : Int) = (cnt : Int)
    · have : e = cnt := Int.ofNat.inj hec
      subst this
      simp only [hec, ne_eq, not_true_eq_false, if_false] at hb1
      subst hb1
      refine ⟨rfl, fun j => ?_⟩
      rw [if_neg (by omega)]
    · simp only [ne_eq, hec, not_false_eq_true, if_true] at hb1
      subst hb1
      have h1 : (4 + e * 12 + 12) / 4 + (cnt - e) * 12 / 4 ≤ n.buffer.length := by omega
      have h2 : (4 + e * 12) / 4 + (cnt - e) * 12 / 4 ≤ n.buffer.length := by omega
      refine ⟨length_memmove _ _ _ _ h1 h2, fun j => ?_⟩
      rw [getD_memmove _ _ _ _ j h1 h2, hd, hs, hl]
      split_ifs <;> first | rfl | omega | (congr 1; omega)
  obtain ⟨hl1, hg1⟩ := hb1len _ rfl
  simp only [BTLeafNode.insert, hc, hfull, if_false, he, Int.toNat_ofNat, htn]
  refine ⟨trivial, ?_, fun j => ?_⟩
  · simp only [length_wr32, hl1]
  · have a0 : 0 / 4 = 0 := rfl
    have a1 : (4 + e * 12 + 8) / 4 = 3 + 3 * e := by omega
    have a2 : (4 + e * 12 + 4) / 4 = 2 + 3 * e := by omega
    simp only [wr32, a0, a1, a2, hs]
    by_cases r0 : j = 0
    · subst r0
      rw [getD_set_eq _ _ _ (by simp only [List.length_set]; omega)]
      simp
    · rw [getD_set_ne _ _ _ _ (by omega)]
      by_cases r4 : j = 3 + 3 * e
      · subst r4
        rw [getD_set_eq _ _ _ (by simp only [List.length_set]; omega)]
        simp (disch := omega) only [if_pos, if_neg, if_true, if_false]
      · rw [getD_set_ne _ _ _ _ (by omega)]
        by_cases r3 : j = 2 + 3 * e
        · subst r3
          rw [getD_set_eq _ _ _ (by simp only [List.length_set]; omega)]
          simp (disch := omega) only [if_pos, if_neg, if_true, if_false]
        · rw [getD_set_ne _ _ _ _ (by omega)]
          by_cases r2 : j = 1 + 3 * e
          · subst r2
            rw [getD_set_eq _ _ _ (by omega)]
            simp (disch := omega) only [if_pos, if_neg, if_true, if_false]
          · rw [getD_set_ne _ _ _ _ (by omega), hg1]
            by_cases r1 : j < 1 + 3 * e
            · simp (disch := omega) only [if_pos, if_neg, if_true, if_false]
            · by_cases r5 : j < 1 + 3 * (cnt + 1)
              · simp (disch := omega) only [if_pos, if_neg, if_true, if_false]
              · simp (disch := omega) only [if_pos, if_neg, if_true, if_false]

theorem getElem?_map_range {α : Type} (f : Nat → α) (m i : Nat) :
    ((List.range m).map f)[i]? = if i < m then some (f i) else none := by
  rw [List.getElem?_map]
  by_cases h : i < m
  · rw [List.getElem?_range h, if_pos h]; rfl
  · rw [List.getElem?_eq_none (by simp; omega), if_neg h]; rfl

theorem pairwise_map_range {α : Type} (R : α → α → Prop) (f : Nat → α) (m : Nat) :
    ((List.range m).map f).Pairwise R ↔ ∀ i j, i < j → j < m → R (f i) (f j) := by
  rw [List.pairwise_iff_getElem]
  constructor
  · intro h i j hij hj
    have := h i j (by simp; omega) (by simp; omega) hij
    simpa using this
  · intro h i j hi hj hij
    simp only [List.length_map, List.length_range] at hi hj
    simpa using h i j hij hj

theorem BTLeafNode.mem_keys (n : BTLeafNode) (key : Int) :
    key ∈ n.keys ↔ ∃ i, i < n.getKeyCount.toNat ∧ n.keyAt i = key := by
  simp [BTLeafNode.keys]

/-- The entries of a leaf after `BTLeafNode::insert`, entry by entry. -/
theorem BTLeafNode.insert_entryAt (c : Config) (n : BTLeafNode) (key : Int) (rid : RecordId)
    (cnt e : Nat) (hc : n.getKeyCount = cnt) (he : (n.locate key).2 = e) (hle : e ≤ cnt)
    (hN : cnt < c.ENTRIES_PER_PAGE) (hlen : 1 + 3 * (cnt + 1) ≤ n.buffer.length) (i : Nat) :
    (n.insert c key rid).2.keyAt i =
      (if i < e then n.keyAt i else if i = e then key
       else if i ≤ cnt then n.keyAt (i - 1) else n.keyAt i) ∧
    (n.insert c key rid).2.ridAt i =
      (if i < e then n.ridAt i else if i = e then rid
       else if i ≤ cnt then n.ridAt (i - 1) else n.ridAt i) := by
  obtain ⟨-, -, hw⟩ := BTLeafNode.insert_words c n key rid cnt e hc he hle hN hlen
  have k1 : (4 + i * 12 + 8) / 4 = 3 + 3 * i := by omega
  have k2 : (4 + i * 12) / 4 = 1 + 3 * i := by omega
  have k3 : (4 + i * 12 + 4) / 4 = 2 + 3 * i := by omega
  have k1' : (4 + (i - 1) * 12 + 8) / 4 = 3 + 3 * (i - 1) := by omega
  have k2' : (4 + (i - 1) * 12) / 4 = 1 + 3 * (i - 1) := by omega
  have k3' : (4 + (i - 1) * 12 + 4) / 4 = 2 + 3 * (i - 1) := by omega
  simp only [BTLeafNode.keyAt, BTLeafNode.ridAt, rd32, hw, k1, k2, k3, k1', k2', k3']
  by_cases r1 : i < e
  · simp (disch := omega) only [if_pos, if_neg, if_true, if_false, and_self]
  · by_cases r2 : i = e
    · subst r2
      simp (disch := omega) only [if_pos, if_neg, if_true, if_false, and_self]
    · by_cases r3 : i ≤ cnt
      · have m1 : 3 + 3 * i - 3 = 3 + 3 * (i - 1) := by omega
        have m2 : 1 + 3 * i - 3 = 1 + 3 * (i - 1) := by omega
        have m3 : 2 + 3 * i - 3 = 2 + 3 * (i - 1) := by omega
        simp (disch := omega) only [if_pos, if_neg, if_true, if_false, and_self, m1, m2, m3]
      · simp (disch := omega) only [if_pos, if_neg, if_true, if_false, and_self]

/-- Where `BTLeafNode::locate` puts a key that is not stored in a sorted leaf. -/
theorem BTLeafNode.locate_absent (n : BTLeafNode) (key : Int) (hnew : key ∉ n.keys) :
    ∃ e : Nat, n.locate key = (RC_NO_SUCH_RECORD, (e : Int)) ∧ e ≤ n.getKeyCount.toNat ∧
      (∀ i, i < e → n.keyAt i < key) ∧ (e < n.getKeyCount.toNat → key < n.keyAt e) := by
  obtain ⟨e, rc, he, -, h4, h5, h6⟩ :=
    BTLeafNode.locateLoop_spec n.buffer key n.getKeyCount.toNat 0
      (fun j hj => absurd hj (by omega))
  rcases h6 with ⟨-, b, c⟩ | ⟨a, b⟩
  · exact absurd ((n.mem_keys key).2 ⟨e, by omega, c⟩) hnew
  · exact ⟨e, by rw [← a]; exact he, by omega, h5, fun h => b (by omega)⟩

/-- The position `BTLeafNode::locate` returns is a natural number not above the
number of entries. -/
theorem BTLeafNode.locate_le (n : BTLeafNode) (key : Int) :
    ∃ e : Nat, (n.locate key).2 = (e : Int) ∧ e ≤ n.getKeyCount.toNat := by
  obtain ⟨e, rc, he, -, h4, -, -⟩ :=
    BTLeafNode.locateLoop_spec n.buffer key n.getKeyCount.toNat 0
      (fun j hj => absurd hj (by omega))
  exact ⟨e, by unfold BTLeafNode.locate; rw [he], by omega⟩

/-! ### Non-leaf split: the entries of the two nodes -/

/-- What `BTNonLeafNode::splitFromSibling` leaves in an empty sibling when it is
given the `count` entries that start at entry `from` of the buffer `b3`: the
count, the first child, and those entries. -/
theorem BTNonLeafNode.splitFromSibling_words (sibling : BTNonLeafNode) (b3 : Buffer)
    (count start : Nat) (sibPid1 : PageId) (hsib : sibling.getKeyCount = 0)
    (hlen : 2 + 2 * count ≤ sibling.buffer.length)
    (hb3 : 2 + 2 * (start + count) ≤ b3.length) :
    let sib := (sibling.splitFromSibling count sibPid1
      (memcpyFrom b3 (8 + start * 8) (count * 8)) (count * 8)).2
    sib.buffer.length = sibling.buffer.length ∧
    sib.getKeyCount = count ∧ sib.firstChild = sibPid1 ∧
    ∀ i, i < count → sib.keyAt i = rd32 b3 (8 + (start + i) * 8) ∧
      sib.pidAt i = rd32 b3 (8 + (start + i) * 8 + 4) := by
  intro sib
  have hs0 : ¬ sibling.getKeyCount > 0 := by omega
  have hsb : sib.buffer = memcpyInto (wr32 (wr32 sibling.buffer 0 count) 4 sibPid1) 8
      (memcpyFrom b3 (8 + start * 8) (count * 8)) (count * 8) := by
    show (BTNonLeafNode.splitFromSibling sibling count sibPid1 _ _).2.buffer = _
    simp only [BTNonLeafNode.splitFromSibling, hs0, if_false]
  have hcl : (memcpyFrom b3 (8 + start * 8) (count * 8)).length = count * 8 / 4 :=
    length_memcpyFrom _ _ _ (by omega)
  have h1 : 8 / 4 + count * 8 / 4 ≤ (wr32 (wr32 sibling.buffer 0 count) 4 sibPid1).length := by
    rw [length_wr32, length_wr32]; omega
  have hg : ∀ j, sib.buffer.getD j 0 =
      if 2 ≤ j ∧ j < 2 + 2 * count then b3.getD (2 + 2 * start + (j - 2)) 0
      else if j = 1 then sibPid1 else if j = 0 then (count : Int)
      else sibling.buffer.getD j 0 := by
    intro j
    rw [hsb, getD_memcpyInto _ _ _ _ j h1 (by rw [hcl])]
    have e1 : 8 / 4 = 2 := rfl
    have e2 : count * 8 / 4 = 2 * count := by omega
    rw [e1, e2]
    by_cases r : 2 ≤ j ∧ j < 2 + 2 * count
    · rw [if_pos r, if_pos r, getD_memcpyFrom _ _ _ _ (by omega)]
      congr 1; omega
    · rw [if_neg r, if_neg r]
      simp only [wr32]
      by_cases r1 : j = 1
      · subst r1
        rw [show 4 / 4 = 1 from rfl, getD_set_eq _ _ _ (by simp; omega), if_pos rfl]
      · rw [show 4 / 4 = 1 from rfl, getD_set_ne _ _ _ _ (by omega), if_neg r1]
        by_cases r0 : j = 0
        · subst r0
          rw [show 0 / 4 = 0 from rfl, getD_set_eq _ _ _ (by omega), if_pos rfl]
        · rw [show 0 / 4 = 0 from rfl, getD_set_ne _ _ _ _ (by omega), if_neg r0]
  refine ⟨?_, ?_, ?_, ?_⟩
  · rw [hsb, length_memcpyInto _ _ _ _ h1 (by rw [hcl]), length_wr32, length_wr32]
  · show rd32 sib.buffer 0 = _
    unfold rd32
    rw [show 0 / 4 = 0 from rfl, hg 0]
    simp
  · show rd32 sib.buffer 4 = _
    unfold rd32
    rw [show 4 / 4 = 1 from rfl, hg 1]
    simp
  · intro i hi
    unfold BTNonLeafNode.keyAt BTNonLeafNode.pidAt rd32
    have k1 : (8 + i * 8) / 4 = 2 + 2 * i := by omega
    have k2 : (8 + i * 8 + 4) / 4 = 3 + 2 * i := by omega
    have k3 : (8 + (start + i) * 8) / 4 = 2 + 2 * start + (2 + 2 * i - 2) := by omega
    have k4 : (8 + (start + i) * 8 + 4) / 4 = 2 + 2 * start + (3 + 2 * i - 2) := by omega
    rw [k1, k2, k3, k4, hg, hg, if_pos (by omega), if_pos (by omega)]
    exact ⟨rfl, rfl⟩

/-- The loop of `BTNonLeafNode::locate` stops at the first entry whose key is
greater than `k`. -/
theorem BTNonLeafNode.locateLoop_bounds (buf : Buffer) (k : Int) :
    ∀ (left i : Nat),
      i ≤ BTNonLeafNode.locateLoop buf k left i ∧
      BTNonLeafNode.locateLoop buf k left i ≤ i + left ∧
      (∀ j, i ≤ j → j < BTNonLeafNode.locateLoop buf k left i → rd32 buf (8 + j * 8) ≤ k) ∧
      (BTNonLeafNode.locateLoop buf k left i < i + left →
        k < rd32 buf (8 + BTNonLeafNode.locateLoop buf k left i * 8)) := by
  intro left
  induction left with
  | zero =>
    intro i
    simp only [BTNonLeafNode.locateLoop]
    exact ⟨le_refl _, le_refl _, fun j h1 h2 => absurd h2 (by omega), fun h => absurd h (by omega)⟩
  | succ m ih =>
    intro i
    unfold BTNonLeafNode.locateLoop
    by_cases h : rd32 buf (8 + i * 8) > k
    · rw [if_pos h]
      exact ⟨le_refl _, by omega, fun j h1 h2 => absurd h2 (by omega), fun _ => h⟩
    · rw [if_neg h]
      obtain ⟨a, b, c, d⟩ := ih (i + 1)
      refine ⟨by omega, by omega, fun j h1 h2 => ?_, fun h3 => d (by omega)⟩
      by_cases hj : j = i
      · subst hj; omega
      · exact c j (by omega) h2

/-- The position `BTNonLeafNode::locate` returns in a node with strictly increasing
keys for a key that is not stored: every entry before it has a smaller key, the
entry at it (if any) a greater one. -/
theorem BTNonLeafNode.locate_spec (n : BTNonLeafNode) (key : Int) :
    n.locate key ≤ n.getKeyCount.toNat ∧
    (∀ j, j < n.locate key → n.keyAt j ≤ key) ∧
    (n.locate key < n.getKeyCount.toNat → key < n.keyAt (n.locate key)) := by
  obtain ⟨-, b, c, d⟩ := BTNonLeafNode.locateLoop_bounds n.buffer key n.getKeyCount.toNat 0
  exact ⟨by simpa using b, fun j hj => c j (by omega) hj, fun h => d (by simpa using h)⟩

theorem BTNonLeafNode.mem_keys_iff (n : BTNonLeafNode) (key : Int) :
    key ∈ n.keys ↔ ∃ i, i < n.getKeyCount.toNat ∧ n.keyAt i = key := by
  simp [BTNonLeafNode.keys]

theorem BTNonLeafNode.keyAt_lt_of_sorted (n : BTNonLeafNode) (hs : n.Sorted) (i j : Nat) (hij : i < j)
    (hj : j < n.getKeyCount.toNat) : n.keyAt i < n.keyAt j := by
  unfold BTNonLeafNode.Sorted BTNonLeafNode.keys at hs
  exact (pairwise_map_range _ _ _).1 hs i j hij hj

/-- `BTNonLeafNode::insertAndSplit` when the insertion position is `half`: nothing
moves in the left node, the incoming pair goes up and to the sibling. -/
theorem BTNonLeafNode.split_at_half (c : Config) (n sibling : BTNonLeafNode) (key : Int)
    (pid : PageId) (midKey : Int) (hfit : c.Fits) (hsib : sibling.getKeyCount = 0)
    (he : n.locate key = (c.KEYS_PER_PAGE + 1) / 2) :
    n.insertAndSplit c key pid sibling midKey =
      some (0, ⟨wr32 n.buffer 0 (((c.KEYS_PER_PAGE + 1) / 2 : Nat) : Int)⟩,
        (sibling.splitFromSibling (c.KEYS_PER_PAGE / 2) pid
          (memcpyFrom (wr32 n.buffer 0 (((c.KEYS_PER_PAGE + 1) / 2 : Nat) : Int))
            (8 + (c.KEYS_PER_PAGE + 1) / 2 * 8) (c.KEYS_PER_PAGE / 2 * 8))
          (c.KEYS_PER_PAGE / 2 * 8)).2, key) := by
  have hs0 : ¬ sibling.getKeyCount > 0 := by omega
  have hchk : 8 + (c.KEYS_PER_PAGE + 1) / 2 * 8 + c.KEYS_PER_PAGE / 2 * 8 ≤ c.PAGE_SIZE := by
    have := hfit.2
    omega
  simp only [BTNonLeafNode.insertAndSplit, hs0, if_false, he, BTNonLeafNode.splitBranch, if_true,
    memcpyFromChecked, hchk, le_refl, and_self]

/-- `BTNonLeafNode::insertAndSplit` when the insertion position `eid` is below
`half`: entry `half - 1` goes up and to the sibling, the entries `[eid, half - 1)`
move one slot to the right and the incoming pair is stored at `eid`. -/
theorem BTNonLeafNode.split_below_half (c : Config) (n sibling : BTNonLeafNode) (key : Int)
    (pid : PageId) (midKey : Int) (hfit : c.Fits) (hpage : n.IsPage c)
    (hsib : sibling.getKeyCount = 0) (he : n.locate key < (c.KEYS_PER_PAGE + 1) / 2) :
    ∃ b3 : Buffer,
      n.insertAndSplit c key pid sibling midKey =
        some (0, ⟨b3⟩,
          (sibling.splitFromSibling (c.KEYS_PER_PAGE / 2)
            (n.pidAt ((c.KEYS_PER_PAGE + 1) / 2 - 1))
            (memcpyFrom b3 (8 + (c.KEYS_PER_PAGE + 1) / 2 * 8) (c.KEYS_PER_PAGE / 2 * 8))
            (c.KEYS_PER_PAGE / 2 * 8)).2,
          n.keyAt ((c.KEYS_PER_PAGE + 1) / 2 - 1)) ∧
      b3.length = n.buffer.length ∧
      ∀ j, b3.getD j 0 =
        if j = 0 then (((c.KEYS_PER_PAGE + 1) / 2 : Nat) : Int)
        else if j < 2 + 2 * n.locate key then n.buffer.getD j 0
        else if j = 2 + 2 * n.locate key then key
        else if j = 3 + 2 * n.locate key then pid
        else if j < 2 + 2 * ((c.KEYS_PER_PAGE + 1) / 2) then n.buffer.getD (j - 2) 0
        else n.buffer.getD j 0 := by
  have hs0 : ¬ sibling.getKeyCount > 0 := by omega
  generalize hE : n.locate key = e at he ⊢
  generalize hH : (c.KEYS_PER_PAGE + 1) / 2 = half at he ⊢
  have hK : half ≤ c.KEYS_PER_PAGE := by omega
  have hP := hfit.2
  have hL : 2 + 2 * c.KEYS_PER_PAGE ≤ n.buffer.length := by
    unfold BTNonLeafNode.IsPage at hpage
    omega
  have hne : ¬ e = half := by omega
  have c1 : 8 + (half - 1) * 8 + 4 ≤ c.PAGE_SIZE := by omega
  have c2 : 8 + (half - 1) * 8 + 4 + 4 ≤ c.PAGE_SIZE := by omega
  have c3 : 8 + e * 8 + 8 + (half - 1 - e) * 8 ≤ c.PAGE_SIZE ∧
      8 + e * 8 + (half - 1 - e) * 8 ≤ c.PAGE_SIZE := by constructor <;> omega
  have c4 : 8 + e * 8 + 4 ≤ c.PAGE_SIZE := by omega
  have c5 : 8 + e * 8 + 4 + 4 ≤ c.PAGE_SIZE := by omega
  have c6 : 8 + half * 8 + c.KEYS_PER_PAGE / 2 * 8 ≤ c.PAGE_SIZE := by omega
  have hk : rd32 (wr32 n.buffer 0 (half : Int)) (8 + (half - 1) * 8) = n.keyAt (half - 1) := by
    rw [rd32_wr32, if_neg (by omega)]; rfl
  have hp : rd32 (wr32 n.buffer 0 (half : Int)) (8 + (half - 1) * 8 + 4) = n.pidAt (half - 1) := by
    rw [rd32_wr32, if_neg (by omega)]; rfl
  refine ⟨wr32 (wr32 (memmove (wr32 n.buffer 0 (half : Int)) (8 + e * 8 + 8) (8 + e * 8)
    ((half - 1 - e) * 8)) (8 + e * 8) key) (8 + e * 8 + 4) pid, ?_, ?_, ?_⟩
  · simp only [BTNonLeafNode.insertAndSplit, hs0, if_false, hE, hH, BTNonLeafNode.splitBranch,
      hne, he, if_true, rd32Checked, memmoveChecked, wr32Checked, c1, c2, c3, c4, c5, c6,
      memcpyFromChecked, le_refl, and_self, Option.bind_eq_bind, Option.some_bind, hk, hp]
  · have h1 : (8 + e * 8 + 8) / 4 + (half - 1 - e) * 8 / 4 ≤ (wr32 n.buffer 0 (half : Int)).length := by
      rw [length_wr32]; omega
    have h2 : (8 + e * 8) / 4 + (half - 1 - e) * 8 / 4 ≤ (wr32 n.buffer 0 (half : Int)).length := by
      rw [length_wr32]; omega
    rw [length_wr32, length_wr32, length_memmove _ _ _ _ h1 h2, length_wr32]
  · intro j
    have h1 : (8 + e * 8 + 8) / 4 + (half - 1 - e) * 8 / 4 ≤ (wr32 n.buffer 0 (half : Int)).length := by
      rw [length_wr32]; omega
    have h2 : (8 + e * 8) / 4 + (half - 1 - e) * 8 / 4 ≤ (wr32 n.buffer 0 (half : Int)).length := by
      rw [length_wr32]; omega
    have hm := length_memmove _ _ _ _ h1 h2
    rw [length_wr32] at hm
    have a1 : (8 + e * 8 + 4) / 4 = 3 + 2 * e := by omega
    have a2 : (8 + e * 8) / 4 = 2 + 2 * e := by omega
    have a3 : (8 + e * 8 + 8) / 4 = 4 + 2 * e := by omega
    have a4 : (half - 1 - e) * 8 / 4 = 2 * (half - 1 - e) := by omega
    simp only [wr32, a1, a2, show 0 / 4 = 0 from rfl] at hm ⊢
    by_cases r3 : j = 3 + 2 * e
    · subst r3
      rw [getD_set_eq _ _ _ (by rw [List.length_set]; omega)]
      simp (disch := omega) only [if_pos, if_neg, if_true, if_false]
    · rw [getD_set_ne _ _ _ _ (by omega)]
      by_cases r2 : j = 2 + 2 * e
      · subst r2
        rw [getD_set_eq _ _ _ (by omega)]
        simp (disch := omega) only [if_pos, if_neg, if_true, if_false]
      · rw [getD_set_ne _ _ _ _ (by omega)]
        have hmm := getD_memmove (wr32 n.buffer 0 (half : Int)) (8 + e * 8 + 8) (8 + e * 8)
          ((half - 1 - e) * 8) j h1 h2
        simp only [wr32, a3, a2, a4, show 0 / 4 = 0 from rfl] at hmm
        rw [hmm]
        by_cases r0 : j = 0
        · subst r0
          rw [if_neg (by omega), getD_set_eq _ _ _ (by omega), if_pos rfl]
        · by_cases r1 : j < 2 + 2 * e
          · rw [if_neg (by omega), getD_set_ne _ _ _ _ (by omega)]
            simp (disch := omega) only [if_pos, if_neg, if_true, if_false]
          · by_cases r5 : j < 2 + 2 * half
            · rw [if_pos (by omega), getD_set_ne _ _ _ _ (by omega)]
              simp (disch := omega) only [if_pos, if_neg, if_true, if_false]
              congr 1; omega
            · rw [if_neg (by omega), getD_set_ne _ _ _ _ (by omega)]
              simp (disch := omega) only [if_pos, if_neg, if_true, if_false]

/-- `BTNonLeafNode::insertAndSplit` for an insertion position not above `half`, entry
by entry: what the left node and the sibling hold and which key goes up. -/
theorem BTNonLeafNode.split_low_entryAt (c : Config) (n sibling : BTNonLeafNode) (key : Int)
    (pid : PageId) (midKey : Int) (hfit : c.Fits) (hpage : n.IsPage c)
    (hspage : sibling.IsPage c) (hsib : sibling.getKeyCount = 0)
    (he : n.locate key ≤ (c.KEYS_PER_PAGE + 1) / 2) :
    ∃ left sib mk, n.insertAndSplit c key pid sibling midKey = some (0, left, sib, mk) ∧
      left.getKeyCount = (((c.KEYS_PER_PAGE + 1) / 2 : Nat) : Int) ∧
      sib.getKeyCount = ((c.KEYS_PER_PAGE / 2 : Nat) : Int) ∧
      (∀ i, i < c.KEYS_PER_PAGE / 2 →
        sib.keyAt i = n.keyAt ((c.KEYS_PER_PAGE + 1) / 2 + i) ∧
        sib.pidAt i = n.pidAt ((c.KEYS_PER_PAGE + 1) / 2 + i)) ∧
      (n.locate key = (c.KEYS_PER_PAGE + 1) / 2 →
        mk = key ∧ sib.firstChild = pid ∧
        ∀ i, left.keyAt i = n.keyAt i ∧ left.pidAt i = n.pidAt i) ∧
      (n.locate key < (c.KEYS_PER_PAGE + 1) / 2 →
        mk = n.keyAt ((c.KEYS_PER_PAGE + 1) / 2 - 1) ∧
        sib.firstChild = n.pidAt ((c.KEYS_PER_PAGE + 1) / 2 - 1) ∧
        ∀ i, i < (c.KEYS_PER_PAGE + 1) / 2 →
          left.keyAt i = (if i < n.locate key then n.keyAt i else if i = n.locate key then key
            else n.keyAt (i - 1)) ∧
          left.pidAt i = (if i < n.locate key then n.pidAt i else if i = n.locate key then pid
            else n.pidAt (i - 1))) := by
  have hP := hfit.2
  have hL : 2 + 2 * c.KEYS_PER_PAGE ≤ n.buffer.length := by
    unfold BTNonLeafNode.IsPage at hpage
    omega
  have hLs : 2 + 2 * c.KEYS_PER_PAGE ≤ sibling.buffer.length := by
    unfold BTNonLeafNode.IsPage at hspage
    omega
  have hsum : (c.KEYS_PER_PAGE + 1) / 2 + c.KEYS_PER_PAGE / 2 = c.KEYS_PER_PAGE := by omega
  rcases Nat.lt_or_ge (n.locate key) ((c.KEYS_PER_PAGE + 1) / 2) with hlt | hge
  · obtain ⟨b3, hres, hlen3, hw⟩ :=
      BTNonLeafNode.split_below_half c n sibling key pid midKey hfit hpage hsib hlt
    obtain ⟨-, s2, s3, s4⟩ := BTNonLeafNode.splitFromSibling_words sibling b3
      (c.KEYS_PER_PAGE / 2) ((c.KEYS_PER_PAGE + 1) / 2)
      (n.pidAt ((c.KEYS_PER_PAGE + 1) / 2 - 1)) hsib (by omega) (by rw [hlen3]; omega)
    refine ⟨_, _, _, hres, ?_, s2, ?_, fun h => absurd h (by omega), fun _ => ⟨rfl, s3, ?_⟩⟩
    · show rd32 b3 0 = _
      unfold rd32
      rw [show 0 / 4 = 0 from rfl, hw 0, if_pos rfl]
    · intro i hi
      obtain ⟨t1, t2⟩ := s4 i hi
      rw [t1, t2]
      unfold BTNonLeafNode.keyAt BTNonLeafNode.pidAt rd32
      have k1 : (8 + ((c.KEYS_PER_PAGE + 1) / 2 + i) * 8) / 4 =
          2 + 2 * ((c.KEYS_PER_PAGE + 1) / 2 + i) := by omega
      have k2 : (8 + ((c.KEYS_PER_PAGE + 1) / 2 + i) * 8 + 4) / 4 =
          3 + 2 * ((c.KEYS_PER_PAGE + 1) / 2 + i) := by omega
      rw [k1, k2, hw, hw]
      simp (disch := omega) only [if_pos, if_neg, if_true, if_false, and_self]
    · intro i hi
      unfold BTNonLeafNode.keyAt BTNonLeafNode.pidAt rd32
      have k1 : (8 + i * 8) / 4 = 2 + 2 * i := by omega
      have k2 : (8 + i * 8 + 4) / 4 = 3 + 2 * i := by omega
      have k1' : (8 + (i - 1) * 8) / 4 = 2 + 2 * (i - 1) := by omega
      have k2' : (8 + (i - 1) * 8 + 4) / 4 = 3 + 2 * (i - 1) := by omega
      rw [k1, k2, k1', k2', hw, hw]
      by_cases r1 : i < n.locate key
      · simp (disch := omega) only [if_pos, if_neg, if_true, if_false, and_self]
      · by_cases r2 : i = n.locate key
        · rw [← r2]
          simp (disch := omega) only [if_pos, if_neg, if_true, if_false, and_self]
        · have m1 : 2 + 2 * i - 2 = 2 + 2 * (i - 1) := by omega
          have m2 : 3 + 2 * i - 2 = 3 + 2 * (i - 1) := by omega
          simp (disch := omega) only [if_pos, if_neg, if_true, if_false, and_self, m1, m2]
  · have heq : n.locate key = (c.KEYS_PER_PAGE + 1) / 2 := by omega
    have hres := BTNonLeafNode.split_at_half c n sibling key pid midKey hfit hsib heq
    obtain ⟨-, s2, s3, s4⟩ := BTNonLeafNode.splitFromSibling_words sibling
      (wr32 n.buffer 0 (((c.KEYS_PER_PAGE + 1) / 2 : Nat) : Int))
      (c.KEYS_PER_PAGE / 2) ((c.KEYS_PER_PAGE + 1) / 2) pid hsib (by omega)
      (by rw [length_wr32]; omega)
    refine ⟨_, _, _, hres, ?_, s2, ?_, fun _ => ⟨rfl, s3, ?_⟩, fun h => absurd h (by omega)⟩
    · show rd32 (wr32 n.buffer 0 _) 0 = _
      rw [rd32_wr32, if_pos ⟨rfl, by omega⟩]
    · intro i hi
      obtain ⟨t1, t2⟩ := s4 i hi
      rw [t1, t2, rd32_wr32, rd32_wr32, if_neg (by omega), if_neg (by omega)]
      exact ⟨rfl, rfl⟩
    · intro i
      unfold BTNonLeafNode.keyAt BTNonLeafNode.pidAt
      rw [rd32_wr32, rd32_wr32, if_neg (by omega), if_neg (by omega)]
      exact ⟨rfl, rfl⟩

theorem getElem?_take_if {α : Type} (l : List α) (m i : Nat) :
    (l.take m)[i]? = if i < m then l[i]? else none := by
  by_cases h : i < m
  · rw [if_pos h, List.getElem?_take_of_lt h]
  · rw [if_neg h, List.getElem?_eq_none]
    rw [List.length_take]
    omega

theorem getElem?_insert_at {α : Type} (l : List α) (x : α) (e i : Nat) (he : e ≤ l.length) :
    (l.take e ++ [x] ++ l.drop e)[i]? =
      if i < e then l[i]? else if i = e then some x else l[i - 1]? := by
  have hl1 : (l.take e).length = e := by rw [List.length_take]; omega
  by_cases r1 : i < e
  · rw [List.append_assoc, List.getElem?_append_left (by rw [hl1]; exact r1),
      List.getElem?_take_of_lt r1, if_pos r1]
  · by_cases r2 : i = e
    · subst r2
      rw [List.getElem?_append_left (by rw [List.length_append, hl1]; simp),
        List.getElem?_append_right (by rw [hl1]), hl1, if_neg r1, if_pos rfl]
      simp
    · rw [List.getElem?_append_right (by rw [List.length_append, hl1]; simp; omega),
        List.getElem?_drop, List.length_append, hl1, if_neg r1, if_neg r2]
      have hidx : e + (i - (e + [x].length)) = i - 1 := by simp; omega
      rw [hidx]

theorem BTNonLeafNode.entries_getElem? (n : BTNonLeafNode) (m : Nat)
    (h : n.getKeyCount = (m : Int)) (i : Nat) :
    n.entries[i]? = if i < m then some (n.keyAt i, n.pidAt i) else none := by
  have : n.getKeyCount.toNat = m := by omega
  simp only [BTNonLeafNode.entries, this]
  exact getElem?_map_range _ m i

theorem BTNonLeafNode.entries_length (n : BTNonLeafNode) (m : Nat)
    (h : n.getKeyCount = (m : Int)) : n.entries.length = m := by
  have : n.getKeyCount.toNat = m := by omega
  simp [BTNonLeafNode.entries, this]

/-- `BTNonLeafNode::insertAndSplit` on a full sorted node for a new key whose
insertion position is at most the code's `half = (KEYS_PER_PAGE + 1) / 2`. -/
theorem BTNonLeafNode.split_low_cases (c : Config) (n sibling : BTNonLeafNode) (key : Int)
    (pid : PageId) (midKey : Int) (hfit : c.Fits) (hpage : n.IsPage c)
    (hspage : sibling.IsPage c) (hsib : sibling.getKeyCount = 0)
    (hfull : n.getKeyCount = c.KEYS_PER_PAGE) (hs : n.Sorted) (hnew : key ∉ n.keys)
    (he : n.locate key ≤ (c.KEYS_PER_PAGE + 1) / 2) :
    (∀ j, j < n.locate key → n.keyAt j < key) ∧
    (n.locate key < c.KEYS_PER_PAGE → key < n.keyAt (n.locate key)) ∧
    ∃ left sib mk, n.insertAndSplit c key pid sibling midKey = some (0, left, sib, mk) ∧
      (n.locate key = (c.KEYS_PER_PAGE + 1) / 2 →
        mk = key ∧ sib.firstChild = pid ∧
        left.entries = n.entries.take ((c.KEYS_PER_PAGE + 1) / 2)) ∧
      (n.locate key < (c.KEYS_PER_PAGE + 1) / 2 →
        mk = n.keyAt ((c.KEYS_PER_PAGE + 1) / 2 - 1) ∧
        sib.firstChild = n.pidAt ((c.KEYS_PER_PAGE + 1) / 2 - 1) ∧
        left.entries =
          (n.entries.take ((c.KEYS_PER_PAGE + 1) / 2 - 1)).take (n.locate key) ++ [(key, pid)] ++
            (n.entries.take ((c.KEYS_PER_PAGE + 1) / 2 - 1)).drop (n.locate key)) ∧
      left.getKeyCount = (((c.KEYS_PER_PAGE + 1) / 2 : Nat) : Int) ∧
      sib.getKeyCount = ((c.KEYS_PER_PAGE / 2 : Nat) : Int) ∧
      sib.entries = n.entries.drop ((c.KEYS_PER_PAGE + 1) / 2) ∧
      mk ∉ left.keys ∧ mk ∉ sib.keys := by
  obtain ⟨l1, l2, l3⟩ := n.locate_spec key
  have hct : n.getKeyCount.toNat = c.KEYS_PER_PAGE := by omega
  rw [hct] at l1 l3
  have hnk : ∀ j, j < c.KEYS_PER_PAGE → n.keyAt j ≠ key := fun j hj hjk =>
    hnew ((n.mem_keys_iff key).2 ⟨j, by rw [hct]; exact hj, hjk⟩)
  have hbelow : ∀ j, j < n.locate key → n.keyAt j < key := fun j hj =>
    lt_of_le_of_ne (l2 j hj) (hnk j (by omega))
  have hsorted := fun i j hij hj => n.keyAt_lt_of_sorted hs i j hij (by rw [hct]; exact hj)
  have hsum : (c.KEYS_PER_PAGE + 1) / 2 + c.KEYS_PER_PAGE / 2 = c.KEYS_PER_PAGE := by omega
  obtain ⟨left, sib, mk, hres, hlc, hsc, hse, hA, hB⟩ :=
    BTNonLeafNode.split_low_entryAt c n sibling key pid midKey hfit hpage hspage hsib he
  have hE := n.entries_getElem? c.KEYS_PER_PAGE hfull
  have hEl := left.entries_getElem? _ hlc
  have hEs := sib.entries_getElem? _ hsc
  have hlk : ∀ x, x ∈ left.keys ↔ ∃ i, i < (c.KEYS_PER_PAGE + 1) / 2 ∧ left.keyAt i = x := by
    intro x
    rw [left.mem_keys_iff x, hlc, Int.toNat_ofNat]
  have hsk : ∀ x, x ∈ sib.keys ↔ ∃ i, i < c.KEYS_PER_PAGE / 2 ∧ sib.keyAt i = x := by
    intro x
    rw [sib.mem_keys_iff x, hsc, Int.toNat_ofNat]
  refine ⟨hbelow, l3, left, sib, mk, hres, ?_, ?_, hlc, hsc, ?_, ?_, ?_⟩
  · intro heq
    obtain ⟨a1, a2, a3⟩ := hA heq
    refine ⟨a1, a2, ?_⟩
    apply List.ext_getElem?
    intro i
    rw [hEl, getElem?_take_if, hE, (a3 i).1, (a3 i).2]
    by_cases r : i < (c.KEYS_PER_PAGE + 1) / 2
    · rw [if_pos r, if_pos r, if_pos (show i < c.KEYS_PER_PAGE by omega)]
    · rw [if_neg r, if_neg r]
  · intro hlt
    obtain ⟨a1, a2, a3⟩ := hB hlt
    refine ⟨a1, a2, ?_⟩
    have hkl : (n.entries.take ((c.KEYS_PER_PAGE + 1) / 2 - 1)).length =
        (c.KEYS_PER_PAGE + 1) / 2 - 1 := by
      rw [List.length_take, n.entries_length _ hfull]; omega
    apply List.ext_getElem?
    intro i
    rw [hEl, getElem?_insert_at _ _ _ _ (by rw [hkl]; omega), getElem?_take_if,
      getElem?_take_if, hE, hE]
    by_cases r : i < (c.KEYS_PER_PAGE + 1) / 2
    · rw [if_pos r, (a3 i r).1, (a3 i r).2]
      by_cases r1 : i < n.locate key
      · rw [if_pos r1, if_pos r1, if_pos r1, if_pos (show i < (c.KEYS_PER_PAGE + 1) / 2 - 1 by omega),
          if_pos (show i < c.KEYS_PER_PAGE by omega)]
      · by_cases r2 : i = n.locate key
        · rw [if_neg r1, if_neg r1, if_neg r1, if_pos r2, if_pos r2, if_pos r2]
        · rw [if_neg r1, if_neg r1, if_neg r1, if_neg r2, if_neg r2, if_neg r2,
            if_pos (show i - 1 < (c.KEYS_PER_PAGE + 1) / 2 - 1 by omega),
            if_pos (show i - 1 < c.KEYS_PER_PAGE by omega)]
    · rw [if_neg r, if_neg (show ¬ i < n.locate key by omega),
        if_neg (show ¬ i = n.locate key by omega),
        if_neg (show ¬ i - 1 < (c.KEYS_PER_PAGE + 1) / 2 - 1 by omega)]
  · apply List.ext_getElem?
    intro i
    rw [hEs, List.getElem?_drop, hE]
    by_cases r : i < c.KEYS_PER_PAGE / 2
    · rw [if_pos r, if_pos (show (c.KEYS_PER_PAGE + 1) / 2 + i < c.KEYS_PER_PAGE by omega),
        (hse i r).1, (hse i r).2]
    · rw [if_neg r, if_neg (show ¬ (c.KEYS_PER_PAGE + 1) / 2 + i < c.KEYS_PER_PAGE by omega)]
  · rw [hlk]
    rintro ⟨i, hi, hik⟩
    rcases Nat.lt_or_ge (n.locate key) ((c.KEYS_PER_PAGE + 1) / 2) with hlt | hge
    · obtain ⟨a1, -, a3⟩ := hB hlt
      rw [(a3 i hi).1, a1] at hik
      by_cases r1 : i < n.locate key
      · rw [if_pos r1] at hik
        exact absurd hik (ne_of_lt (hsorted i _ (by omega) (by omega)))
      · by_cases r2 : i = n.locate key
        · rw [if_neg r1, if_pos r2] at hik
          exact hnk _ (by omega) hik.symm
        · rw [if_neg r1, if_neg r2] at hik
          exact absurd hik (ne_of_lt (hsorted (i - 1) _ (by omega) (by omega)))
    · obtain ⟨a1, -, a3⟩ := hA (by omega)
      rw [(a3 i).1, a1] at hik
      exact hnk i (by omega) hik
  · rw [hsk]
    rintro ⟨i, hi, hik⟩
    rw [(hse i hi).1] at hik
    rcases Nat.lt_or_ge (n.locate key) ((c.KEYS_PER_PAGE + 1) / 2) with hlt | hge
    · obtain ⟨a1, -, -⟩ := hB hlt
      rw [a1] at hik
      exact absurd hik.symm (ne_of_lt (hsorted _ _ (by omega) (by omega)))
    · obtain ⟨a1, -, -⟩ := hA (by omega)
      rw [a1] at hik
      exact hnk _ (by omega) hik

/-- Every word of a fresh page is zero. -/
theorem zeroPage_rd32 (c : Config) (off : Nat) : rd32 (zeroPage c) off = 0 := by
  unfold rd32 zeroPage
  rw [List.getD_eq_getElem?_getD, List.getElem?_replicate]
  split_ifs <;> rfl


/-! ### Leaf split: the entries of the two nodes -/

/-- What `BTLeafNode::splitFromSibling` leaves in an empty page-sized sibling when it is
given the `count` entries that start at entry `start` of the buffer `b`. -/
theorem BTLeafNode.splitFromSibling_entryAt (c : Config) (sibling : BTLeafNode) (b : Buffer)
    (start count : Nat) (hfit : c.Fits) (hsp : sibling.IsPage c)
    (hsib : sibling.getKeyCount = 0) (hb : b.length = c.PAGE_SIZE / 4)
    (hcnt : count ≤ c.ENTRIES_PER_PAGE) (hsrc : 4 + start * 12 + count * 12 ≤ c.PAGE_SIZE) :
    (sibling.splitFromSibling count (memcpyFrom b (4 + start * 12) (count * 12))).2.IsPage c ∧
    (sibling.splitFromSibling count
      (memcpyFrom b (4 + start * 12) (count * 12))).2.getKeyCount = (count : Int) ∧
    ∀ i, i < count →
      (sibling.splitFromSibling count
        (memcpyFrom b (4 + start * 12) (count * 12))).2.keyAt i = rd32 b (4 + (start + i) * 12 + 8) ∧
      (sibling.splitFromSibling count
        (memcpyFrom b (4 + start * 12) (count * 12))).2.ridAt i =
          ⟨rd32 b (4 + (start + i) * 12), rd32 b (4 + (start + i) * 12 + 4)⟩ := by
  have h1 := hfit.1
  have hs0 : ¬ sibling.getKeyCount > 0 := by omega
  have hz : sibling.buffer.length = c.PAGE_SIZE / 4 := hsp
  have hcl : (memcpyFrom b (4 + start * 12) (count * 12)).length = count * 12 / 4 :=
    length_memcpyFrom _ _ _ (by omega)
  have hd : 4 / 4 + count * 12 / 4 ≤ (wr32 sibling.buffer 0 (count : Int)).length := by
    rw [length_wr32, hz]; omega
  have heq : (sibling.splitFromSibling count (memcpyFrom b (4 + start * 12) (count * 12))).2 =
      ⟨memcpyInto (wr32 sibling.buffer 0 (count : Int)) 4
        (memcpyFrom b (4 + start * 12) (count * 12)) (count * 12)⟩ := by
    simp only [BTLeafNode.splitFromSibling, hs0, if_false]
  rw [heq]
  have hg : ∀ j, 1 ≤ j → j < 1 + 3 * count →
      (memcpyInto (wr32 sibling.buffer 0 (count : Int)) 4
        (memcpyFrom b (4 + start * 12) (count * 12)) (count * 12)).getD j 0 =
      b.getD (1 + 3 * start + (j - 1)) 0 := by
    intro j hj1 hj2
    rw [getD_memcpyInto _ _ _ _ _ hd (by rw [hcl]), if_pos (by omega),
      getD_memcpyFrom _ _ _ _ (by omega)]
    congr 1
    omega
  refine ⟨?_, ?_, ?_⟩
  · show (memcpyInto _ _ _ _).length = _
    rw [length_memcpyInto _ _ _ _ hd (by rw [hcl]), length_wr32, hz]
  · show rd32 (memcpyInto _ _ _ _) 0 = _
    unfold rd32
    rw [getD_memcpyInto _ _ _ _ _ hd (by rw [hcl]), if_neg (by omega)]
    show rd32 (wr32 sibling.buffer 0 (count : Int)) 0 = _
    rw [rd32_wr32, if_pos ⟨rfl, by rw [hz]; omega⟩]
  · intro i hi
    unfold BTLeafNode.keyAt BTLeafNode.ridAt rd32
    have k1 : (4 + i * 12 + 8) / 4 = 3 + 3 * i := by omega
    have k2 : (4 + i * 12) / 4 = 1 + 3 * i := by omega
    have k3 : (4 + i * 12 + 4) / 4 = 2 + 3 * i := by omega
    have m1 : (4 + (start + i) * 12 + 8) / 4 = 1 + 3 * start + (3 + 3 * i - 1) := by omega
    have m2 : (4 + (start + i) * 12) / 4 = 1 + 3 * start + (1 + 3 * i - 1) := by omega
    have m3 : (4 + (start + i) * 12 + 4) / 4 = 1 + 3 * start + (2 + 3 * i - 1) := by omega
    simp only [k1, k2, k3, m1, m2, m3]
    rw [hg _ (by omega) (by omega), hg _ (by omega) (by omega), hg _ (by omega) (by omega)]
    exact ⟨rfl, rfl⟩

/-- The node cut to its first `s` entries: the count is `s`, the entries and the rest of
the page stay. -/
theorem BTLeafNode.truncate_entryAt (n : BTLeafNode) (s : Nat) (hlen : 0 < n.buffer.length) :
    (⟨wr32 n.buffer 0 (s : Int)⟩ : BTLeafNode).getKeyCount = (s : Int) ∧
    (⟨wr32 n.buffer 0 (s : Int)⟩ : BTLeafNode).buffer.length = n.buffer.length ∧
    ∀ i, (⟨wr32 n.buffer 0 (s : Int)⟩ : BTLeafNode).keyAt i = n.keyAt i ∧
      (⟨wr32 n.buffer 0 (s : Int)⟩ : BTLeafNode).ridAt i = n.ridAt i := by
  refine ⟨?_, length_wr32 _ _ _, fun i => ?_⟩
  · show rd32 (wr32 n.buffer 0 _) 0 = _
    rw [rd32_wr32, if_pos ⟨rfl, by omega⟩]
  · unfold BTLeafNode.keyAt BTLeafNode.ridAt
    show rd32 (wr32 n.buffer 0 _) _ = _ ∧ RecordId.mk (rd32 (wr32 n.buffer 0 _) _)
      (rd32 (wr32 n.buffer 0 _) _) = _
    rw [rd32_wr32, rd32_wr32, rd32_wr32, if_neg (by omega), if_neg (by omega), if_neg (by omega)]
    exact ⟨rfl, rfl⟩

/-- `BTLeafNode::readEntry` at an index below the count. -/
theorem BTLeafNode.readEntry_lt (n : BTLeafNode) (i cnt : Nat) (hc : n.getKeyCount = (cnt : Int))
    (hi : i < cnt) : n.readEntry (i : Int) = Except.ok (n.keyAt i, n.ridAt i) := by
  have hre : ¬ ((i : Int) < 0 ∨ (i : Int) ≥ n.getKeyCount) := by
    rw [hc]; omega
  simp only [BTLeafNode.readEntry, hre, if_false, Int.toNat_ofNat, BTLeafNode.keyAt,
    BTLeafNode.ridAt]

/-- `BTLeafNode::insertAndSplit` on a full leaf, entry by entry, whenever the entries
copied fit the array `copy`: with the `ENTRIES_PER_PAGE + 1` entries in sorted order (the
original ones with the new pair at its insertion position `e`), the left node holds the
first `half` of them and the sibling the rest; `siblingKey` is the sibling's first key. -/
theorem BTLeafNode.split_entryAt (c : Config) (n sibling : BTLeafNode) (key : Int)
    (rid : RecordId) (sk : Int) (e : Nat) (hfit : c.Fits) (hpage : n.IsPage c)
    (hsp : sibling.IsPage c) (hsib : sibling.getKeyCount = 0)
    (hfull : n.getKeyCount = c.ENTRIES_PER_PAGE) (hN : 1 ≤ c.ENTRIES_PER_PAGE)
    (hnew : key ∉ n.keys) (he : (n.locate key).2 = (e : Int))
    (hcopy : e < (c.ENTRIES_PER_PAGE + 1) / 2 →
      c.ENTRIES_PER_PAGE - ((c.ENTRIES_PER_PAGE + 1) / 2 - 1) ≤ (c.ENTRIES_PER_PAGE + 1) / 2) :
    ∃ left sib sk1, n.insertAndSplit c key rid sibling sk = some (0, left, sib, sk1) ∧
      left.getKeyCount = (((c.ENTRIES_PER_PAGE + 1) / 2 : Nat) : Int) ∧
      sib.getKeyCount = ((c.ENTRIES_PER_PAGE + 1 - (c.ENTRIES_PER_PAGE + 1) / 2 : Nat) : Int) ∧
      (∀ i, i < (c.ENTRIES_PER_PAGE + 1) / 2 →
        left.keyAt i = (if i < e then n.keyAt i else if i = e then key else n.keyAt (i - 1)) ∧
        left.ridAt i = (if i < e then n.ridAt i else if i = e then rid else n.ridAt (i - 1))) ∧
      (∀ i, i < c.ENTRIES_PER_PAGE + 1 - (c.ENTRIES_PER_PAGE + 1) / 2 →
        sib.keyAt i = (if (c.ENTRIES_PER_PAGE + 1) / 2 + i < e
          then n.keyAt ((c.ENTRIES_PER_PAGE + 1) / 2 + i)
          else if (c.ENTRIES_PER_PAGE + 1) / 2 + i = e then key
          else n.keyAt ((c.ENTRIES_PER_PAGE + 1) / 2 + i - 1)) ∧
        sib.ridAt i = (if (c.ENTRIES_PER_PAGE + 1) / 2 + i < e
          then n.ridAt ((c.ENTRIES_PER_PAGE + 1) / 2 + i)
          else if (c.ENTRIES_PER_PAGE + 1) / 2 + i = e then rid
          else n.ridAt ((c.ENTRIES_PER_PAGE + 1) / 2 + i - 1))) ∧
      sk1 = sib.keyAt 0 := by
  have hP := hfit.1
  have hp : n.buffer.length = c.PAGE_SIZE / 4 := hpage
  have hct : n.getKeyCount.toNat = c.ENTRIES_PER_PAGE := by omega
  have hs0 : ¬ sibling.getKeyCount > 0 := by omega
  obtain ⟨e0, hloc, hle, hbelow, habove⟩ := n.locate_absent key hnew
  rw [hct] at hle habove
  have hee : e0 = e := by
    rw [hloc] at he
    have he' : (e0 : Int) = (e : Int) := he
    exact_mod_cast he'
  subst hee
  have hnk : ∀ j, j < c.ENTRIES_PER_PAGE → n.keyAt j ≠ key := fun j hj hjk =>
    hnew ((n.mem_keys key).2 ⟨j, by rw [hct]; exact hj, hjk⟩)
  generalize hH : (c.ENTRIES_PER_PAGE + 1) / 2 = half at hcopy ⊢
  have hhalf1 : 1 ≤ half := by omega
  have hhalfN : half ≤ c.ENTRIES_PER_PAGE := by omega
  by_cases hlt : e0 < half
  · -- the new entry goes to the left node
    have hcp := hcopy hlt
    have hltI : (n.locate key).2 < ((half : Nat) : Int) := by rw [he]; exact_mod_cast hlt
    have hsl : (half - 1 : Nat) < half := by omega
    have hchk : 4 + (half - 1) * 12 + (c.ENTRIES_PER_PAGE - (half - 1)) * 12 ≤ c.PAGE_SIZE ∧
        (c.ENTRIES_PER_PAGE - (half - 1)) * 12 ≤ half * 12 := by
      constructor <;> omega
    obtain ⟨t1, t2, t3⟩ := BTLeafNode.truncate_entryAt n (half - 1) (by omega)
    have hnew1 : key ∉ (⟨wr32 n.buffer 0 ((half - 1 : Nat) : Int)⟩ : BTLeafNode).keys := by
      rw [BTLeafNode.mem_keys, t1, Int.toNat_ofNat]
      rintro ⟨i, hi, hik⟩
      rw [(t3 i).1] at hik
      exact hnk i (by omega) hik
    obtain ⟨e1, hloc1, hle1, hbelow1, habove1⟩ := BTLeafNode.locate_absent _ key hnew1
    rw [t1, Int.toNat_ofNat] at hle1 habove1
    have he1 : e1 = e0 := by
      rcases Nat.lt_trichotomy e1 e0 with h | h | h
      · have a := habove1 (by omega)
        rw [(t3 e1).1] at a
        have b := hbelow e1 h
        omega
      · exact h
      · have a := hbelow1 e0 h
        rw [(t3 e0).1] at a
        have b := habove (by omega)
        omega
    subst he1
    have hl1 : ((⟨wr32 n.buffer 0 ((half - 1 : Nat) : Int)⟩ : BTLeafNode).locate key).2 =
        (e1 : Int) := by rw [hloc1]
    have hlen1 : 1 + 3 * (half - 1 + 1) ≤
        (⟨wr32 n.buffer 0 ((half - 1 : Nat) : Int)⟩ : BTLeafNode).buffer.length := by
      rw [t2]; omega
    obtain ⟨-, -, hw⟩ := BTLeafNode.insert_words c _ key rid (half - 1) e1 t1 hl1 hle1 (by omega)
      hlen1
    have hent := BTLeafNode.insert_entryAt c _ key rid (half - 1) e1 t1 hl1 hle1 (by omega) hlen1
    obtain ⟨s1, s2, s3⟩ := BTLeafNode.splitFromSibling_entryAt c sibling n.buffer (half - 1)
      (c.ENTRIES_PER_PAGE - (half - 1)) hfit hsp hsib hp (by omega) hchk.1
    have hre := BTLeafNode.readEntry_lt _ 0 _ s2 (by omega)
    have hres : n.insertAndSplit c key rid sibling sk = some (0,
        ((⟨wr32 n.buffer 0 ((half - 1 : Nat) : Int)⟩ : BTLeafNode).insert c key rid).2,
        (sibling.splitFromSibling (c.ENTRIES_PER_PAGE - (half - 1))
          (memcpyFrom n.buffer (4 + (half - 1) * 12)
            ((c.ENTRIES_PER_PAGE - (half - 1)) * 12))).2,
        (sibling.splitFromSibling (c.ENTRIES_PER_PAGE - (half - 1))
          (memcpyFrom n.buffer (4 + (half - 1) * 12)
            ((c.ENTRIES_PER_PAGE - (half - 1)) * 12))).2.keyAt 0) := by
      simp only [BTLeafNode.insertAndSplit, hs0, if_false, hH, hltI, if_true, memcpyFromChecked,
        hchk, and_self, hsl]
      rw [show ((0 : Nat) : Int) = 0 from rfl] at hre
      rw [hre]
    refine ⟨_, _, _, hres, ?_, ?_, ?_, ?_, rfl⟩
    · have := hw 0
      simp only [if_true] at this
      show rd32 _ 0 = _
      unfold rd32
      rw [show (0 : Nat) / 4 = 0 from rfl, this]
      omega
    · rw [s2]
      congr 1
      omega
    · intro i hi
      obtain ⟨a, b⟩ := hent i
      rw [a, b]
      by_cases r1 : i < e1
      · rw [if_pos r1, if_pos r1, if_pos r1, if_pos r1, (t3 i).1, (t3 i).2]
        exact ⟨rfl, rfl⟩
      · by_cases r2 : i = e1
        · rw [if_neg r1, if_neg r1, if_neg r1, if_neg r1, if_pos r2, if_pos r2, if_pos r2,
            if_pos r2]
          exact ⟨rfl, rfl⟩
        · rw [if_neg r1, if_neg r1, if_neg r1, if_neg r1, if_neg r2, if_neg r2, if_neg r2,
            if_neg r2, if_pos (show i ≤ half - 1 by omega), if_pos (show i ≤ half - 1 by omega),
            (t3 (i - 1)).1, (t3 (i - 1)).2]
          exact ⟨rfl, rfl⟩
    · intro i hi
      obtain ⟨a, b⟩ := s3 i (by omega)
      rw [a, b, if_neg (show ¬ half + i < e1 by omega), if_neg (show ¬ half + i = e1 by omega),
        if_neg (show ¬ half + i < e1 by omega), if_neg (show ¬ half + i = e1 by omega)]
      have hidx : half - 1 + i = half + i - 1 := by omega
      rw [hidx]
      exact ⟨rfl, rfl⟩
  · -- the new entry goes to the sibling
    have hltI : ¬ (n.locate key).2 < ((half : Nat) : Int) := by
      rw [he]
      intro h
      exact hlt (by exact_mod_cast h)
    have hsl : ¬ (half : Nat) < half := lt_irrefl _
    have hchk : 4 + half * 12 + (c.ENTRIES_PER_PAGE - half) * 12 ≤ c.PAGE_SIZE ∧
        (c.ENTRIES_PER_PAGE - half) * 12 ≤ half * 12 := by
      constructor <;> omega
    obtain ⟨t1, t2, t3⟩ := BTLeafNode.truncate_entryAt n half (by omega)
    obtain ⟨s1, s2, s3⟩ := BTLeafNode.splitFromSibling_entryAt c sibling n.buffer half
      (c.ENTRIES_PER_PAGE - half) hfit hsp hsib hp (by omega) hchk.1
    have hs3 : ∀ i, i < c.ENTRIES_PER_PAGE - half →
        (sibling.splitFromSibling (c.ENTRIES_PER_PAGE - half)
          (memcpyFrom n.buffer (4 + half * 12) ((c.ENTRIES_PER_PAGE - half) * 12))).2.keyAt i =
          n.keyAt (half + i) ∧
        (sibling.splitFromSibling (c.ENTRIES_PER_PAGE - half)
          (memcpyFrom n.buffer (4 + half * 12) ((c.ENTRIES_PER_PAGE - half) * 12))).2.ridAt i =
          n.ridAt (half + i) := fun i hi => s3 i hi
    have hnew2 : key ∉ (sibling.splitFromSibling (c.ENTRIES_PER_PAGE - half)
        (memcpyFrom n.buffer (4 + half * 12) ((c.ENTRIES_PER_PAGE - half) * 12))).2.keys := by
      rw [BTLeafNode.mem_keys, s2, Int.toNat_ofNat]
      rintro ⟨i, hi, hik⟩
      rw [(hs3 i hi).1] at hik
      exact hnk _ (by omega) hik
    obtain ⟨e2, hloc2, hle2, hbelow2, habove2⟩ := BTLeafNode.locate_absent _ key hnew2
    rw [s2, Int.toNat_ofNat] at hle2 habove2
    have he2 : e2 = e0 - half := by
      rcases Nat.lt_trichotomy e2 (e0 - half) with h | h | h
      · have a := habove2 (by omega)
        rw [(hs3 e2 (by omega)).1] at a
        have b := hbelow (half + e2) (by omega)
        omega
      · exact h
      · have a := hbelow2 (e0 - half) h
        rw [(hs3 (e0 - half) (by omega)).1] at a
        have b := habove (by omega)
        have hidx : half + (e0 - half) = e0 := by omega
        rw [hidx] at a
        omega
    have hl2 : ((sibling.splitFromSibling (c.ENTRIES_PER_PAGE - half)
        (memcpyFrom n.buffer (4 + half * 12) ((c.ENTRIES_PER_PAGE - half) * 12))).2.locate key).2 =
        (e2 : Int) := by rw [hloc2]
    have hlen2 : 1 + 3 * (c.ENTRIES_PER_PAGE - half + 1) ≤
        (sibling.splitFromSibling (c.ENTRIES_PER_PAGE - half)
          (memcpyFrom n.buffer (4 + half * 12)
            ((c.ENTRIES_PER_PAGE - half) * 12))).2.buffer.length := by
      have : _ = c.PAGE_SIZE / 4 := s1
      rw [this]; omega
    obtain ⟨-, -, hw⟩ := BTLeafNode.insert_words c _ key rid (c.ENTRIES_PER_PAGE - half) e2 s2 hl2
      hle2 (by omega) hlen2
    have hent := BTLeafNode.insert_entryAt c _ key rid (c.ENTRIES_PER_PAGE - half) e2 s2 hl2 hle2
      (by omega) hlen2
    have hcount2 : ((sibling.splitFromSibling (c.ENTRIES_PER_PAGE - half)
        (memcpyFrom n.buffer (4 + half * 12) ((c.ENTRIES_PER_PAGE - half) * 12))).2.insert c key
          rid).2.getKeyCount = ((c.ENTRIES_PER_PAGE + 1 - half : Nat) : Int) := by
      have := hw 0
      simp only [if_true] at this
      show rd32 _ 0 = _
      unfold rd32
      rw [show (0 : Nat) / 4 = 0 from rfl, this]
      omega
    have hre := BTLeafNode.readEntry_lt _ 0 _ hcount2 (by omega)
    have hres : n.insertAndSplit c key rid sibling sk = some (0,
        (⟨wr32 n.buffer 0 ((half : Nat) : Int)⟩ : BTLeafNode),
        ((sibling.splitFromSibling (c.ENTRIES_PER_PAGE - half)
          (memcpyFrom n.buffer (4 + half * 12) ((c.ENTRIES_PER_PAGE - half) * 12))).2.insert c key
            rid).2,
        ((sibling.splitFromSibling (c.ENTRIES_PER_PAGE - half)
          (memcpyFrom n.buffer (4 + half * 12) ((c.ENTRIES_PER_PAGE - half) * 12))).2.insert c key
            rid).2.keyAt 0) := by
      simp only [BTLeafNode.insertAndSplit, hs0, if_false, hH, hltI, memcpyFromChecked,
        hchk, and_self, hsl, if_true]
      rw [show ((0 : Nat) : Int) = 0 from rfl] at hre
      rw [hre]
    refine ⟨_, _, _, hres, t1, hcount2, ?_, ?_, rfl⟩
    · intro i hi
      rw [(t3 i).1, (t3 i).2, if_pos (show i < e0 by omega), if_pos (show i < e0 by omega)]
      exact ⟨rfl, rfl⟩
    · intro i hi
      obtain ⟨a, b⟩ := hent i
      rw [a, b]
      by_cases r1 : i < e2
      · rw [if_pos r1, if_pos r1, if_pos (show half + i < e0 by omega),
          if_pos (show half + i < e0 by omega), (hs3 i (by omega)).1, (hs3 i (by omega)).2]
        exact ⟨rfl, rfl⟩
      · by_cases r2 : i = e2
        · rw [if_neg r1, if_neg r1, if_pos r2, if_pos r2, if_neg (show ¬ half + i < e0 by omega),
            if_neg (show ¬ half + i < e0 by omega), if_pos (show half + i = e0 by omega),
            if_pos (show half + i = e0 by omega)]
          exact ⟨rfl, rfl⟩
        · rw [if_neg r1, if_neg r1, if_neg r2, if_neg r2,
            if_pos (show i ≤ c.ENTRIES_PER_PAGE - half by omega),
            if_pos (show i ≤ c.ENTRIES_PER_PAGE - half by omega),
            if_neg (show ¬ half + i < e0 by omega), if_neg (show ¬ half + i < e0 by omega),
            if_neg (show ¬ half + i = e0 by omega), if_neg (show ¬ half + i = e0 by omega),
            (hs3 (i - 1) (by omega)).1, (hs3 (i - 1) (by omega)).2]
          have hidx : half + (i - 1) = half + i - 1 := by omega
          rw [hidx]
          exact ⟨rfl, rfl⟩

/-- Putting a key at its sorted position into a strictly increasing sequence keeps it
strictly increasing. -/
theorem insert_key_increasing (f : Nat → Int) (key : Int) (e m : Nat)
    (hmono : ∀ i j, i < j → j < m → f i < f j) (hbelow : ∀ i, i < e → f i < key)
    (habove : e < m → key < f e) (he : e ≤ m) (i j : Nat) (hij : i < j) (hj : j < m + 1) :
    (if i < e then f i else if i = e then key else f (i - 1)) <
      (if j < e then f j else if j = e then key else f (j - 1)) := by
  by_cases a1 : j < e
  · rw [if_pos a1, if_pos (show i < e by omega)]
    exact hmono i j hij (by omega)
  · by_cases a2 : j = e
    · rw [if_neg a1, if_pos a2, if_pos (show i < e by omega)]
      exact hbelow i (by omega)
    · rw [if_neg a1, if_neg a2]
      have hkj : key < f (j - 1) := by
        by_cases a3 : j - 1 = e
        · rw [a3]; exact habove (by omega)
        · exact lt_trans (habove (by omega)) (hmono e (j - 1) (by omega) (by omega))
      by_cases b1 : i < e
      · rw [if_pos b1]
        exact lt_trans (hbelow i b1) hkj
      · by_cases b2 : i = e
        · rw [if_neg b1, if_pos b2]
          exact hkj
        · rw [if_neg b1, if_neg b2]
          exact hmono (i - 1) (j - 1) (by omega) (by omega)

theorem BTLeafNode.leaf_entries_get (n : BTLeafNode) (m : Nat) (h : n.getKeyCount = (m : Int))
    (i : Nat) : n.entries[i]? = if i < m then some (n.keyAt i, n.ridAt i) else none := by
  have : n.getKeyCount.toNat = m := by omega
  simp only [BTLeafNode.entries, this]
  exact getElem?_map_range _ m i

theorem BTLeafNode.leaf_entries_length (n : BTLeafNode) (m : Nat)
    (h : n.getKeyCount = (m : Int)) : n.entries.length = m := by
  have : n.getKeyCount.toNat = m := by omega
  simp [BTLeafNode.entries, this]

/-- `BTLeafNode::insertAndSplit` on a full sorted leaf for a key that is not stored,
whenever the entries copied fit the array `copy` (always when the insertion position is
at least `half`): the call returns 0, the entries of the left node followed by those of
the sibling are the original entries with the new pair at its sorted position, both
nodes are sorted, and `siblingKey` is the sibling's first key, above every key left in
the original node. -/
theorem BTLeafNode.split_content (c : Config) (n sibling : BTLeafNode) (key : Int)
    (rid : RecordId) (sk : Int) (hfit : c.Fits) (hpage : n.IsPage c) (hsp : sibling.IsPage c)
    (hsib : sibling.getKeyCount = 0) (hfull : n.getKeyCount = c.ENTRIES_PER_PAGE)
    (hN : 1 ≤ c.ENTRIES_PER_PAGE) (hs : n.Sorted) (hnew : key ∉ n.keys)
    (hcopy : (n.locate key).2 < (((c.ENTRIES_PER_PAGE + 1) / 2 : Nat) : Int) →
      c.ENTRIES_PER_PAGE - ((c.ENTRIES_PER_PAGE + 1) / 2 - 1) ≤ (c.ENTRIES_PER_PAGE + 1) / 2) :
    ∃ (e : Nat) (left sib : BTLeafNode) (sk1 : Int), (n.locate key).2 = (e : Int) ∧
      n.insertAndSplit c key rid sibling sk = some (0, left, sib, sk1) ∧
      left.entries ++ sib.entries = n.entries.take e ++ [(key, rid)] ++ n.entries.drop e ∧
      left.getKeyCount = (((c.ENTRIES_PER_PAGE + 1) / 2 : Nat) : Int) ∧
      sib.getKeyCount = ((c.ENTRIES_PER_PAGE + 1 - (c.ENTRIES_PER_PAGE + 1) / 2 : Nat) : Int) ∧
      left.Sorted ∧ sib.Sorted ∧ sk1 = sib.keyAt 0 ∧ (∀ k, k ∈ left.keys → k < sk1) := by
  have hct : n.getKeyCount.toNat = c.ENTRIES_PER_PAGE := by omega
  obtain ⟨e, hloc, hle, hbelow, habove⟩ := n.locate_absent key hnew
  rw [hct] at hle habove
  have he : (n.locate key).2 = (e : Int) := by rw [hloc]
  have hsorted := fun i j hij hj => n.sorted_keyAt hs i j hij (by rw [hct]; exact hj)
  obtain ⟨left, sib, sk1, hres, hlc, hsc, hl, hsb, hsk⟩ :=
    BTLeafNode.split_entryAt c n sibling key rid sk e hfit hpage hsp hsib hfull hN hnew he
      (fun h => hcopy (by rw [he]; exact_mod_cast h))
  generalize hH : (c.ENTRIES_PER_PAGE + 1) / 2 = half at hlc hsc hl hsb ⊢
  have hhalf1 : 1 ≤ half := by omega
  have hhalfN : half ≤ c.ENTRIES_PER_PAGE := by omega
  have hinc := insert_key_increasing n.keyAt key e c.ENTRIES_PER_PAGE hsorted hbelow habove hle
  have hE := n.leaf_entries_get c.ENTRIES_PER_PAGE hfull
  have hEl := left.leaf_entries_get _ hlc
  have hEs := sib.leaf_entries_get _ hsc
  refine ⟨e, left, sib, sk1, he, hres, ?_, hlc, hsc, ?_, ?_, hsk, ?_⟩
  · apply List.ext_getElem?
    intro i
    rw [getElem?_insert_at _ _ _ _ (by rw [n.leaf_entries_length _ hfull]; exact hle), hE, hE]
    by_cases r : i < half
    · rw [List.getElem?_append_left (by rw [left.leaf_entries_length _ hlc]; exact r), hEl,
        if_pos r, (hl i r).1, (hl i r).2]
      by_cases r1 : i < e
      · rw [if_pos r1, if_pos r1, if_pos r1, if_pos (show i < c.ENTRIES_PER_PAGE by omega)]
      · by_cases r2 : i = e
        · rw [if_neg r1, if_neg r1, if_neg r1, if_pos r2, if_pos r2, if_pos r2]
        · rw [if_neg r1, if_neg r1, if_neg r1, if_neg r2, if_neg r2, if_neg r2,
            if_pos (show i - 1 < c.ENTRIES_PER_PAGE by omega)]
    · rw [List.getElem?_append_right (by rw [left.leaf_entries_length _ hlc]; omega),
        left.leaf_entries_length _ hlc, hEs]
      by_cases r0 : i - half < c.ENTRIES_PER_PAGE + 1 - half
      · have hidx : half + (i - half) = i := by omega
        rw [if_pos r0, (hsb _ r0).1, (hsb _ r0).2, hidx]
        by_cases r1 : i < e
        · rw [if_pos r1, if_pos r1, if_pos r1, if_pos (show i < c.ENTRIES_PER_PAGE by omega)]
        · by_cases r2 : i = e
          · rw [if_neg r1, if_neg r1, if_neg r1, if_pos r2, if_pos r2, if_pos r2]
          · rw [if_neg r1, if_neg r1, if_neg r1, if_neg r2, if_neg r2, if_neg r2,
              if_pos (show i - 1 < c.ENTRIES_PER_PAGE by omega)]
      · rw [if_neg r0, if_neg (show ¬ i < e by omega), if_neg (show ¬ i = e by omega),
          if_neg (show ¬ i - 1 < c.ENTRIES_PER_PAGE by omega)]
  · unfold BTLeafNode.Sorted BTLeafNode.keys
    rw [hlc, Int.toNat_ofNat, pairwise_map_range]
    intro i j hij hj
    rw [(hl i (by omega)).1, (hl j hj).1]
    exact hinc i j hij (by omega)
  · unfold BTLeafNode.Sorted BTLeafNode.keys
    rw [hsc, Int.toNat_ofNat, pairwise_map_range]
    intro i j hij hj
    rw [(hsb i (by omega)).1, (hsb j hj).1]
    exact hinc (half + i) (half + j) (by omega) (by omega)
  · intro k hk
    rw [BTLeafNode.mem_keys, hlc, Int.toNat_ofNat] at hk
    obtain ⟨i, hi, hik⟩ := hk
    rw [← hik, hsk, (hl i hi).1, (hsb 0 (by omega)).1]
    exact hinc i (half + 0) (by omega) (by omega)

theorem take_insert_at_of_le {α : Type} (l : List α) (x : α) (e h : Nat) (he : e ≤ l.length)
    (hh : h ≤ e) : (l.take e ++ [x] ++ l.drop e).take h = l.take h := by
  apply List.ext_getElem?
  intro i
  rw [getElem?_take_if, getElem?_take_if, getElem?_insert_at l x e i he]
  by_cases r : i < h
  · rw [if_pos r, if_pos r, if_pos (show i < e by omega)]
  · rw [if_neg r, if_neg r]

theorem drop_insert_at_of_lt {α : Type} (l : List α) (x : α) (e h : Nat) (he : e ≤ l.length)
    (hh : e < h) : (l.take e ++ [x] ++ l.drop e).drop h = l.drop (h - 1) := by
  apply List.ext_getElem?
  intro i
  rw [List.getElem?_drop, List.getElem?_drop, getElem?_insert_at l x e _ he,
    if_neg (show ¬ h + i < e by omega), if_neg (show ¬ h + i = e by omega)]
  congr 1
  omega

theorem BTLeafNode.keys_eq_map_entries (n : BTLeafNode) : n.keys = n.entries.map Prod.fst := by
  simp [BTLeafNode.keys, BTLeafNode.entries, List.map_map, Function.comp_def]

/-- `BTLeafNode::insertAndSplit` on a full sorted leaf, as two halves: of the
`ENTRIES_PER_PAGE + 1` entries in sorted order the left node holds the first `half` and
the sibling the rest, whenever the entries copied fit the array `copy`. -/
theorem BTLeafNode.split_halves (c : Config) (n sibling : BTLeafNode) (key : Int)
    (rid : RecordId) (sk : Int) (hfit : c.Fits) (hpage : n.IsPage c) (hsp : sibling.IsPage c)
    (hsib : sibling.getKeyCount = 0) (hfull : n.getKeyCount = c.ENTRIES_PER_PAGE)
    (hN : 1 ≤ c.ENTRIES_PER_PAGE) (hs : n.Sorted) (hnew : key ∉ n.keys)
    (hcopy : (n.locate key).2 < (((c.ENTRIES_PER_PAGE + 1) / 2 : Nat) : Int) →
      c.ENTRIES_PER_PAGE - ((c.ENTRIES_PER_PAGE + 1) / 2 - 1) ≤ (c.ENTRIES_PER_PAGE + 1) / 2) :
    ∃ (e : Nat) (left sib : BTLeafNode) (sk1 : Int), (n.locate key).2 = (e : Int) ∧
      e ≤ c.ENTRIES_PER_PAGE ∧
      n.insertAndSplit c key rid sibling sk = some (0, left, sib, sk1) ∧
      left.entries =
        (n.entries.take e ++ [(key, rid)] ++ n.entries.drop e).take
          ((c.ENTRIES_PER_PAGE + 1) / 2) ∧
      sib.entries =
        (n.entries.take e ++ [(key, rid)] ++ n.entries.drop e).drop
          ((c.ENTRIES_PER_PAGE + 1) / 2) ∧
      left.getKeyCount = (((c.ENTRIES_PER_PAGE + 1) / 2 : Nat) : Int) ∧
      sib.getKeyCount = ((c.ENTRIES_PER_PAGE + 1 - (c.ENTRIES_PER_PAGE + 1) / 2 : Nat) : Int) ∧
      left.Sorted ∧ sib.Sorted ∧ sk1 = sib.keyAt 0 ∧ (∀ k, k ∈ left.keys → k < sk1) := by
  obtain ⟨e, left, sib, sk1, h1, h2, h3, h4, h5, h6, h7, h8, h9⟩ :=
    BTLeafNode.split_content c n sibling key rid sk hfit hpage hsp hsib hfull hN hs hnew hcopy
  have hle : e ≤ c.ENTRIES_PER_PAGE := by
    obtain ⟨e', he', hle'⟩ := n.locate_le key
    rw [h1] at he'
    have : e = e' := by exact_mod_cast he'
    rw [this]
    omega
  have hlen := left.leaf_entries_length _ h4
  refine ⟨e, left, sib, sk1, h1, hle, h2, ?_, ?_, h4, h5, h6, h7, h8, h9⟩
  · rw [← h3, List.take_left' hlen]
  · rw [← h3, List.drop_left' hlen]

/-! ### C11: the chain of leaves -/

/-- A page that can be read lies in `[0, end_pid)`. -/
theorem PageFile.read_ok_range (pf : PageFile) (pid : PageId) (buf : Buffer)
    (h : pf.read pid = Except.ok buf) : 0 ≤ pid ∧ pid < pf.endPid := by
  unfold PageFile.read at h
  by_cases h1 : pid < 0 ∨ pid ≥ pf.endPid
  · rw [if_pos h1] at h
    cases h
  · unfold PageId at *
    omega

/-- What `PageFile::read` returns for a page in `[0, end_pid)`. -/
theorem PageFile.read_nat (pages : List Buffer) (ro : Bool) (k : Nat) (hk : k < pages.length) :
    (⟨pages, ro⟩ : PageFile).read (k : Int) = Except.ok (pages.getD k []) := by
  have h1 : ¬ ((k : Int) < 0 ∨ (k : Int) ≥ (⟨pages, ro⟩ : PageFile).endPid) := by
    unfold PageFile.endPid
    show ¬ ((k : Int) < 0 ∨ (k : Int) ≥ (pages.length : Int))
    omega
  unfold PageFile.read
  rw [if_neg h1, Int.toNat_ofNat]

/-- The three outcomes of `PageFile::write`: refused, appended at `end_pid`, or stored
over an existing page. -/
theorem PageFile.write_cases (pages : List Buffer) (ro : Bool) (pid : Int) (buf : Buffer) :
    ((⟨pages, ro⟩ : PageFile).write pid buf).1 < 0 ∧
        ((⟨pages, ro⟩ : PageFile).write pid buf).2 = ⟨pages, ro⟩ ∨
      pid = (pages.length : Int) ∧
        (⟨pages, ro⟩ : PageFile).write pid buf = (0, ⟨pages ++ [buf], ro⟩) ∨
      ∃ k : Nat, pid = (k : Int) ∧ k < pages.length ∧
        (⟨pages, ro⟩ : PageFile).write pid buf = (0, ⟨pages.set k buf, ro⟩) := by
  unfold PageFile.write PageFile.endPid
  show (if ro = true then _ else _ : RC × PageFile).1 < 0 ∧ _ ∨ _
  by_cases h0 : ro = true
  · left
    rw [if_pos h0]
    exact ⟨show RC_FILE_WRITE_FAILED < 0 by decide, rfl⟩
  · rw [if_neg h0]
    by_cases h1 : pid < 0 ∨ pid > (pages.length : Int)
    · left
      rw [if_pos h1]
      exact ⟨show RC_INVALID_PID < 0 by decide, rfl⟩
    · rw [if_neg h1]
      by_cases h2 : pid = (pages.length : Int)
      · right; left
        rw [if_pos h2]
        exact ⟨h2, rfl⟩
      · right; right
        rw [if_neg h2]
        unfold PageId at *
        refine ⟨pid.toNat, by omega, by omega, rfl⟩

/-- After a successful `write` the page reads back. -/
theorem PageFile.read_write_same (pf : PageFile) (pid : Int) (buf : Buffer)
    (h : ¬ (pf.write pid buf).1 < 0) : (pf.write pid buf).2.read pid = Except.ok buf := by
  obtain ⟨pages, ro⟩ := pf
  rcases PageFile.write_cases pages ro pid buf with ⟨h1, -⟩ | ⟨h1, h2⟩ | ⟨k, h1, hk, h2⟩
  · exact absurd h1 h
  · rw [h2, h1, PageFile.read_nat _ _ _ (by simp)]
    simp [List.getD_eq_getElem?_getD]
  · rw [h2, h1, PageFile.read_nat _ _ _ (by simpa using hk)]
    simp [List.getD_eq_getElem?_getD, hk]

set_option maxRecDepth 1000000 in
/-- C12, as stated: three cursors that are not valid on entry. With the shipped
constants, in the index holding the keys 10 and 20 (one leaf at page 1, count 2, two
pages in the file), `readForward` at the cursor `(1, 2)`, whose `eid` is not in
`[0, count)`, fails with `RC_INVALID_RID`, and at the cursor `(5, 0)`, whose page does not
exist, with `RC_INVALID_PID`; neither is `RC_INVALID_CURSOR`. With
`ENTRIES_PER_PAGE = KEYS_PER_PAGE = 4`, in the index holding 10, 20, 30, 40, 50 the root
at page 3 is a non-leaf node; `readForward` at the cursor `(3, 0)` does not fail: it
reads the page as a leaf and returns the "key" 2 and the cursor `(3, 1)`. -/
theorem readForward_invalid_cursor_codes :
    (BTreeIndex.insertAll shipped (pairsOf [10, 20]) (BTreeIndex.fresh shipped)).map
        (fun t => [t.pf.endPid, t.rootPid, t.treeHeight]) = some [2, 1, 1] ∧
    (BTreeIndex.insertAll shipped (pairsOf [10, 20]) (BTreeIndex.fresh shipped)).map
        (fun t => [t.readForward shipped ⟨1, 2⟩, t.readForward shipped ⟨5, 0⟩]) =
      some [Except.error RC_INVALID_RID, Except.error RC_INVALID_PID] ∧
    RC_INVALID_RID ≠ RC_INVALID_CURSOR ∧ RC_INVALID_PID ≠ RC_INVALID_CURSOR ∧
    (BTreeIndex.insertAll illustration (pairsOf (tens 5)) (BTreeIndex.fresh illustration)).map
        (fun t => [t.rootPid, t.treeHeight]) = some [3, 2] ∧
    (BTreeIndex.insertAll illustration (pairsOf (tens 5)) (BTreeIndex.fresh illustration)).map
        (fun t => t.readForward illustration ⟨3, 0⟩) =
      some (Except.ok (⟨3, 1⟩, 2, ⟨1, 30⟩)) := by
  decide!

/-- C12, amended: `readForward` fails with the page store's code, `RC_INVALID_PID`, when
`cursor.pid` is not a page of the file (`pid < 0` or `pid ≥ end_pid`); otherwise it reads
the page as a leaf, whatever the page holds, and fails with `RC_INVALID_RID` when
`cursor.eid` is not in `[0, count)` for the count stored in that page, and succeeds when
it is. It never fails with `RC_INVALID_CURSOR`. -/
theorem readForward_error_codes (c : Config) (t : BTreeIndex) (cursor : IndexCursor) :
    ((cursor.pid < 0 ∨ cursor.pid ≥ t.pf.endPid) →
      t.readForward c cursor = Except.error RC_INVALID_PID) ∧
    (¬ (cursor.pid < 0 ∨ cursor.pid ≥ t.pf.endPid) →
      (cursor.eid < 0 ∨ cursor.eid ≥
          (⟨t.pf.pages.getD cursor.pid.toNat []⟩ : BTLeafNode).getKeyCount) →
      t.readForward c cursor = Except.error RC_INVALID_RID) ∧
    (¬ (cursor.pid < 0 ∨ cursor.pid ≥ t.pf.endPid) →
      ¬ (cursor.eid < 0 ∨ cursor.eid ≥
          (⟨t.pf.pages.getD cursor.pid.toNat []⟩ : BTLeafNode).getKeyCount) →
      ∃ r, t.readForward c cursor = Except.ok r) ∧
    t.readForward c cursor ≠ Except.error RC_INVALID_CURSOR := by
  by_cases hp : cursor.pid < 0 ∨ cursor.pid ≥ t.pf.endPid
  · have h : t.readForward c cursor = Except.error RC_INVALID_PID := by
      simp only [BTreeIndex.readForward, PageFile.read, hp, if_true]
    refine ⟨fun _ => h, fun h1 => absurd hp h1, fun h1 => absurd hp h1, ?_⟩
    rw [h]
    decide
  · by_cases he : cursor.eid < 0 ∨ cursor.eid ≥
        (⟨t.pf.pages.getD cursor.pid.toNat []⟩ : BTLeafNode).getKeyCount
    · have h : t.readForward c cursor = Except.error RC_INVALID_RID := by
        simp only [BTreeIndex.readForward, PageFile.read, hp, if_false, BTLeafNode.readEntry, he,
          if_true]
      refine ⟨fun h1 => absurd h1 hp, fun _ _ => h, fun _ h1 => absurd he h1, ?_⟩
      rw [h]
      decide
    · have h : ∃ r, t.readForward c cursor = Except.ok r := by
        simp only [BTreeIndex.readForward, PageFile.read, hp, if_false, BTLeafNode.readEntry, he]
        split <;> exact ⟨_, rfl⟩
      refine ⟨fun h1 => absurd h1 hp, fun _ h1 => absurd h1 he, fun _ _ => h, ?_⟩
      obtain ⟨r, hr⟩ := h
      rw [hr]
      exact fun h => by cases h

/-! ### C13: `RC_NODE_FULL` does not leave `BTreeIndex::insert` -/

/-- The codes of the page store's `write`. -/
theorem PageFile.write_rc (pf : PageFile) (pid : PageId) (buf : Buffer) :
    (pf.write pid buf).1 = 0 ∨ (pf.write pid buf).1 = RC_INVALID_PID ∨
      (pf.write pid buf).1 = RC_FILE_WRITE_FAILED := by
  unfold PageFile.write
  split_ifs <;> simp

/-- The code of the page store's `read`. -/
theorem PageFile.read_rc (pf : PageFile) (pid : PageId) (rc : RC)
    (h : pf.read pid = Except.error rc) : rc = RC_INVALID_PID := by
  unfold PageFile.read at h
  split_ifs at h
  injection h with h
  exact h.symm

/-- With an empty sibling `BTLeafNode::insertAndSplit` returns 0 whenever it returns. -/
theorem BTLeafNode.leaf_split_rc (c : Config) (n sibling : BTLeafNode) (key : Int)
    (rid : RecordId) (sk : Int) (r : RC × BTLeafNode × BTLeafNode × Int)
    (hs : sibling.getKeyCount = 0) (h : n.insertAndSplit c key rid sibling sk = some r) :
    r.1 = 0 := by
  have hs0 : ¬ sibling.getKeyCount > 0 := by omega
  simp only [BTLeafNode.insertAndSplit, hs0, if_false] at h
  split at h
  · cases h
  · injection h with h
    rw [← h]

/-- With an empty sibling `BTNonLeafNode::insertAndSplit` returns 0 whenever it
returns. -/
theorem BTNonLeafNode.nonleaf_split_rc (c : Config) (n sibling : BTNonLeafNode) (key : Int)
    (pid : PageId) (mk : Int) (r : RC × BTNonLeafNode × BTNonLeafNode × Int)
    (hs : sibling.getKeyCount = 0) (h : n.insertAndSplit c key pid sibling mk = some r) :
    r.1 = 0 := by
  have hs0 : ¬ sibling.getKeyCount > 0 := by omega
  simp only [BTNonLeafNode.insertAndSplit, hs0, if_false] at h
  split at h
  · cases h
  · split at h
    · cases h
    · injection h with h
      rw [← h]

/-- `BTreeIndex::insertHelper` called at a level that is not negative returns 0 or a code
of the page store, whenever it returns. -/
theorem BTreeIndex.insertHelper_rc (c : Config) (treeHeight : Int) (key : Int) (rid : RecordId) :
    ∀ (fuel : Nat) (pf : PageFile) (nodeId : PageId) (level keyUp : Int) (newNodeId : PageId)
      (r : RC × PageFile × Int × PageId), 0 ≤ level →
      BTreeIndex.insertHelper c treeHeight key rid fuel pf nodeId level keyUp newNodeId = some r →
      r.1 = 0 ∨ r.1 = RC_INVALID_PID ∨ r.1 = RC_FILE_WRITE_FAILED := by
  intro fuel
  induction fuel with
  | zero =>
    intro pf nodeId level keyUp newNodeId r _ h
    simp only [BTreeIndex.insertHelper] at h
    cases h
  | succ m ih =>
    intro pf nodeId level keyUp newNodeId r hl h
    have hl0 : ¬ level < 0 := by omega
    rw [BTreeIndex.insertHelper] at h
    simp only [hl0, if_false] at h
    by_cases hlev : level = treeHeight
    · rw [if_pos hlev] at h
      cases hrd : pf.read nodeId with
      | error rc =>
        rw [hrd] at h
        cases h
        exact Or.inr (Or.inl (PageFile.read_rc _ _ _ hrd))
      | ok buf =>
        rw [hrd] at h
        simp only at h
        by_cases hfull : (BTLeafNode.insert c ⟨buf⟩ key rid).1 = RC_NODE_FULL
        · rw [if_pos hfull] at h
          cases hsp : BTLeafNode.insertAndSplit c ⟨buf⟩ key rid (BTLeafNode.init c) keyUp with
          | none =>
            rw [hsp] at h
            cases h
          | some q =>
            obtain ⟨rc, node1, sibling1, keyUp1⟩ := q
            rw [hsp] at h
            have hrc : rc = 0 :=
              BTLeafNode.leaf_split_rc c ⟨buf⟩ (BTLeafNode.init c) key rid keyUp _
                (zeroPage_rd32 c 0) hsp
            subst hrc
            simp only [lt_irrefl, if_false] at h
            split_ifs at h <;> cases h <;>
              first | exact PageFile.write_rc _ _ _ | exact Or.inl rfl
        · rw [if_neg hfull] at h
          split_ifs at h <;> cases h <;>
            first | exact PageFile.write_rc _ _ _ | exact Or.inl rfl
    · rw [if_neg hlev] at h
      cases hrd : pf.read nodeId with
      | error rc =>
        rw [hrd] at h
        cases h
        exact Or.inr (Or.inl (PageFile.read_rc _ _ _ hrd))
      | ok buf =>
        rw [hrd] at h
        simp only at h
        cases hrec : BTreeIndex.insertHelper c treeHeight key rid m pf
            ((⟨buf⟩ : BTNonLeafNode).locateChildPtr key) (level + 1) keyUp newNodeId with
        | none =>
          rw [hrec] at h
          cases h
        | some q =>
          obtain ⟨rc, pf1, keyUp1, newNodeId1⟩ := q
          rw [hrec] at h
          simp only at h
          have hih := ih pf _ (level + 1) keyUp newNodeId _ (by omega) hrec
          by_cases hneg : rc < 0
          · rw [if_pos hneg] at h
            cases h
            exact hih
          · rw [if_neg hneg] at h
            by_cases hnew : newNodeId1 ≠ -1
            · rw [if_pos hnew] at h
              by_cases hfull : (BTNonLeafNode.insert c ⟨buf⟩ keyUp1 newNodeId1).1 = RC_NODE_FULL
              · rw [if_pos hfull] at h
                cases hsp : BTNonLeafNode.insertAndSplit c ⟨buf⟩ keyUp1 newNodeId1
                    (BTNonLeafNode.init c) keyUp1 with
                | none =>
                  rw [hsp] at h
                  cases h
                | some q2 =>
                  obtain ⟨rc2, node1, sibling1, keyUp2⟩ := q2
                  rw [hsp] at h
                  have hrc : rc2 = 0 :=
                    BTNonLeafNode.nonleaf_split_rc c ⟨buf⟩ (BTNonLeafNode.init c) keyUp1
                      newNodeId1 keyUp1 _ (zeroPage_rd32 c 0) hsp
                  subst hrc
                  simp only [lt_irrefl, if_false] at h
                  split_ifs at h <;> cases h <;>
                    first | exact PageFile.write_rc _ _ _ | exact Or.inl rfl
              · rw [if_neg hfull] at h
                split_ifs at h <;> cases h <;>
                  first | exact PageFile.write_rc _ _ _ | exact Or.inl rfl
            · rw [if_neg hnew] at h
              cases h
              exact Or.inl rfl

/-- The depth bound of `BTreeIndex::insertHelper` is never what stops it: called at a
level `0 ≤ level ≤ treeHeight`, any two bounds above `treeHeight - level` give the same
result. -/
theorem BTreeIndex.insertHelper_fuel (c : Config) (treeHeight : Int) (key : Int) (rid : RecordId) :
    ∀ (f1 f2 : Nat) (pf : PageFile) (nodeId : PageId) (level keyUp : Int) (newNodeId : PageId),
      0 ≤ level → level ≤ treeHeight → (treeHeight - level).toNat < f1 →
      (treeHeight - level).toNat < f2 →
      BTreeIndex.insertHelper c treeHeight key rid f1 pf nodeId level keyUp newNodeId =
        BTreeIndex.insertHelper c treeHeight key rid f2 pf nodeId level keyUp newNodeId := by
  intro f1
  induction f1 with
  | zero =>
    intro f2 pf nodeId level keyUp newNodeId _ _ h1 _
    exact absurd h1 (by omega)
  | succ m ih =>
    intro f2 pf nodeId level keyUp newNodeId h0 hle h1 h2
    obtain ⟨k, rfl⟩ : ∃ k, f2 = k + 1 := ⟨f2 - 1, by omega⟩
    have hl0 : ¬ level < 0 := by omega
    rw [BTreeIndex.insertHelper, BTreeIndex.insertHelper]
    simp only [hl0, if_false]
    by_cases hlev : level = treeHeight
    · rw [if_pos hlev, if_pos hlev]
    · rw [if_neg hlev, if_neg hlev]
      cases hrd : pf.read nodeId with
      | error rc => rfl
      | ok buf =>
        simp only
        rw [ih k pf _ (level + 1) keyUp newNodeId (by omega) (by omega) (by omega) (by omega)]

/-- C13: `BTreeIndex::insert` never returns `RC_NODE_FULL`. For every index state and every
`(key, rid)`, whenever `insert` returns, its code is 0 or a code of the page store
(`RC_INVALID_PID` from a read or write, `RC_FILE_WRITE_FAILED` from a write), hence not
`RC_NODE_FULL`; on an empty tree it always returns; and on a tree of height at least 1
the recursion of `insertHelper` ends within the `treeHeight` levels `insert` gives it,
since a larger bound does not change the result. -/
theorem insert_never_returns_node_full (c : Config) (t : BTreeIndex) (key : Int)
    (rid : RecordId) :
    (∀ r, t.insert c key rid = some r →
      (r.1 = 0 ∨ r.1 = RC_INVALID_PID ∨ r.1 = RC_FILE_WRITE_FAILED) ∧ r.1 ≠ RC_NODE_FULL) ∧
    (t.treeHeight = 0 → ∃ r, t.insert c key rid = some r) ∧
    (1 ≤ t.treeHeight → ∀ extra : Nat,
      BTreeIndex.insertHelper c t.treeHeight key rid ((t.treeHeight - 1).toNat + 1 + extra)
          t.pf t.rootPid 1 (-1) (-1) =
        BTreeIndex.insertHelper c t.treeHeight key rid ((t.treeHeight - 1).toNat + 1)
          t.pf t.rootPid 1 (-1) (-1)) := by
  have hcodes : ∀ x : RC, (x = 0 ∨ x = RC_INVALID_PID ∨ x = RC_FILE_WRITE_FAILED) →
      x ≠ RC_NODE_FULL := by
    intro x hx
    rcases hx with h | h | h <;> rw [h] <;> decide
  refine ⟨fun r h => ?_, fun h0 => ?_, fun h1 extra => ?_⟩
  · have hr : r.1 = 0 ∨ r.1 = RC_INVALID_PID ∨ r.1 = RC_FILE_WRITE_FAILED := by
      unfold BTreeIndex.insert at h
      by_cases h0 : t.treeHeight = 0
      · rw [if_pos h0] at h
        simp only at h
        split_ifs at h <;> cases h <;>
          first | exact PageFile.write_rc _ _ _ | exact Or.inl rfl
      · rw [if_neg h0] at h
        cases hrec : BTreeIndex.insertHelper c t.treeHeight key rid ((t.treeHeight - 1).toNat + 1)
            t.pf t.rootPid 1 (-1) (-1) with
        | none =>
          rw [hrec] at h
          cases h
        | some q =>
          obtain ⟨rc, pf1, keyUp, newNodeId⟩ := q
          rw [hrec] at h
          simp only at h
          have hih := BTreeIndex.insertHelper_rc c t.treeHeight key rid _ _ _ _ _ _ _
            (by omega) hrec
          by_cases hneg : rc < 0
          · rw [if_pos hneg] at h
            cases h
            exact hih
          · rw [if_neg hneg] at h
            split_ifs at h <;> cases h <;>
              first | exact PageFile.write_rc _ _ _ | exact Or.inl rfl
    exact ⟨hr, hcodes _ hr⟩
  · unfold BTreeIndex.insert
    rw [if_pos h0]
    simp only
    split_ifs <;> exact ⟨_, rfl⟩
  · exact BTreeIndex.insertHelper_fuel c t.treeHeight key rid _ _ t.pf t.rootPid 1 (-1) (-1)
      (by omega) h1 (by omega) (by omega)

/-! ### C14: the meta page round trip -/

/-- A successful `PageFile::write` of page 0 leaves the buffer as the first page. -/
theorem PageFile.write_zero_pages (pf : PageFile) (buf : Buffer)
    (h : ¬ (pf.write 0 buf).1 < 0) : ∃ rest, (pf.write 0 buf).2.pages = buf :: rest := by
  obtain ⟨pages, ro⟩ := pf
  cases ro
  · cases pages with
    | nil => exact ⟨[], by simp [PageFile.write, PageFile.endPid]⟩
    | cons p0 rest =>
      refine ⟨rest, ?_⟩
      have h3 : ¬ ((0 : Int) = ((rest.length + 1 : Nat) : Int)) := by omega
      have h2 : ¬ ((0 : Int) < 0 ∨ (0 : Int) > ((rest.length + 1 : Nat) : Int)) := by omega
      simp only [PageFile.write, PageFile.endPid, List.length_cons, h2, h3, if_false,
        Bool.false_eq_true, Int.toNat_zero, List.set_cons_zero]
  · exact absurd (by simp [PageFile.write, RC_FILE_WRITE_FAILED]) h

/-- C14: meta round trip. For every index state whose `close` returns 0 (pages of at
least 8 bytes), `open` of the file that `close` left, on a fresh `BTreeIndex` and in
either mode, returns 0 with the same `rootPid` and `treeHeight`. And `open` in write mode
of an empty or missing file on a fresh `BTreeIndex` returns 0 with `rootPid = -1` and
`treeHeight = 0`, the file afterwards being the single page 0 that holds -1 and 0 in its
first two words. -/
theorem meta_round_trip (c : Config) (t : BTreeIndex) (mode : Mode) (hc : 8 ≤ c.PAGE_SIZE)
    (hclose : (t.close c).1 = 0) :
    (∃ t1, BTreeIndex.init.openIndex c (some (t.close c).2) mode = (0, t1) ∧
      t1.rootPid = t.rootPid ∧ t1.treeHeight = t.treeHeight) ∧
    (∀ file, file = none ∨ file = some [] →
      ∃ t0 page, BTreeIndex.init.openIndex c file Mode.write = (0, t0) ∧
        t0.rootPid = -1 ∧ t0.treeHeight = 0 ∧ t0.pf.pages = [page] ∧
        rd32 page 0 = -1 ∧ rd32 page 4 = 0) := by
  have hz : (zeroPage c).length = c.PAGE_SIZE / 4 := by simp [zeroPage]
  have hmeta : ∀ a b : Int, rd32 (wr32 (wr32 (zeroPage c) 0 a) 4 b) 0 = a ∧
      rd32 (wr32 (wr32 (zeroPage c) 0 a) 4 b) 4 = b := by
    intro a b
    constructor
    · rw [rd32_wr32, if_neg (by omega), rd32_wr32, if_pos ⟨rfl, by rw [hz]; omega⟩]
    · rw [rd32_wr32, if_pos ⟨rfl, by rw [length_wr32, hz]; omega⟩]
  constructor
  · have hw : ¬ (t.pf.write 0 (wr32 (wr32 (zeroPage c) 0 t.rootPid) 4 t.treeHeight)).1 < 0 := by
      intro hneg
      have heq : (t.close c).1 =
          (t.pf.write 0 (wr32 (wr32 (zeroPage c) 0 t.rootPid) 4 t.treeHeight)).1 := by
        simp only [BTreeIndex.close, hneg, if_true]
      rw [← heq, hclose] at hneg
      exact absurd hneg (by decide)
    obtain ⟨rest, hp⟩ := PageFile.write_zero_pages _ _ hw
    have hcp : (t.close c).2 = wr32 (wr32 (zeroPage c) 0 t.rootPid) 4 t.treeHeight :: rest := by
      simp only [BTreeIndex.close, hw, if_false]
      exact hp
    rw [hcp]
    have hlen : ¬ (((rest.length + 1 : Nat) : Int) = 0) := by omega
    have hr : ¬ ((0 : Int) < 0 ∨ (0 : Int) ≥ ((rest.length + 1 : Nat) : Int)) := by omega
    cases mode
    · refine ⟨⟨⟨wr32 (wr32 (zeroPage c) 0 t.rootPid) 4 t.treeHeight :: rest, true⟩, t.rootPid,
        t.treeHeight⟩, ?_, rfl, rfl⟩
      simp only [BTreeIndex.openIndex, PageFile.openFile, PageFile.endPid, List.length_cons, hlen,
        if_false, PageFile.read, hr, Int.toNat_zero, List.getD_cons_zero, (hmeta _ _).1,
        (hmeta _ _).2]
    · refine ⟨⟨⟨wr32 (wr32 (zeroPage c) 0 t.rootPid) 4 t.treeHeight :: rest, false⟩, t.rootPid,
        t.treeHeight⟩, ?_, rfl, rfl⟩
      simp only [BTreeIndex.openIndex, PageFile.openFile, PageFile.endPid, List.length_cons, hlen,
        if_false, PageFile.read, hr, Int.toNat_zero, List.getD_cons_zero, (hmeta _ _).1,
        (hmeta _ _).2]
  · intro file hfile
    refine ⟨⟨⟨[wr32 (wr32 (zeroPage c) 0 (-1)) 4 0], false⟩, -1, 0⟩, _, ?_, rfl, rfl, rfl,
      (hmeta _ _).1, (hmeta _ _).2⟩
    rcases hfile with h | h <;> subst h <;>
      simp [BTreeIndex.openIndex, PageFile.openFile, PageFile.endPid, PageFile.write,
        BTreeIndex.init]

set_option maxRecDepth 1000000 in
/-- C14, at a concrete input: the shipped-constant index holding the keys 10 and 20
(`rootPid = 1`, `treeHeight = 1`) is closed with code 0, and opening the file it left in
read mode on a fresh `BTreeIndex` returns 0 with the same `rootPid` and `treeHeight`. -/
theorem meta_round_trip_witness :
    (((BTreeIndex.insertAll shipped (pairsOf [10, 20]) (BTreeIndex.fresh shipped)).getD
        BTreeIndex.init).close shipped).1 = 0 ∧
    ((BTreeIndex.insertAll shipped (pairsOf [10, 20]) (BTreeIndex.fresh shipped)).getD
        BTreeIndex.init).rootPid = 1 ∧
    ((BTreeIndex.insertAll shipped (pairsOf [10, 20]) (BTreeIndex.fresh shipped)).getD
        BTreeIndex.init).treeHeight = 1 ∧
    ∃ t1, BTreeIndex.init.openIndex shipped
        (some (((BTreeIndex.insertAll shipped (pairsOf [10, 20]) (BTreeIndex.fresh shipped)).getD
          BTreeIndex.init).close shipped).2) Mode.read = (0, t1) ∧
      t1.rootPid =
        ((BTreeIndex.insertAll shipped (pairsOf [10, 20]) (BTreeIndex.fresh shipped)).getD
          BTreeIndex.init).rootPid ∧
      t1.treeHeight =
        ((BTreeIndex.insertAll shipped (pairsOf [10, 20]) (BTreeIndex.fresh shipped)).getD
          BTreeIndex.init).treeHeight :=
  ⟨by decide!, by decide!, by decide!,
    (meta_round_trip shipped
      ((BTreeIndex.insertAll shipped (pairsOf [10, 20]) (BTreeIndex.fresh shipped)).getD
        BTreeIndex.init) Mode.read (by decide) (by decide!)).1⟩

/-! ### C15: non-leaf split, case `eid > half` -/

set_option maxRecDepth 1000000 in
/-- C15: with the shipped constants (`KEYS_PER_PAGE = 127`, `half = 64`), the full
non-leaf node with the strictly increasing keys 10, 20, ..., 1270 and the incoming pair
`(1005, 500)`, whose sorted insertion position is `eid = 100 > half`.
`BTNonLeafNode::insertAndSplit` returns 0 with `midKey = 650`, the original key of entry
64, the left node keeps the original entries `[0, 64)` and the sibling's first child is
65, the pid of entry 64; but the sibling's entries are the original `[65, 101)`, then
the incoming pair, then the original `[101, 127)`: the incoming pair comes after the
entry with key 1010, not before it, so the sibling's keys are not strictly increasing
and the list differs from original `[65, 100)`, incoming pair, original `[100, 127)`. -/
theorem nonleaf_split_high_case_misorders_sibling :
    fullNonLeaf.IsPage shipped ∧ fullNonLeaf.getKeyCount = 127 ∧ fullNonLeaf.Sorted ∧
    fullNonLeaf.entries = tensChildren 127 ∧
    fullNonLeaf.locate 1005 = 100 ∧ specHalf 127 = 64 ∧
    (fullNonLeaf.insertAndSplit shipped 1005 500 (BTNonLeafNode.init shipped) (-1)).map
        (fun r => (r.1, r.2.2.2, r.2.2.1.firstChild)) = some (0, 650, 65) ∧
    (fullNonLeaf.insertAndSplit shipped 1005 500 (BTNonLeafNode.init shipped) (-1)).map
        (fun r => r.2.1.entries) = some ((tensChildren 127).take 64) ∧
    (fullNonLeaf.insertAndSplit shipped 1005 500 (BTNonLeafNode.init shipped) (-1)).map
        (fun r => r.2.2.1.entries) =
      some (((tensChildren 127).drop 65).take 36 ++ [(1005, 500)] ++
        (tensChildren 127).drop 101) ∧
    (fullNonLeaf.insertAndSplit shipped 1005 500 (BTNonLeafNode.init shipped) (-1)).map
        (fun r => r.2.2.1.entries) ≠
      some (((tensChildren 127).drop 65).take 35 ++ [(1005, 500)] ++
        (tensChildren 127).drop 100) ∧
    (fullNonLeaf.insertAndSplit shipped 1005 500 (BTNonLeafNode.init shipped) (-1)).map
        (fun r => decide r.2.2.1.Sorted) = some false := by
  decide!

/-! ### C16: content of a leaf split -/

set_option maxRecDepth 1000000 in
/-- C16: with the shipped constants (`ENTRIES_PER_PAGE = 84`, `half = 42`), the full leaf
with the strictly increasing keys 10, 20, ..., 840, an empty sibling and the key 5, which
is not stored (insertion position 0 < `half`). `BTLeafNode::insertAndSplit` copies
`84 - 41 = 43` entries (516 bytes) into the array `copy` of `half * 12 = 504` bytes:
the call has no defined result. With the key 845 (insertion position 84) the call
returns 0, the left node keeps the entries `[0, 42)` and the sibling holds the entries
`[42, 84)` followed by the new one. -/
theorem leaf_split_overflows_copy_buffer :
    fullLeaf.IsPage shipped ∧ fullLeaf.getKeyCount = 84 ∧ fullLeaf.Sorted ∧
    fullLeaf.entries = pairsOf (tens 84) ∧
    (BTLeafNode.init shipped).getKeyCount = 0 ∧ (5 : Int) ∉ fullLeaf.keys ∧
    fullLeaf.locate 5 = (RC_NO_SUCH_RECORD, 0) ∧
    (84 - ((84 + 1) / 2 - 1)) * 12 = 516 ∧ (84 + 1) / 2 * 12 = 504 ∧
    fullLeaf.insertAndSplit shipped 5 ⟨0, 5⟩ (BTLeafNode.init shipped) (-1) = none ∧
    (fullLeaf.insertAndSplit shipped 845 ⟨0, 845⟩ (BTLeafNode.init shipped) (-1)).map
        (fun r => (r.1, r.2.2.2)) = some (0, 430) ∧
    (fullLeaf.insertAndSplit shipped 845 ⟨0, 845⟩ (BTLeafNode.init shipped) (-1)).map
        (fun r => r.2.1.entries ++ r.2.2.1.entries) = some (pairsOf (tens 84 ++ [845])) := by
  decide!

/-! ### C17: non-leaf split, cases `eid == half` and `eid < half` -/

/-- C17: non-leaf split, cases `eid == half` and `eid < half`, with
`half = ⌈(KEYS_PER_PAGE + 1) / 2⌉` for an odd `KEYS_PER_PAGE` (as with 1024-byte pages,
where it is 127). For a full node with strictly increasing keys, an empty sibling and a
key not stored in the node, `eid = locate key` is the sorted insertion position, the
call succeeds, and: if `eid = half`, `midKey` is the incoming key, the sibling's first
child is the incoming pid and the left node keeps the original entries `[0, half)`; if
`eid < half`, `midKey` is the original key of entry `half - 1`, the sibling's first child
is the pid of that entry and the left node holds the original entries `[0, half - 1)`
with the incoming pair inserted at `eid`. In both cases the left node has `half` keys,
the sibling holds the original entries `[half, KEYS_PER_PAGE)`, that is
`KEYS_PER_PAGE / 2` keys, and `midKey` occurs in neither node. -/
theorem nonleaf_split_low_cases (c : Config) (n sibling : BTNonLeafNode) (key : Int)
    (pid : PageId) (midKey : Int) (hfit : c.Fits) (hodd : c.KEYS_PER_PAGE % 2 = 1)
    (hpage : n.IsPage c) (hspage : sibling.IsPage c) (hsib : sibling.getKeyCount = 0)
    (hfull : n.getKeyCount = c.KEYS_PER_PAGE) (hs : n.Sorted) (hnew : key ∉ n.keys)
    (he : n.locate key ≤ specHalf c.KEYS_PER_PAGE) :
    (∀ j, j < n.locate key → n.keyAt j < key) ∧
    (n.locate key < c.KEYS_PER_PAGE → key < n.keyAt (n.locate key)) ∧
    ∃ left sib mk, n.insertAndSplit c key pid sibling midKey = some (0, left, sib, mk) ∧
      (n.locate key = specHalf c.KEYS_PER_PAGE →
        mk = key ∧ sib.firstChild = pid ∧
        left.entries = n.entries.take (specHalf c.KEYS_PER_PAGE)) ∧
      (n.locate key < specHalf c.KEYS_PER_PAGE →
        mk = n.keyAt (specHalf c.KEYS_PER_PAGE - 1) ∧
        sib.firstChild = n.pidAt (specHalf c.KEYS_PER_PAGE - 1) ∧
        left.entries =
          (n.entries.take (specHalf c.KEYS_PER_PAGE - 1)).take (n.locate key) ++ [(key, pid)] ++
            (n.entries.take (specHalf c.KEYS_PER_PAGE - 1)).drop (n.locate key)) ∧
      left.getKeyCount = ((specHalf c.KEYS_PER_PAGE : Nat) : Int) ∧
      sib.getKeyCount = ((c.KEYS_PER_PAGE / 2 : Nat) : Int) ∧
      sib.entries = n.entries.drop (specHalf c.KEYS_PER_PAGE) ∧
      mk ∉ left.keys ∧ mk ∉ sib.keys := by
  have hh : specHalf c.KEYS_PER_PAGE = (c.KEYS_PER_PAGE + 1) / 2 := by
    unfold specHalf
    omega
  rw [hh] at he ⊢
  exact BTNonLeafNode.split_low_cases c n sibling key pid midKey hfit hpage hspage hsib hfull hs
    hnew he

set_option maxRecDepth 1000000 in
/-- C17, at a concrete input: the full shipped-constant node with the keys 10, 20, ..., 1270
and the incoming pair `(5, 500)` (insertion position 0): the call returns 0, the left node
has 64 keys, the sibling 63, and `midKey` is in neither. -/
theorem nonleaf_split_low_cases_witness :
    ∃ left sib mk,
      (BTNonLeafNode.ofEntries shipped 0 (tensChildren 127)).insertAndSplit shipped 5 500
        (BTNonLeafNode.init shipped) (-1) = some (0, left, sib, mk) ∧
      left.getKeyCount = 64 ∧ sib.getKeyCount = 63 ∧ mk ∉ left.keys ∧ mk ∉ sib.keys := by
  obtain ⟨-, -, left, sib, mk, h1, -, -, h2, h3, -, h4, h5⟩ :=
    nonleaf_split_low_cases shipped (BTNonLeafNode.ofEntries shipped 0 (tensChildren 127))
      (BTNonLeafNode.init shipped) 5 500 (-1) (by decide!) (by decide!) (by decide!) (by decide!)
      (by decide!) (by decide!) (by decide!) (by decide!) (by decide!)
  exact ⟨left, sib, mk, h1, h2, h3, h4, h5⟩

/-! ### C18: size of the left node after a leaf split -/

set_option maxRecDepth 1000000 in
/-- C18, as stated: with the shipped constants `N = 84` and `⌈(N + 1) / 2⌉ = 43`, the full
leaf with the keys 10, 20, ..., 840 and the new key 425, whose insertion position 42 is
less than 43. After `BTLeafNode::insertAndSplit` the left node holds 42 entries, not 43,
and the new entry is in the sibling. -/
theorem leaf_split_left_size_is_not_ceil :
    fullLeaf.getKeyCount = 84 ∧ specHalf 84 = 43 ∧
    fullLeaf.locate 425 = (RC_NO_SUCH_RECORD, 42) ∧
    (fullLeaf.insertAndSplit shipped 425 ⟨0, 425⟩ (BTLeafNode.init shipped) (-1)).map
        (fun r => (r.1, r.2.1.getKeyCount, r.2.2.1.getKeyCount, r.2.2.2)) =
      some (0, 42, 43, 425) ∧
    (fullLeaf.insertAndSplit shipped 425 ⟨0, 425⟩ (BTLeafNode.init shipped) (-1)).map
        (fun r => decide ((425 : Int) ∈ r.2.1.keys)) = some false := by
  decide!

/-- C18, amended: with `N = ENTRIES_PER_PAGE` and the code's `half = (N + 1) / 2` in
integer division, for a full, sorted, page-sized leaf, an empty page-sized sibling and a
key that is not stored, with sorted insertion position `e`: if `e ≥ half` or `N` is odd,
`BTLeafNode::insertAndSplit` returns 0, the left node holds exactly `half` entries, the
first `half` of the `N + 1` entries in sorted order, and the sibling holds the others.
For `e < half` (then `N` is odd and `half = ⌈(N + 1) / 2⌉`) the new entry is in the left
node and the sibling holds the original entries `[half - 1, N)`; for `e ≥ half` the left
node holds the original entries `[0, half)` and the new entry is in the sibling, not in
the left node. -/
theorem leaf_split_left_size (c : Config) (n sibling : BTLeafNode) (key : Int)
    (rid : RecordId) (siblingKey : Int) (hfit : c.Fits) (hN : 1 ≤ c.ENTRIES_PER_PAGE)
    (hpage : n.IsPage c) (hsp : sibling.IsPage c) (hsib : sibling.getKeyCount = 0)
    (hfull : n.getKeyCount = c.ENTRIES_PER_PAGE) (hs : n.Sorted) (hnew : key ∉ n.keys) :
    ∃ e : Nat, n.locate key = (RC_NO_SUCH_RECORD, (e : Int)) ∧ e ≤ c.ENTRIES_PER_PAGE ∧
      (∀ i, i < e → n.keyAt i < key) ∧ (e < c.ENTRIES_PER_PAGE → key < n.keyAt e) ∧
      ((c.ENTRIES_PER_PAGE + 1) / 2 ≤ e ∨ c.ENTRIES_PER_PAGE % 2 = 1 →
        ∃ left sib sk,
          n.insertAndSplit c key rid sibling siblingKey = some (0, left, sib, sk) ∧
          left.getKeyCount = (((c.ENTRIES_PER_PAGE + 1) / 2 : Nat) : Int) ∧
          sib.getKeyCount =
            ((c.ENTRIES_PER_PAGE + 1 - (c.ENTRIES_PER_PAGE + 1) / 2 : Nat) : Int) ∧
          left.entries =
            (n.entries.take e ++ [(key, rid)] ++ n.entries.drop e).take
              ((c.ENTRIES_PER_PAGE + 1) / 2) ∧
          sib.entries =
            (n.entries.take e ++ [(key, rid)] ++ n.entries.drop e).drop
              ((c.ENTRIES_PER_PAGE + 1) / 2) ∧
          (e < (c.ENTRIES_PER_PAGE + 1) / 2 →
            (c.ENTRIES_PER_PAGE + 1) / 2 = specHalf c.ENTRIES_PER_PAGE ∧
            (key, rid) ∈ left.entries ∧ key ∈ left.keys ∧
            sib.entries = n.entries.drop ((c.ENTRIES_PER_PAGE + 1) / 2 - 1)) ∧
          ((c.ENTRIES_PER_PAGE + 1) / 2 ≤ e →
            left.entries = n.entries.take ((c.ENTRIES_PER_PAGE + 1) / 2) ∧
            (key, rid) ∈ sib.entries ∧ key ∈ sib.keys ∧ key ∉ left.keys)) := by
  have hct : n.getKeyCount.toNat = c.ENTRIES_PER_PAGE := by omega
  obtain ⟨e, hloc, hle, hbelow, habove⟩ := n.locate_absent key hnew
  rw [hct] at hle habove
  refine ⟨e, hloc, hle, hbelow, habove, ?_⟩
  intro hcase
  have he : (n.locate key).2 = (e : Int) := by rw [hloc]
  have hcopy : (n.locate key).2 < (((c.ENTRIES_PER_PAGE + 1) / 2 : Nat) : Int) →
      c.ENTRIES_PER_PAGE - ((c.ENTRIES_PER_PAGE + 1) / 2 - 1) ≤ (c.ENTRIES_PER_PAGE + 1) / 2 := by
    intro h
    rw [he] at h
    have h' : e < (c.ENTRIES_PER_PAGE + 1) / 2 := by exact_mod_cast h
    omega
  obtain ⟨e', left, sib, sk1, g1, -, g2, g3, g4, g5, g6, -, -, -, -⟩ :=
    BTLeafNode.split_halves c n sibling key rid siblingKey hfit hpage hsp hsib hfull hN hs hnew
      hcopy
  have hee : e' = e := by
    rw [he] at g1
    exact_mod_cast g1.symm
  subst hee
  have hlen : n.entries.length = c.ENTRIES_PER_PAGE := n.leaf_entries_length _ hfull
  have hel : e' ≤ n.entries.length := by omega
  have hx := getElem?_insert_at n.entries (key, rid) e' e' hel
  rw [if_neg (lt_irrefl _), if_pos rfl] at hx
  refine ⟨left, sib, sk1, g2, g5, g6, g3, g4, ?_, ?_⟩
  · intro hlt
    have hmem : (key, rid) ∈ left.entries := by
      rw [g3]
      refine List.mem_iff_getElem?.2 ⟨e', ?_⟩
      rw [getElem?_take_if, if_pos hlt]
      exact hx
    refine ⟨by unfold specHalf; omega, hmem, ?_, ?_⟩
    · rw [BTLeafNode.keys_eq_map_entries]
      exact List.mem_map_of_mem Prod.fst hmem
    · rw [g4]
      exact drop_insert_at_of_lt _ _ _ _ hel hlt
  · intro hge
    have hleft : left.entries = n.entries.take ((c.ENTRIES_PER_PAGE + 1) / 2) := by
      rw [g3]
      exact take_insert_at_of_le _ _ _ _ hel hge
    have hmem : (key, rid) ∈ sib.entries := by
      rw [g4]
      refine List.mem_iff_getElem?.2 ⟨e' - (c.ENTRIES_PER_PAGE + 1) / 2, ?_⟩
      rw [List.getElem?_drop]
      have : (c.ENTRIES_PER_PAGE + 1) / 2 + (e' - (c.ENTRIES_PER_PAGE + 1) / 2) = e' := by omega
      rw [this]
      exact hx
    refine ⟨hleft, hmem, ?_, ?_⟩
    · rw [BTLeafNode.keys_eq_map_entries]
      exact List.mem_map_of_mem Prod.fst hmem
    · intro hk
      rw [BTLeafNode.keys_eq_map_entries, hleft] at hk
      apply hnew
      rw [BTLeafNode.keys_eq_map_entries]
      obtain ⟨p, hp, hpk⟩ := List.mem_map.1 hk
      exact List.mem_map.2 ⟨p, List.mem_of_mem_take hp, hpk⟩

set_option maxRecDepth 1000000 in
/-- C18, at concrete inputs: with the shipped constants the full leaf 10, ..., 840 and
the key 425 (position 42 = `half`, below `⌈85 / 2⌉ = 43`): the call returns 0, the left
node holds the 42 original entries `[0, 42)`, and 425 is in the sibling, which holds 43
entries; with `ENTRIES_PER_PAGE = 5` (68-byte pages) the full leaf 10, ..., 50 and the
key 15 (position 1 < `half = 3 = ⌈6 / 2⌉`): the left node ends with 3 entries, 15 among
them, and the sibling holds the original entries `[2, 5)`. -/
theorem leaf_split_left_size_witness :
    (∃ left sib sk,
      fullLeaf.insertAndSplit shipped 425 ⟨0, 425⟩ (BTLeafNode.init shipped) (-1) =
          some (0, left, sib, sk) ∧
      left.getKeyCount = 42 ∧ sib.getKeyCount = 43 ∧
      left.entries = fullLeaf.entries.take 42 ∧ (425 : Int) ∈ sib.keys ∧
      (425 : Int) ∉ left.keys) ∧
    (∃ left sib sk,
      (BTLeafNode.ofEntries (Config.ofPageSize 68) (pairsOf (tens 5)) 0).insertAndSplit
        (Config.ofPageSize 68) 15 ⟨0, 15⟩ (BTLeafNode.init (Config.ofPageSize 68)) (-1) =
          some (0, left, sib, sk) ∧
      left.getKeyCount = 3 ∧ specHalf 5 = 3 ∧ (15 : Int) ∈ left.keys ∧
      sib.entries =
        (BTLeafNode.ofEntries (Config.ofPageSize 68) (pairsOf (tens 5)) 0).entries.drop 2) := by
  constructor
  · obtain ⟨e, hloc, -, -, -, h⟩ :=
      leaf_split_left_size shipped fullLeaf (BTLeafNode.init shipped) 425 ⟨0, 425⟩ (-1)
        (by decide!) (by decide!) (by decide!) (by decide!) (by decide!) (by decide!)
        (by decide!) (by decide!)
    have h42 : fullLeaf.locate 425 = (RC_NO_SUCH_RECORD, 42) := by decide!
    have he : e = 42 := by
      rw [h42] at hloc
      injection hloc with _ h2
      exact_mod_cast h2.symm
    subst he
    obtain ⟨left, sib, sk, h1, h2, h3, h4, -, -, h5⟩ := h (Or.inl (by decide))
    obtain ⟨h6, -, h7, h8⟩ := h5 (by decide)
    exact ⟨left, sib, sk, h1, h2, h3, h6, h7, h8⟩
  · obtain ⟨e, hloc, -, -, -, h⟩ :=
      leaf_split_left_size (Config.ofPageSize 68)
        (BTLeafNode.ofEntries (Config.ofPageSize 68) (pairsOf (tens 5)) 0)
        (BTLeafNode.init (Config.ofPageSize 68)) 15 ⟨0, 15⟩ (-1)
        (by decide!) (by decide!) (by decide!) (by decide!) (by decide!) (by decide!)
        (by decide!) (by decide!)
    have h1 : (BTLeafNode.ofEntries (Config.ofPageSize 68) (pairsOf (tens 5)) 0).locate 15 =
        (RC_NO_SUCH_RECORD, 1) := by decide!
    have he : e = 1 := by
      rw [h1] at hloc
      injection hloc with _ h2
      exact_mod_cast h2.symm
    subst he
    obtain ⟨left, sib, sk, g1, g2, -, -, -, g3, -⟩ := h (Or.inr (by decide))
    obtain ⟨-, -, g4, g5⟩ := g3 (by decide)
    exact ⟨left, sib, sk, g1, g2, by decide, g4, g5⟩

/-! ### C19: split balance -/

set_option maxRecDepth 1000000 in
/-- C19: with the shipped constants, two full nodes and an incoming key for which
`insertAndSplit` has no defined result, so no sibling size either. The full non-leaf
node with the keys 10, ..., 1270 and the key 2000 (insertion position 127 =
`KEYS_PER_PAGE`): the `eid > half` branch reads the entry at slot 127, byte offset
`8 + 127 * 8 = 1024 = PAGE_SIZE`. The full leaf with the keys 10, ..., 840 and the key
415 (insertion position 41 < `half = 42`): 43 entries are copied into an array of 42.
For the keys 1005 and 425 the calls return 0 and the siblings hold 63 and 43 entries. -/
theorem split_has_no_defined_result_at_the_ends :
    fullNonLeaf.getKeyCount = 127 ∧ fullNonLeaf.locate 2000 = 127 ∧
    shipped.PAGE_SIZE = 1024 ∧ 8 + 127 * 8 = 1024 ∧
    fullNonLeaf.insertAndSplit shipped 2000 500 (BTNonLeafNode.init shipped) (-1) = none ∧
    fullLeaf.getKeyCount = 84 ∧ fullLeaf.locate 415 = (RC_NO_SUCH_RECORD, 41) ∧
    fullLeaf.insertAndSplit shipped 415 ⟨0, 415⟩ (BTLeafNode.init shipped) (-1) = none ∧
    (fullNonLeaf.insertAndSplit shipped 1005 500 (BTNonLeafNode.init shipped) (-1)).map
        (fun r => (r.1, r.2.2.1.getKeyCount)) = some (0, 63) ∧
    (fullLeaf.insertAndSplit shipped 425 ⟨0, 425⟩ (BTLeafNode.init shipped) (-1)).map
        (fun r => (r.1, r.2.2.1.getKeyCount)) = some (0, 43) := by
  decide!

/-! ### C20: sorted insert into a leaf -/

/-- C20: in-leaf sorted insert. For a page-sized leaf with strictly increasing keys and a
key not stored in it: if `count < ENTRIES_PER_PAGE`, then `eid = locate key` is the
smallest index whose key is `≥ key` (`count` if there is none), `BTLeafNode::insert`
returns 0, the count grows by one, the entry list becomes the original list with
`(key, rid)` inserted at `eid` (the entries `[eid, count)` one slot to the right), the
keys stay strictly increasing and `readEntry eid` returns `(key, rid)`; if
`count = ENTRIES_PER_PAGE`, `insert` returns `RC_NODE_FULL` and the node is unchanged. -/
theorem leaf_insert_spec (c : Config) (n : BTLeafNode) (key : Int) (rid : RecordId)
    (hfit : c.Fits) (hpage : n.IsPage c) (hs : n.Sorted) (h0 : 0 ≤ n.getKeyCount)
    (hnew : key ∉ n.keys) :
    (n.getKeyCount < c.ENTRIES_PER_PAGE →
      ∃ e : Nat, (n.locate key).2 = (e : Int) ∧ e ≤ n.getKeyCount.toNat ∧
        (∀ i, i < e → n.keyAt i < key) ∧ (e < n.getKeyCount.toNat → key ≤ n.keyAt e) ∧
        (n.insert c key rid).1 = 0 ∧
        (n.insert c key rid).2.getKeyCount = n.getKeyCount + 1 ∧
        (n.insert c key rid).2.entries = n.entries.take e ++ [(key, rid)] ++ n.entries.drop e ∧
        (n.insert c key rid).2.Sorted ∧
        (n.insert c key rid).2.readEntry e = Except.ok (key, rid)) ∧
    (n.getKeyCount = c.ENTRIES_PER_PAGE → n.insert c key rid = (RC_NODE_FULL, n)) := by
  refine ⟨fun hlt => ?_, fun hfull => ?_⟩
  · obtain ⟨e, hloc, hle, hbelow, habove⟩ := n.locate_absent key hnew
    obtain ⟨cnt, hc⟩ : ∃ cnt : Nat, n.getKeyCount = cnt := ⟨n.getKeyCount.toNat, by omega⟩
    have hct : n.getKeyCount.toNat = cnt := by omega
    rw [hct] at hle habove
    have he : (n.locate key).2 = (e : Int) := by rw [hloc]
    have hN : cnt < c.ENTRIES_PER_PAGE := by omega
    have hlen : 1 + 3 * (cnt + 1) ≤ n.buffer.length := by
      have h1 := hfit.1
      unfold BTLeafNode.IsPage at hpage
      omega
    obtain ⟨hrc, hlen', hw⟩ := BTLeafNode.insert_words c n key rid cnt e hc he hle hN hlen
    have hent := BTLeafNode.insert_entryAt c n key rid cnt e hc he hle hN hlen
    have hcount : (n.insert c key rid).2.getKeyCount = (cnt : Int) + 1 := by
      have := hw 0
      simpa [BTLeafNode.getKeyCount, rd32] using this
    have hsorted := fun i j hij hj => n.sorted_keyAt hs i j hij (by rw [hct]; exact hj)
    refine ⟨e, he, by omega, hbelow, fun h => le_of_lt (habove (by omega)), hrc,
      by rw [hcount, hc], ?_, ?_, ?_⟩
    · have hcn : ((cnt : Int) + 1).toNat = cnt + 1 := by omega
      have hE : ∀ i, n.entries[i]? = if i < cnt then some (n.keyAt i, n.ridAt i) else none := by
        intro i
        simp only [BTLeafNode.entries, hct]
        exact getElem?_map_range _ cnt i
      have hElen : n.entries.length = cnt := by simp [BTLeafNode.entries, hct]
      have hE' : ∀ i, (n.insert c key rid).2.entries[i]? =
          if i < cnt + 1 then some ((n.insert c key rid).2.keyAt i, (n.insert c key rid).2.ridAt i)
          else none := by
        intro i
        simp only [BTLeafNode.entries, hcount, hcn]
        exact getElem?_map_range _ (cnt + 1) i
      have hl1 : (n.entries.take e).length = e := by
        rw [List.length_take, hElen]; omega
      apply List.ext_getElem?
      intro i
      rw [hE' i, (hent i).1, (hent i).2]
      by_cases r1 : i < e
      · rw [List.append_assoc, List.getElem?_append_left (by rw [hl1]; exact r1),
          List.getElem?_take_of_lt r1, hE i, if_pos (show i < cnt + 1 by omega),
          if_pos (show i < cnt by omega), if_pos r1, if_pos r1]
      · by_cases r2 : i = e
        · subst r2
          rw [List.getElem?_append_left (by rw [List.length_append, hl1]; simp),
            List.getElem?_append_right (by rw [hl1]), hl1, if_pos (show i < cnt + 1 by omega),
            if_neg r1, if_pos rfl, if_neg r1, if_pos rfl]
          simp
        · rw [List.getElem?_append_right (by rw [List.length_append, hl1]; simp; omega),
            List.getElem?_drop, List.length_append, hl1, hE, if_neg r1, if_neg r2, if_neg r1,
            if_neg r2]
          have hidx : e + (i - (e + [(key, rid)].length)) = i - 1 := by simp; omega
          rw [hidx]
          by_cases r3 : i ≤ cnt
          · rw [if_pos (show i < cnt + 1 by omega), if_pos r3, if_pos r3,
              if_pos (show i - 1 < cnt by omega)]
          · rw [if_neg (show ¬ i < cnt + 1 by omega), if_neg (show ¬ i - 1 < cnt by omega)]
    · unfold BTLeafNode.Sorted BTLeafNode.keys
      rw [hcount]
      have hcn : ((cnt : Int) + 1).toNat = cnt + 1 := by omega
      rw [hcn, pairwise_map_range]
      intro i j hij hj
      rw [(hent i).1, (hent j).1]
      by_cases a1 : j < e
      · rw [if_pos a1, if_pos (show i < e by omega)]
        exact hsorted i j hij (by omega)
      · by_cases a2 : j = e
        · subst a2
          rw [if_neg a1, if_pos rfl, if_pos hij]
          exact hbelow i hij
        · rw [if_neg a1, if_neg a2, if_pos (show j ≤ cnt by omega)]
          have hkj : key < n.keyAt (j - 1) := by
            by_cases a3 : j - 1 = e
            · rw [a3]; exact habove (by omega)
            · exact lt_trans (habove (by omega)) (hsorted e (j - 1) (by omega) (by omega))
          by_cases b1 : i < e
          · rw [if_pos b1]
            exact lt_trans (hbelow i b1) hkj
          · by_cases b2 : i = e
            · rw [if_neg b1, if_pos b2]
              exact hkj
            · rw [if_neg b1, if_neg b2, if_pos (show i ≤ cnt by omega)]
              exact hsorted (i - 1) (j - 1) (by omega) (by omega)
    · have hk := (hent e).1
      have hr := (hent e).2
      rw [if_neg (lt_irrefl e), if_pos rfl] at hk hr
      have hre : ¬ ((e : Int) < 0 ∨ (e : Int) ≥ (n.insert c key rid).2.getKeyCount) := by
        rw [hcount]; omega
      simp only [BTLeafNode.readEntry, hre, if_false, Int.toNat_ofNat]
      unfold BTLeafNode.keyAt at hk
      unfold BTLeafNode.ridAt at hr
      rw [hk, hr]
  · simp only [BTLeafNode.insert, hfull, if_true]

set_option maxRecDepth 1000000 in
/-- C20, at a concrete input: inserting the key 15 into the shipped-constant leaf that
holds 10, 20, 30 returns 0 and puts `(15, (0, 15))` at its sorted position, the keys
staying strictly increasing. -/
theorem leaf_insert_spec_witness :
    ∃ e : Nat,
      ((BTLeafNode.ofEntries shipped (pairsOf [10, 20, 30]) 0).locate 15).2 = (e : Int) ∧
      ((BTLeafNode.ofEntries shipped (pairsOf [10, 20, 30]) 0).insert shipped 15 ⟨0, 15⟩).1 = 0 ∧
      ((BTLeafNode.ofEntries shipped (pairsOf [10, 20, 30]) 0).insert shipped 15 ⟨0, 15⟩).2.entries =
        (BTLeafNode.ofEntries shipped (pairsOf [10, 20, 30]) 0).entries.take e ++ [(15, ⟨0, 15⟩)] ++
          (BTLeafNode.ofEntries shipped (pairsOf [10, 20, 30]) 0).entries.drop e ∧
      ((BTLeafNode.ofEntries shipped (pairsOf [10, 20, 30]) 0).insert shipped 15 ⟨0, 15⟩).2.Sorted := by
  obtain ⟨e, h1, -, -, -, h2, -, h3, h4, -⟩ :=
    (leaf_insert_spec shipped (BTLeafNode.ofEntries shipped (pairsOf [10, 20, 30]) 0) 15 ⟨0, 15⟩
      (by decide!) (by decide!) (by decide!) (by decide!) (by decide!)).1 (by decide!)
  exact ⟨e, h1, h2, h3, h4⟩

/-! ### C21: `locateChildPtr` -/

/-- The loop of `BTNonLeafNode::locateChildPtr` entered at entry `i` with `left` entries
to go, when the keys before `i` are below the search key and the keys from `i` on are
strictly increasing: the child after the last key that is `≤ searchKey`. -/
theorem BTNonLeafNode.locateChildPtrLoop_spec (buf : Buffer) (k : Int) :
    ∀ (left i : Nat),
      (∀ a b, i ≤ a → a < b → b < i + left → rd32 buf (8 + a * 8) < rd32 buf (8 + b * 8)) →
      ∃ j, i ≤ j ∧ j ≤ i + left ∧
        (∀ a, i ≤ a → a < j → rd32 buf (8 + a * 8) ≤ k) ∧
        (∀ a, j ≤ a → a < i + left → k < rd32 buf (8 + a * 8)) ∧
        (i < j → BTNonLeafNode.locateChildPtrLoop buf k left i = rd32 buf (8 + (j - 1) * 8 + 4)) ∧
        (j = i → BTNonLeafNode.locateChildPtrLoop buf k left i = rd32 buf (8 + i * 8 - 4)) := by
  intro left
  induction left with
  | zero =>
    intro i _
    exact ⟨i, le_refl _, le_refl _, fun a h1 h2 => absurd h2 (by omega),
      fun a h1 h2 => absurd h2 (by omega), fun h => absurd h (lt_irrefl _), fun _ => rfl⟩
  | succ m ih =>
    intro i hs
    unfold BTNonLeafNode.locateChildPtrLoop
    simp only
    by_cases heq : rd32 buf (8 + i * 8) = k
    · rw [if_pos heq]
      refine ⟨i + 1, by omega, by omega, fun a h1 h2 => ?_, fun a h1 h2 => ?_, fun _ => ?_,
        fun h => absurd h (by omega)⟩
      · have : a = i := by omega
        rw [this, heq]
      · rw [← heq]
        exact hs i a (le_refl _) (by omega) h2
      · rw [show i + 1 - 1 = i by omega]
    · rw [if_neg heq]
      by_cases hgt : rd32 buf (8 + i * 8) > k
      · rw [if_pos hgt]
        refine ⟨i, le_refl _, by omega, fun a h1 h2 => absurd h2 (by omega), fun a h1 h2 => ?_,
          fun h => absurd h (lt_irrefl _), fun _ => rfl⟩
        by_cases hai : a = i
        · rw [hai]; exact hgt
        · exact lt_trans hgt (hs i a (le_refl _) (by omega) h2)
      · rw [if_neg hgt]
        obtain ⟨j, j1, j2, j3, j4, j5, j6⟩ := ih (i + 1) (fun a b h1 h2 h3 =>
          hs a b (by omega) h2 (by omega))
        refine ⟨j, by omega, by omega, fun a h1 h2 => ?_, fun a h1 h2 => j4 a h1 (by omega),
          fun _ => ?_, fun h => absurd h (by omega)⟩
        · by_cases hai : a = i
          · rw [hai]; omega
          · exact j3 a (by omega) h2
        · by_cases hj : i + 1 < j
          · exact j5 hj
          · have hj' : j = i + 1 := by omega
            rw [j6 hj', hj']
            congr 1
            omega

/-- C21: for every non-leaf node with strictly increasing keys and every search key there
is exactly one `j` in `[0, count]` such that the keys of the entries before `j` are
`≤ searchKey` and the keys from entry `j` on exceed it, and `locateChildPtr` outputs the
child `p_j`: the child stored after the last key that is `≤ searchKey`, and the first
child `p_0` when every key exceeds the search key or the node has no key. -/
theorem locateChildPtr_spec (n : BTNonLeafNode) (searchKey : Int) (hs : n.Sorted) :
    (∃ j, j ≤ n.getKeyCount.toNat ∧ (∀ i, i < j → n.keyAt i ≤ searchKey) ∧
      (∀ i, j ≤ i → i < n.getKeyCount.toNat → searchKey < n.keyAt i) ∧
      n.locateChildPtr searchKey = n.childAt j) ∧
    (∀ j, j ≤ n.getKeyCount.toNat → (∀ i, i < j → n.keyAt i ≤ searchKey) →
      (∀ i, j ≤ i → i < n.getKeyCount.toNat → searchKey < n.keyAt i) →
      n.locateChildPtr searchKey = n.childAt j) := by
  have hsorted := fun a b hab hb => n.keyAt_lt_of_sorted hs a b hab hb
  obtain ⟨j, -, j2, j3, j4, j5, j6⟩ :=
    BTNonLeafNode.locateChildPtrLoop_spec n.buffer searchKey n.getKeyCount.toNat 0
      (fun a b _ hab hb => hsorted a b hab (by omega))
  have hj : n.locateChildPtr searchKey = n.childAt j := by
    unfold BTNonLeafNode.locateChildPtr BTNonLeafNode.childAt
    by_cases h0 : j = 0
    · rw [if_pos h0, j6 h0]
      rfl
    · rw [if_neg h0, j5 (by omega)]
      rfl
  refine ⟨⟨j, by omega, fun i hi => j3 i (by omega) hi, fun i h1 h2 => j4 i h1 (by omega), hj⟩,
    fun j' h1 h2 h3 => ?_⟩
  have : j' = j := by
    rcases Nat.lt_trichotomy j' j with h | h | h
    · have a := j3 j' (by omega) h
      have b := h3 j' (le_refl _) (by omega)
      exact absurd a (not_le.2 b)
    · exact h
    · have a := h2 j h
      have b := j4 j (le_refl _) (by omega)
      exact absurd a (not_le.2 b)
  rw [this]
  exact hj

set_option maxRecDepth 1000000 in
/-- C21, at concrete inputs: in the node with first child 0 and the entries (10, 1),
(20, 2), (30, 3), the search key 25 is sent to child 2 (after key 20), the stored key 20
to child 2 as well, and the key 5, below every key, to the first child 0. -/
theorem locateChildPtr_spec_witness :
    (BTNonLeafNode.ofEntries illustration 0 (tensChildren 3)).locateChildPtr 25 = 2 ∧
    (BTNonLeafNode.ofEntries illustration 0 (tensChildren 3)).locateChildPtr 20 = 2 ∧
    (BTNonLeafNode.ofEntries illustration 0 (tensChildren 3)).locateChildPtr 5 = 0 :=
  ⟨(locateChildPtr_spec (BTNonLeafNode.ofEntries illustration 0 (tensChildren 3)) 25
      (by decide)).2 2 (by decide) (by decide) (by decide),
   (locateChildPtr_spec (BTNonLeafNode.ofEntries illustration 0 (tensChildren 3)) 20
      (by decide)).2 2 (by decide) (by decide) (by decide),
   (locateChildPtr_spec (BTNonLeafNode.ofEntries illustration 0 (tensChildren 3)) 5
      (by decide)).2 0 (by decide) (by decide) (by decide)⟩

/-! ### C22: root growth -/

/-- The `end_pid` after `PageFile::write`: one more when the page was appended, the same
otherwise. -/
theorem PageFile.endPid_write (pf : PageFile) (pid : Int) (buf : Buffer) :
    pf.endPid ≤ (pf.write pid buf).2.endPid ∧
    (¬ (pf.write pid buf).1 < 0 →
      (pf.write pid buf).2.endPid = if pid = pf.endPid then pf.endPid + 1 else pf.endPid) := by
  obtain ⟨pages, ro⟩ := pf
  rcases PageFile.write_cases pages ro pid buf with ⟨h1, h2⟩ | ⟨h1, h2⟩ | ⟨k, h1, hk, h2⟩
  · rw [h2]
    exact ⟨le_refl _, fun h => absurd h1 h⟩
  · rw [h2]
    have e1 : (⟨pages ++ [buf], ro⟩ : PageFile).endPid = ((pages.length : Int) + 1) := by
      simp [PageFile.endPid]
    have e2 : (⟨pages, ro⟩ : PageFile).endPid = (pages.length : Int) := rfl
    rw [e1, e2]
    exact ⟨show (pages.length : Int) ≤ (pages.length : Int) + 1 by omega, fun _ => by rw [if_pos h1]⟩
  · rw [h2]
    have e1 : (⟨pages.set k buf, ro⟩ : PageFile).endPid = (pages.length : Int) := by
      simp [PageFile.endPid]
    have e2 : (⟨pages, ro⟩ : PageFile).endPid = (pages.length : Int) := rfl
    rw [e1, e2]
    exact ⟨le_refl _, fun _ => by rw [if_neg (show ¬ pid = (pages.length : Int) by omega)]⟩

/-- `BTreeIndex::insertHelper` never shortens the page file. -/
theorem BTreeIndex.insertHelper_endPid (c : Config) (treeHeight : Int) (key : Int)
    (rid : RecordId) :
    ∀ (fuel : Nat) (pf : PageFile) (nodeId : PageId) (level keyUp : Int) (newNodeId : PageId)
      (r : RC × PageFile × Int × PageId),
      BTreeIndex.insertHelper c treeHeight key rid fuel pf nodeId level keyUp newNodeId = some r →
      pf.endPid ≤ r.2.1.endPid := by
  intro fuel
  induction fuel with
  | zero =>
    intro pf nodeId level keyUp newNodeId r h
    simp only [BTreeIndex.insertHelper] at h
    cases h
  | succ m ih =>
    intro pf nodeId level keyUp newNodeId r h
    rw [BTreeIndex.insertHelper] at h
    by_cases hl0 : level < 0
    · rw [if_pos hl0] at h
      cases h
      exact le_refl _
    rw [if_neg hl0] at h
    by_cases hlev : level = treeHeight
    · rw [if_pos hlev] at h
      cases hrd : pf.read nodeId with
      | error rc =>
        rw [hrd] at h
        cases h
        exact le_refl _
      | ok buf =>
        rw [hrd] at h
        simp only at h
        by_cases hfull : (BTLeafNode.insert c ⟨buf⟩ key rid).1 = RC_NODE_FULL
        · rw [if_pos hfull] at h
          cases hsp : BTLeafNode.insertAndSplit c ⟨buf⟩ key rid (BTLeafNode.init c) keyUp with
          | none =>
            rw [hsp] at h
            cases h
          | some q =>
            obtain ⟨rc, node1, sibling1, keyUp1⟩ := q
            rw [hsp] at h
            simp only at h
            split_ifs at h <;> cases h <;>
              first
              | exact le_refl _
              | exact (PageFile.endPid_write _ _ _).1
              | exact le_trans (PageFile.endPid_write _ _ _).1 (PageFile.endPid_write _ _ _).1
        · rw [if_neg hfull] at h
          split_ifs at h <;> cases h <;>
            first
            | exact le_refl _
            | exact (PageFile.endPid_write _ _ _).1
    · rw [if_neg hlev] at h
      cases hrd : pf.read nodeId with
      | error rc =>
        rw [hrd] at h
        cases h
        exact le_refl _
      | ok buf =>
        rw [hrd] at h
        simp only at h
        cases hrec : BTreeIndex.insertHelper c treeHeight key rid m pf
            ((⟨buf⟩ : BTNonLeafNode).locateChildPtr key) (level + 1) keyUp newNodeId with
        | none =>
          rw [hrec] at h
          cases h
        | some q =>
          obtain ⟨rc, pf1, keyUp1, newNodeId1⟩ := q
          rw [hrec] at h
          simp only at h
          have hih : pf.endPid ≤ pf1.endPid := ih pf _ (level + 1) keyUp newNodeId _ hrec
          by_cases hneg : rc < 0
          · rw [if_pos hneg] at h
            cases h
            exact hih
          · rw [if_neg hneg] at h
            by_cases hnew : newNodeId1 ≠ -1
            · rw [if_pos hnew] at h
              by_cases hfull : (BTNonLeafNode.insert c ⟨buf⟩ keyUp1 newNodeId1).1 = RC_NODE_FULL
              · rw [if_pos hfull] at h
                cases hsp : BTNonLeafNode.insertAndSplit c ⟨buf⟩ keyUp1 newNodeId1
                    (BTNonLeafNode.init c) keyUp1 with
                | none =>
                  rw [hsp] at h
                  cases h
                | some q2 =>
                  obtain ⟨rc2, node1, sibling1, keyUp2⟩ := q2
                  rw [hsp] at h
                  simp only at h
                  split_ifs at h <;> cases h <;>
                    first
                    | exact hih
                    | exact le_trans hih (PageFile.endPid_write _ _ _).1
                    | exact le_trans hih
                        (le_trans (PageFile.endPid_write _ _ _).1 (PageFile.endPid_write _ _ _).1)
              · rw [if_neg hfull] at h
                split_ifs at h <;> cases h <;>
                  first
                  | exact hih
                  | exact le_trans hih (PageFile.endPid_write _ _ _).1
            · rw [if_neg hnew] at h
              cases h
              exact hih

/-- Writing a page of the file and then a new page at `end_pid`, in either order of
success, leaves `end_pid` one past the new page: the two writes of a split. -/
theorem PageFile.endPid_split_writes (pf : PageFile) (nodeId : Int) (b1 b2 : Buffer)
    (hn : nodeId < pf.endPid)
    (h1 : ¬ (pf.write pf.endPid b1).1 < 0)
    (h2 : ¬ ((pf.write pf.endPid b1).2.write nodeId b2).1 < 0) :
    ((pf.write pf.endPid b1).2.write nodeId b2).2.endPid = pf.endPid + 1 := by
  have e1 := (PageFile.endPid_write pf pf.endPid b1).2 h1
  rw [if_pos rfl] at e1
  have e2 := (PageFile.endPid_write (pf.write pf.endPid b1).2 nodeId b2).2 h2
  rw [e2, e1]
  have hne : ¬ nodeId = pf.endPid + 1 := by
    unfold PageId at *
    omega
  rw [if_neg hne]

/-- When `BTreeIndex::insertHelper`, started with `newNodeId = -1`, returns without an
error and reports a new node, that node is the last page of the file: it is the sibling
that the split at this node wrote at `end_pid`. -/
theorem BTreeIndex.insertHelper_new_node (c : Config) (treeHeight : Int) (key : Int)
    (rid : RecordId) (fuel : Nat) (pf : PageFile) (nodeId : PageId) (level keyUp : Int)
    (r : RC × PageFile × Int × PageId)
    (h : BTreeIndex.insertHelper c treeHeight key rid fuel pf nodeId level keyUp (-1) = some r)
    (hrc : ¬ r.1 < 0) (hnew : r.2.2.2 ≠ -1) :
    r.2.1.endPid = r.2.2.2 + 1 ∧ pf.endPid ≤ r.2.2.2 := by
  cases fuel with
  | zero =>
    simp only [BTreeIndex.insertHelper] at h
    cases h
  | succ m =>
    rw [BTreeIndex.insertHelper] at h
    by_cases hl0 : level < 0
    · rw [if_pos hl0] at h
      cases h
      exact absurd rfl hnew
    rw [if_neg hl0] at h
    by_cases hlev : level = treeHeight
    · rw [if_pos hlev] at h
      cases hrd : pf.read nodeId with
      | error rc =>
        rw [hrd] at h
        cases h
        exact absurd rfl hnew
      | ok buf =>
        rw [hrd] at h
        simp only at h
        have hn := (PageFile.read_ok_range pf nodeId buf hrd).2
        by_cases hfull : (BTLeafNode.insert c ⟨buf⟩ key rid).1 = RC_NODE_FULL
        · rw [if_pos hfull] at h
          cases hsp : BTLeafNode.insertAndSplit c ⟨buf⟩ key rid (BTLeafNode.init c) keyUp with
          | none =>
            rw [hsp] at h
            cases h
          | some q =>
            obtain ⟨rc, node1, sibling1, keyUp1⟩ := q
            rw [hsp] at h
            simp only at h
            by_cases g0 : rc < 0
            · rw [if_pos g0] at h
              cases h
              exact absurd rfl hnew
            rw [if_neg g0] at h
            by_cases g1 : (pf.write pf.endPid
                (sibling1.setNextNodePtr c (node1.getNextNodePtr c)).buffer).1 < 0
            · rw [if_pos g1] at h
              cases h
              exact absurd g1 hrc
            rw [if_neg g1] at h
            by_cases g2 : ((pf.write pf.endPid
                (sibling1.setNextNodePtr c (node1.getNextNodePtr c)).buffer).2.write nodeId
                (node1.setNextNodePtr c pf.endPid).buffer).1 < 0
            · rw [if_pos g2] at h
              cases h
              exact absurd g2 hrc
            rw [if_neg g2] at h
            cases h
            exact ⟨PageFile.endPid_split_writes pf nodeId _ _ hn g1 g2, le_refl _⟩
        · rw [if_neg hfull] at h
          split_ifs at h <;> cases h <;> exact absurd rfl hnew
    · rw [if_neg hlev] at h
      cases hrd : pf.read nodeId with
      | error rc =>
        rw [hrd] at h
        cases h
        exact absurd rfl hnew
      | ok buf =>
        rw [hrd] at h
        simp only at h
        have hn := (PageFile.read_ok_range pf nodeId buf hrd).2
        cases hrec : BTreeIndex.insertHelper c treeHeight key rid m pf
            ((⟨buf⟩ : BTNonLeafNode).locateChildPtr key) (level + 1) keyUp (-1) with
        | none =>
          rw [hrec] at h
          cases h
        | some q =>
          obtain ⟨rc, pf1, keyUp1, newNodeId1⟩ := q
          rw [hrec] at h
          simp only at h
          have hih : pf.endPid ≤ pf1.endPid :=
            BTreeIndex.insertHelper_endPid c treeHeight key rid m pf _ (level + 1) keyUp (-1) _ hrec
          by_cases hneg : rc < 0
          · rw [if_pos hneg] at h
            cases h
            exact absurd hneg hrc
          · rw [if_neg hneg] at h
            by_cases hnew1 : newNodeId1 ≠ -1
            · rw [if_pos hnew1] at h
              by_cases hfull : (BTNonLeafNode.insert c ⟨buf⟩ keyUp1 newNodeId1).1 = RC_NODE_FULL
              · rw [if_pos hfull] at h
                cases hsp : BTNonLeafNode.insertAndSplit c ⟨buf⟩ keyUp1 newNodeId1
                    (BTNonLeafNode.init c) keyUp1 with
                | none =>
                  rw [hsp] at h
                  cases h
                | some q2 =>
                  obtain ⟨rc2, node1, sibling1, keyUp2⟩ := q2
                  rw [hsp] at h
                  simp only at h
                  by_cases g0 : rc2 < 0
                  · rw [if_pos g0] at h
                    cases h
                    exact absurd g0 hrc
                  rw [if_neg g0] at h
                  by_cases g1 : (pf1.write pf1.endPid sibling1.buffer).1 < 0
                  · rw [if_pos g1] at h
                    cases h
                    exact absurd g1 hrc
                  rw [if_neg g1] at h
                  by_cases g2 : ((pf1.write pf1.endPid sibling1.buffer).2.write nodeId
                      node1.buffer).1 < 0
                  · rw [if_pos g2] at h
                    cases h
                    exact absurd g2 hrc
                  rw [if_neg g2] at h
                  cases h
                  exact ⟨PageFile.endPid_split_writes pf1 nodeId _ _ (lt_of_lt_of_le hn hih) g1 g2,
                    hih⟩
              · rw [if_neg hfull] at h
                split_ifs at h <;> cases h <;> exact absurd rfl hnew
            · rw [if_neg hnew1] at h
              cases h
              exact absurd (not_not.mp hnew1) hnew

/-- What `initializeRoot` leaves in an empty page of at least 16 bytes: count 1, the two
children and the key between them. -/
theorem BTNonLeafNode.initializeRoot_fields (c : Config) (hP : 16 ≤ c.PAGE_SIZE)
    (pid1 : PageId) (key : Int) (pid2 : PageId) :
    ((BTNonLeafNode.init c).initializeRoot pid1 key pid2).getKeyCount = 1 ∧
    ((BTNonLeafNode.init c).initializeRoot pid1 key pid2).firstChild = pid1 ∧
    ((BTNonLeafNode.init c).initializeRoot pid1 key pid2).keyAt 0 = key ∧
    ((BTNonLeafNode.init c).initializeRoot pid1 key pid2).pidAt 0 = pid2 := by
  have hl : (zeroPage c).length = c.PAGE_SIZE / 4 := by simp [zeroPage]
  have h0 : 0 < (zeroPage c).length := by omega
  have h1 : 1 < (zeroPage c).length := by omega
  have h2 : 2 < (zeroPage c).length := by omega
  have h3 : 3 < (zeroPage c).length := by omega
  simp [BTNonLeafNode.initializeRoot, BTNonLeafNode.init, BTNonLeafNode.getKeyCount,
    BTNonLeafNode.firstChild, BTNonLeafNode.keyAt, BTNonLeafNode.pidAt, rd32_wr32, length_wr32,
    h0, h1, h2, h3]

/-- C22: root growth.  Take a tree of height `h ≥ 1` and pages of at least 16 bytes, let
`insertHelper` on the root return `(rc, pf1, keyUp, newNodeId)`, and let
`BTreeIndex::insert` return 0.  Then the helper returned 0.  If it reported a split of the
root (`newNodeId ≠ -1`), the height is `h + 1`, the new `rootPid` is the `end_pid` of the
file as the helper left it, which is one past the sibling's page `newNodeId`, and the page
read back at `rootPid` has count 1, first child the old root, key `keyUp` and second child
`newNodeId`.  If the root did not split, `rootPid` and the height are unchanged. -/
theorem root_growth (c : Config) (t t1 : BTreeIndex) (key : Int) (rid : RecordId)
    (rc : RC) (pf1 : PageFile) (keyUp : Int) (newNodeId : PageId)
    (hP : 16 ≤ c.PAGE_SIZE) (hh : 1 ≤ t.treeHeight)
    (hhelp : BTreeIndex.insertHelper c t.treeHeight key rid ((t.treeHeight - 1).toNat + 1)
      t.pf t.rootPid 1 (-1) (-1) = some (rc, pf1, keyUp, newNodeId))
    (hins : t.insert c key rid = some (0, t1)) :
    rc = 0 ∧
    (newNodeId ≠ -1 →
      t1.treeHeight = t.treeHeight + 1 ∧ t1.rootPid = pf1.endPid ∧
      t1.rootPid = newNodeId + 1 ∧ t.pf.endPid ≤ newNodeId ∧
      ∃ buf, t1.pf.read t1.rootPid = Except.ok buf ∧
        (⟨buf⟩ : BTNonLeafNode).getKeyCount = 1 ∧
        (⟨buf⟩ : BTNonLeafNode).firstChild = t.rootPid ∧
        (⟨buf⟩ : BTNonLeafNode).keyAt 0 = keyUp ∧
        (⟨buf⟩ : BTNonLeafNode).pidAt 0 = newNodeId) ∧
    (newNodeId = -1 → t1.rootPid = t.rootPid ∧ t1.treeHeight = t.treeHeight ∧ t1.pf = pf1) := by
  have hh0 : ¬ t.treeHeight = 0 := by omega
  have hcodes : rc = 0 ∨ rc = RC_INVALID_PID ∨ rc = RC_FILE_WRITE_FAILED :=
    BTreeIndex.insertHelper_rc c t.treeHeight key rid _ t.pf t.rootPid 1 (-1) (-1) _
      (by omega) hhelp
  unfold BTreeIndex.insert at hins
  rw [if_neg hh0, hhelp] at hins
  simp only at hins
  by_cases hneg : rc < 0
  · rw [if_pos hneg] at hins
    injection hins with hins
    injection hins with h1 h2
    exact absurd hneg (by rw [h1]; decide)
  rw [if_neg hneg] at hins
  have hrc0 : rc = 0 := by
    rcases hcodes with h | h | h
    · exact h
    · exact absurd (show rc < 0 by rw [h]; decide) hneg
    · exact absurd (show rc < 0 by rw [h]; decide) hneg
  refine ⟨hrc0, ?_, ?_⟩
  · intro hnew
    rw [if_pos hnew] at hins
    have hnn := BTreeIndex.insertHelper_new_node c t.treeHeight key rid _ t.pf t.rootPid 1 (-1) _
      hhelp hneg hnew
    by_cases hw : (pf1.write pf1.endPid
        ((BTNonLeafNode.init c).initializeRoot t.rootPid keyUp newNodeId).buffer).1 < 0
    · rw [if_pos hw] at hins
      injection hins with hins
      injection hins with h1 h2
      exact absurd hw (by rw [h1]; decide)
    rw [if_neg hw] at hins
    injection hins with hins
    injection hins with h1 h2
    subst h2
    have hf := BTNonLeafNode.initializeRoot_fields c hP t.rootPid keyUp newNodeId
    exact ⟨rfl, rfl, hnn.1, hnn.2, _, PageFile.read_write_same pf1 pf1.endPid _ hw, hf⟩
  · intro hnew
    rw [if_neg (not_not.mpr hnew)] at hins
    injection hins with hins
    injection hins with h1 h2
    subst h2
    exact ⟨rfl, rfl, rfl⟩

set_option maxRecDepth 1000000 in
/-- C22, at a concrete input: with `ENTRIES_PER_PAGE = 4`, inserting 50 into the index
holding 10, 20, 30, 40 (height 1, the root is the full leaf at page 1).  The helper
returns 0 with the promoted key 30 and the sibling at page 2; afterwards the height is 2
and the root is page 3, with count 1, first child 1, key 30 and second child 2; the left
leaf holds 10, 20 and the right leaf 30, 40, 50. -/
theorem root_growth_witness :
    (fourKeys.treeHeight = 1 ∧ fourKeys.rootPid = 1 ∧
      (BTreeIndex.insertHelper illustration 1 50 ⟨0, 50⟩ 1 fourKeys.pf 1 1 (-1) (-1)).map
        (fun r => [r.1, r.2.2.1, r.2.2.2]) = some [0, 30, 2] ∧
      (fourKeys.insert illustration 50 ⟨0, 50⟩).map
        (fun r => [r.1, r.2.treeHeight, r.2.rootPid]) = some [0, 2, 3] ∧
      (fourKeys.insert illustration 50 ⟨0, 50⟩).map
        (fun r => [(⟨r.2.pf.pages.getD 1 []⟩ : BTLeafNode).keys,
          (⟨r.2.pf.pages.getD 2 []⟩ : BTLeafNode).keys]) = some [[10, 20], [30, 40, 50]]) ∧
    ∃ buf,
      ((fourKeys.insert illustration 50 ⟨0, 50⟩).getD (0, fourKeys)).2.pf.read
        ((fourKeys.insert illustration 50 ⟨0, 50⟩).getD (0, fourKeys)).2.rootPid =
          Except.ok buf ∧
      (⟨buf⟩ : BTNonLeafNode).getKeyCount = 1 ∧
      (⟨buf⟩ : BTNonLeafNode).firstChild = fourKeys.rootPid ∧
      (⟨buf⟩ : BTNonLeafNode).keys = [30] ∧
      (⟨buf⟩ : BTNonLeafNode).pidAt 0 = 2 :=
  have h := (root_growth illustration fourKeys
    ((fourKeys.insert illustration 50 ⟨0, 50⟩).getD (0, fourKeys)).2 50 ⟨0, 50⟩
    0 ((BTreeIndex.insertHelper illustration 1 50 ⟨0, 50⟩ 1 fourKeys.pf 1 1 (-1) (-1)).getD
        (0, fourKeys.pf, 0, 0)).2.1 30 2
    (by decide) (by decide!) (by decide!) (by decide!)).2.1 (by decide)
  ⟨by decide!, by
    obtain ⟨buf, h1, h2, h3, h4, h5⟩ := h.2.2.2.2
    refine ⟨buf, h1, h2, h3, ?_, h5⟩
    simp only [BTNonLeafNode.keys, h2]
    simp [List.range_succ, h4]⟩

/-! ### C23: soundness of the folding of key predicates -/

/-- A key predicate with a 32-bit literal `v` holds of the key `k` exactly when the
comparison its comparator names holds between `k` and `v`. -/
theorem SelCond.holds_key (cnd : SelCond) (k : Int) (value : String)
    (ha : cnd.attr = Attr.key) (hmin : INT_MIN ≤ atol cnd.value)
    (hmax : atol cnd.value ≤ INT_MAX) :
    cnd.holds k value = true ↔
      (cnd.comp = Comparator.EQ ∧ k = atol cnd.value) ∨
      (cnd.comp = Comparator.NE ∧ k ≠ atol cnd.value) ∨
      (cnd.comp = Comparator.GT ∧ atol cnd.value < k) ∨
      (cnd.comp = Comparator.LT ∧ k < atol cnd.value) ∨
      (cnd.comp = Comparator.GE ∧ atol cnd.value ≤ k) ∨
      (cnd.comp = Comparator.LE ∧ k ≤ atol cnd.value) := by
  have hw : atoi cnd.value = atol cnd.value := by
    simp only [INT_MIN, INT_MAX] at hmin hmax
    unfold atoi wrap32
    omega
  unfold SelCond.holds
  rw [ha, hw]
  generalize atol cnd.value = v
  cases cnd.comp <;> simp <;> split_ifs <;> simp <;> omega

/-- One step of the fold on a key predicate with a 32-bit literal.  The bounds stand for
the keys `k` with `lo ≤ k ≤ hi`, `LONG_MIN` and `LONG_MAX` being the open ends.  When
`processRange` returns -1 no key within the bounds satisfies the predicate; otherwise the
new bounds are again open or near the 32-bit range, `lo ≤ hi`, the residual list grows by
the predicate exactly when the code is -2 (an `NE`), and a key is within the old bounds
and satisfies the predicate exactly when it is within the new bounds and, on -2, differs
from the literal. -/
theorem processRange_step (newCond : List SelCond) (cnd : SelCond) (lo hi : Int)
    (value : String) (ha : cnd.attr = Attr.key)
    (hmin : INT_MIN ≤ atol cnd.value) (hmax : atol cnd.value ≤ INT_MAX)
    (hlo : lo = LONG_MIN ∨ (INT_MIN ≤ lo ∧ lo ≤ INT_MAX + 1))
    (hhi : hi = LONG_MAX ∨ (INT_MIN - 1 ≤ hi ∧ hi ≤ INT_MAX))
    (hlh : lo ≤ hi) :
    ((processRange newCond cnd lo hi).1 = -1 →
      ∀ k : Int, (lo = LONG_MIN ∨ lo ≤ k) → (hi = LONG_MAX ∨ k ≤ hi) →
        ¬ cnd.holds k value = true) ∧
    ((processRange newCond cnd lo hi).1 ≠ -1 →
      ((processRange newCond cnd lo hi).2.2.1 = LONG_MIN ∨
        (INT_MIN ≤ (processRange newCond cnd lo hi).2.2.1 ∧
          (processRange newCond cnd lo hi).2.2.1 ≤ INT_MAX + 1)) ∧
      ((processRange newCond cnd lo hi).2.2.2 = LONG_MAX ∨
        (INT_MIN - 1 ≤ (processRange newCond cnd lo hi).2.2.2 ∧
          (processRange newCond cnd lo hi).2.2.2 ≤ INT_MAX)) ∧
      (processRange newCond cnd lo hi).2.2.1 ≤ (processRange newCond cnd lo hi).2.2.2 ∧
      (((processRange newCond cnd lo hi).1 = -2 ∧ cnd.comp = Comparator.NE ∧
          (processRange newCond cnd lo hi).2.1 = newCond ++ [cnd]) ∨
        ((processRange newCond cnd lo hi).1 ≠ -2 ∧
          (processRange newCond cnd lo hi).2.1 = newCond)) ∧
      ∀ k : Int,
        ((lo = LONG_MIN ∨ lo ≤ k) ∧ (hi = LONG_MAX ∨ k ≤ hi) ∧ cnd.holds k value = true) ↔
        (((processRange newCond cnd lo hi).2.2.1 = LONG_MIN ∨
            (processRange newCond cnd lo hi).2.2.1 ≤ k) ∧
          ((processRange newCond cnd lo hi).2.2.2 = LONG_MAX ∨
            k ≤ (processRange newCond cnd lo hi).2.2.2) ∧
          ((processRange newCond cnd lo hi).1 = -2 → k ≠ atol cnd.value))) := by
  have hk := fun k => SelCond.holds_key cnd k value ha hmin hmax
  simp only [INT_MIN, INT_MAX, LONG_MIN, LONG_MAX] at *
  have hw1 : wrap64 (atol cnd.value + 1) = atol cnd.value + 1 := by
    unfold wrap64
    omega
  have hw2 : wrap64 (atol cnd.value - 1) = atol cnd.value - 1 := by
    unfold wrap64
    omega
  have hw3 : atol cnd.value = lo → wrap64 (lo + 1) = lo + 1 := by
    intro h
    rw [← h]
    exact hw1
  have hw4 : atol cnd.value = hi → wrap64 (hi - 1) = hi - 1 := by
    intro h
    rw [← h]
    exact hw2
  obtain ⟨v, hv⟩ : ∃ v, atol cnd.value = v := ⟨_, rfl⟩
  rw [hv] at hmin hmax hw1 hw2 hw3 hw4
  simp only [hv] at hk
  rw [hv]
  cases hc : cnd.comp <;>
    simp only [processRange, processRangeGE, processRangeLE, hc, hv, hw1, hw2] <;>
    split_ifs <;> simp [hk, hc] <;> (try omega) <;>
    (try (refine ⟨by omega, by omega, fun k => by omega⟩)) <;>
    (try (refine ⟨by omega, by omega, by omega, fun k => by omega⟩))

/-- The invariant of the folding loop of `select` on key predicates with 32-bit literals.
`done` are the predicates already folded: a key satisfies them all exactly when it is
within the bounds and differs from the literal of every residual predicate.  Then an early
`return 0` means that no key satisfies all the predicates, and otherwise the same
description holds of the final bounds and residual list for the whole list. -/
theorem SqlEngine.foldLoop_sound (value : String) :
    ∀ (rest done newCond : List SelCond) (ne : Nat) (lo hi : Int),
      (∀ c ∈ rest, c.attr = Attr.key ∧ INT_MIN ≤ atol c.value ∧ atol c.value ≤ INT_MAX) →
      (lo = LONG_MIN ∨ (INT_MIN ≤ lo ∧ lo ≤ INT_MAX + 1)) →
      (hi = LONG_MAX ∨ (INT_MIN - 1 ≤ hi ∧ hi ≤ INT_MAX)) →
      lo ≤ hi →
      (∀ c ∈ newCond, c ∈ done ∧ c.comp = Comparator.NE) →
      (∀ k : Int, (∀ c ∈ done, c.holds k value = true) ↔
        ((lo = LONG_MIN ∨ lo ≤ k) ∧ (hi = LONG_MAX ∨ k ≤ hi) ∧
          ∀ c ∈ newCond, k ≠ atol c.value)) →
      (SqlEngine.foldLoop rest newCond ne lo hi = Folded.invalid →
        ∀ k : Int, ¬ ∀ c ∈ done ++ rest, c.holds k value = true) ∧
      (∀ (nc : List SelCond) (n : Nat) (l h : Int),
        SqlEngine.foldLoop rest newCond ne lo hi = Folded.range nc n l h →
        l ≤ h ∧ (∀ c ∈ nc, c ∈ done ++ rest ∧ c.comp = Comparator.NE) ∧
        ∀ k : Int, (∀ c ∈ done ++ rest, c.holds k value = true) ↔
          ((l = LONG_MIN ∨ l ≤ k) ∧ (h = LONG_MAX ∨ k ≤ h) ∧
            ∀ c ∈ nc, k ≠ atol c.value)) := by
  intro rest
  induction rest with
  | nil =>
    intro done newCond ne lo hi _ _ _ hlh hnc hinv
    rw [List.append_nil]
    refine ⟨fun h => ?_, fun nc n l h heq => ?_⟩
    · simp only [SqlEngine.foldLoop] at h
      cases h
    · simp only [SqlEngine.foldLoop, Folded.range.injEq] at heq
      obtain ⟨e1, -, e3, e4⟩ := heq
      subst e1 e3 e4
      exact ⟨hlh, hnc, hinv⟩
  | cons cnd rest ih =>
    intro done newCond ne lo hi hrest hlo hhi hlh hnc hinv
    obtain ⟨ha, hmin, hmax⟩ := hrest cnd (List.mem_cons_self _ _)
    have step := processRange_step newCond cnd lo hi value ha hmin hmax hlo hhi hlh
    have happ : done ++ cnd :: rest = (done ++ [cnd]) ++ rest := by simp
    rw [SqlEngine.foldLoop]
    simp only [ha]
    by_cases h1 : (processRange newCond cnd lo hi).1 = -1
    · rw [if_pos h1]
      refine ⟨?_, fun nc n l h heq => by cases heq⟩
      intro _ k hall
      have hd := (hinv k).mp (fun c hc => hall c (List.mem_append_left _ hc))
      exact step.1 h1 k hd.1 hd.2.1 (hall cnd (by simp))
    · rw [if_neg h1]
      obtain ⟨b1, b2, b3, b4, b5⟩ := step.2 h1
      rw [happ]
      apply ih (done ++ [cnd]) _ _ _ _ (fun c hc => hrest c (List.mem_cons_of_mem _ hc)) b1 b2 b3
      · intro c hc
        rcases b4 with ⟨-, g2, g3⟩ | ⟨-, g3⟩
        · rw [g3] at hc
          rcases List.mem_append.mp hc with hc | hc
          · exact ⟨List.mem_append_left _ (hnc c hc).1, (hnc c hc).2⟩
          · rw [List.mem_singleton.mp hc]
            exact ⟨by simp, g2⟩
        · rw [g3] at hc
          exact ⟨List.mem_append_left _ (hnc c hc).1, (hnc c hc).2⟩
      · intro k
        have e1 : (∀ c ∈ done ++ [cnd], c.holds k value = true) ↔
            ((∀ c ∈ done, c.holds k value = true) ∧ cnd.holds k value = true) := by
          constructor
          · intro h
            exact ⟨fun c hc => h c (List.mem_append_left _ hc), h cnd (by simp)⟩
          · rintro ⟨g1, g2⟩ c hc
            rcases List.mem_append.mp hc with hc | hc
            · exact g1 c hc
            · rw [List.mem_singleton.mp hc]
              exact g2
        have e2 : (∀ c ∈ (processRange newCond cnd lo hi).2.1, k ≠ atol c.value) ↔
            ((∀ c ∈ newCond, k ≠ atol c.value) ∧
              ((processRange newCond cnd lo hi).1 = -2 → k ≠ atol cnd.value)) := by
          rcases b4 with ⟨g1, -, g3⟩ | ⟨g1, g3⟩
          · rw [g3]
            constructor
            · intro h
              exact ⟨fun c hc => h c (List.mem_append_left _ hc), fun _ => h cnd (by simp)⟩
            · rintro ⟨g4, g5⟩ c hc
              rcases List.mem_append.mp hc with hc | hc
              · exact g4 c hc
              · rw [List.mem_singleton.mp hc]
                exact g5 g1
          · rw [g3]
            exact ⟨fun h => ⟨h, fun g => absurd g g1⟩, fun h => h.1⟩
        rw [e1, e2, hinv k]
        have b5k := b5 k
        constructor
        · rintro ⟨⟨a, b, c⟩, d⟩
          obtain ⟨x, y, z⟩ := b5k.mp ⟨a, b, d⟩
          exact ⟨x, y, c, z⟩
        · rintro ⟨x, y, c, z⟩
          obtain ⟨a, b, d⟩ := b5k.mpr ⟨x, y, z⟩
          exact ⟨⟨a, b, c⟩, d⟩

/-- C23: soundness of predicate folding.  For every list of key predicates whose
literals are 32-bit integers, folded left to right by `processRange` from
`(lo, hi) = (LONG_MIN, LONG_MAX)`: if the fold stops on a step that returns -1, no integer
key satisfies all the predicates; otherwise `lo ≤ hi`, the residual list holds only `NE`
predicates of the list, and a 32-bit key `k` satisfies all the predicates if and only if
`lo ≤ k ≤ hi` and `k` differs from the literal of every predicate of the residual list. -/
theorem predicate_folding_sound (cond : List SelCond) (value : String)
    (hkey : ∀ c ∈ cond, c.attr = Attr.key)
    (hlit : ∀ c ∈ cond, INT_MIN ≤ atol c.value ∧ atol c.value ≤ INT_MAX) :
    (SqlEngine.fold cond = Folded.invalid →
      ∀ k : Int, ¬ ∀ c ∈ cond, c.holds k value = true) ∧
    (∀ (newCond : List SelCond) (ne : Nat) (lo hi : Int),
      SqlEngine.fold cond = Folded.range newCond ne lo hi →
      lo ≤ hi ∧ (∀ c ∈ newCond, c ∈ cond ∧ c.comp = Comparator.NE) ∧
      ∀ k : Int, INT_MIN ≤ k → k ≤ INT_MAX →
        ((∀ c ∈ cond, c.holds k value = true) ↔
          (lo ≤ k ∧ k ≤ hi ∧ ∀ c ∈ newCond, k ≠ atol c.value))) := by
  have h := SqlEngine.foldLoop_sound value cond [] [] 0 LONG_MIN LONG_MAX
    (fun c hc => ⟨hkey c hc, hlit c hc⟩) (Or.inl rfl) (Or.inl rfl) (by decide)
    (fun c hc => absurd hc (List.not_mem_nil c))
    (fun k => ⟨fun _ => ⟨Or.inl rfl, Or.inl rfl, fun c hc => absurd hc (List.not_mem_nil c)⟩,
      fun _ c hc => absurd hc (List.not_mem_nil c)⟩)
  rw [List.nil_append] at h
  refine ⟨h.1, ?_⟩
  intro newCond ne lo hi hf
  obtain ⟨h1, h2, h3⟩ := h.2 newCond ne lo hi hf
  refine ⟨h1, h2, ?_⟩
  intro k hk1 hk2
  rw [h3 k]
  simp only [INT_MIN, INT_MAX, LONG_MIN, LONG_MAX] at *
  constructor
  · rintro ⟨a, b, c⟩
    exact ⟨by omega, by omega, c⟩
  · rintro ⟨a, b, c⟩
    exact ⟨Or.inr a, Or.inr b, c⟩

/-- C23, at a concrete input: `key >= 5 AND key <> 7 AND key < 10` folds to the bounds
`[5, 9]` with the residual `key <> 7`, so a 32-bit key satisfies the three predicates
exactly when it is in `[5, 9]` and is not 7; `key = 5 AND key = 7` stops on -1, and no key
satisfies both. -/
theorem predicate_folding_sound_witness :
    (SqlEngine.fold [⟨Attr.key, Comparator.GE, "5"⟩, ⟨Attr.key, Comparator.NE, "7"⟩,
        ⟨Attr.key, Comparator.LT, "10"⟩] =
      Folded.range [⟨Attr.key, Comparator.NE, "7"⟩] 1 5 9 ∧
      ∀ k : Int, INT_MIN ≤ k → k ≤ INT_MAX →
        ((∀ c ∈ [(⟨Attr.key, Comparator.GE, "5"⟩ : SelCond), ⟨Attr.key, Comparator.NE, "7"⟩,
            ⟨Attr.key, Comparator.LT, "10"⟩], c.holds k "v" = true) ↔
          (5 ≤ k ∧ k ≤ 9 ∧
            ∀ c ∈ [(⟨Attr.key, Comparator.NE, "7"⟩ : SelCond)], k ≠ atol c.value))) ∧
    (SqlEngine.fold [⟨Attr.key, Comparator.EQ, "5"⟩, ⟨Attr.key, Comparator.EQ, "7"⟩] =
      Folded.invalid ∧
      ∀ k : Int, ¬ ∀ c ∈ [(⟨Attr.key, Comparator.EQ, "5"⟩ : SelCond),
        ⟨Attr.key, Comparator.EQ, "7"⟩], c.holds k "v" = true) :=
  ⟨⟨by decide,
    ((predicate_folding_sound [⟨Attr.key, Comparator.GE, "5"⟩, ⟨Attr.key, Comparator.NE, "7"⟩,
        ⟨Attr.key, Comparator.LT, "10"⟩] "v" (by decide) (by decide)).2
      [⟨Attr.key, Comparator.NE, "7"⟩] 1 5 9 (by decide)).2.2⟩,
   ⟨by decide,
    (predicate_folding_sound [⟨Attr.key, Comparator.EQ, "5"⟩, ⟨Attr.key, Comparator.EQ, "7"⟩]
      "v" (by decide) (by decide)).1 (by decide)⟩⟩

/-! ### C24: the accesses of the non-leaf split -/

/-- The `eid > half` branch of `BTNonLeafNode::insertAndSplit` at the last insertion
position, `eid = KEYS_PER_PAGE`, on a page that has no room for a further entry
(`PAGE_SIZE < 8 + (KEYS_PER_PAGE + 1) * 8`, as when `KEYS_PER_PAGE` is
`(PAGE_SIZE - 8) / 8`): the `memmove` reads `KEYS_PER_PAGE - half` entries from entry
`half + 1` on, up to byte `16 + KEYS_PER_PAGE * 8`, past the page. -/
theorem BTNonLeafNode.split_last_position_leaves_page (c : Config) (n sibling : BTNonLeafNode)
    (key : Int) (pid : PageId) (midKey : Int) (hK : 2 ≤ c.KEYS_PER_PAGE)
    (hP : c.PAGE_SIZE < 8 + (c.KEYS_PER_PAGE + 1) * 8)
    (hsib : sibling.getKeyCount = 0) (he : n.locate key = c.KEYS_PER_PAGE) :
    memmoveChecked c.PAGE_SIZE (wr32 n.buffer 0 (((c.KEYS_PER_PAGE + 1) / 2 : Nat) : Int))
      (8 + (c.KEYS_PER_PAGE + 1) / 2 * 8) (8 + ((c.KEYS_PER_PAGE + 1) / 2 + 1) * 8)
      ((c.KEYS_PER_PAGE - (c.KEYS_PER_PAGE + 1) / 2) * 8) = none ∧
    n.insertAndSplit c key pid sibling midKey = none := by
  have hs0 : ¬ sibling.getKeyCount > 0 := by omega
  have h1 : ¬ c.KEYS_PER_PAGE = (c.KEYS_PER_PAGE + 1) / 2 := by omega
  have h2 : ¬ c.KEYS_PER_PAGE < (c.KEYS_PER_PAGE + 1) / 2 := by omega
  have h3 : ¬ (8 + (c.KEYS_PER_PAGE + 1) / 2 * 8 +
        (c.KEYS_PER_PAGE - (c.KEYS_PER_PAGE + 1) / 2) * 8 ≤ c.PAGE_SIZE ∧
      8 + ((c.KEYS_PER_PAGE + 1) / 2 + 1) * 8 +
        (c.KEYS_PER_PAGE - (c.KEYS_PER_PAGE + 1) / 2) * 8 ≤ c.PAGE_SIZE) := by omega
  have hm : memmoveChecked c.PAGE_SIZE (wr32 n.buffer 0 (((c.KEYS_PER_PAGE + 1) / 2 : Nat) : Int))
      (8 + (c.KEYS_PER_PAGE + 1) / 2 * 8) (8 + ((c.KEYS_PER_PAGE + 1) / 2 + 1) * 8)
      ((c.KEYS_PER_PAGE - (c.KEYS_PER_PAGE + 1) / 2) * 8) = none := by
    unfold memmoveChecked
    rw [if_neg h3]
  refine ⟨hm, ?_⟩
  simp only [BTNonLeafNode.insertAndSplit, hs0, if_false, he, BTNonLeafNode.splitBranch, h1, h2,
    hm, rd32Checked, Option.bind_eq_bind]
  split_ifs <;> simp

/-- At every other insertion position, `eid < KEYS_PER_PAGE`, all accesses of
`BTNonLeafNode::insertAndSplit` stay inside a page that holds `KEYS_PER_PAGE` entries, and
the call returns. -/
theorem BTNonLeafNode.split_other_positions_inside_page (c : Config)
    (n sibling : BTNonLeafNode) (key : Int) (pid : PageId) (midKey : Int) (hfit : c.Fits)
    (he : n.locate key < c.KEYS_PER_PAGE) :
    (n.insertAndSplit c key pid sibling midKey).isSome = true := by
  have hP := hfit.2
  generalize hE : n.locate key = e at he
  generalize hH : (c.KEYS_PER_PAGE + 1) / 2 = half
  have c6 : 8 + half * 8 + c.KEYS_PER_PAGE / 2 * 8 ≤ c.PAGE_SIZE := by omega
  unfold BTNonLeafNode.insertAndSplit
  by_cases hs : sibling.getKeyCount > 0
  · rw [if_pos hs]
    rfl
  rw [if_neg hs]
  simp only [hE, hH]
  by_cases h1 : e = half
  · simp only [BTNonLeafNode.splitBranch, h1, if_true, memcpyFromChecked, c6, le_refl, and_self]
    rfl
  by_cases h2 : e < half
  · have c1 : 8 + (half - 1) * 8 + 4 ≤ c.PAGE_SIZE := by omega
    have c2 : 8 + (half - 1) * 8 + 4 + 4 ≤ c.PAGE_SIZE := by omega
    have c3 : 8 + e * 8 + 8 + (half - 1 - e) * 8 ≤ c.PAGE_SIZE ∧
        8 + e * 8 + (half - 1 - e) * 8 ≤ c.PAGE_SIZE := by constructor <;> omega
    have c4 : 8 + e * 8 + 4 ≤ c.PAGE_SIZE := by omega
    have c5 : 8 + e * 8 + 4 + 4 ≤ c.PAGE_SIZE := by omega
    simp only [BTNonLeafNode.splitBranch, h1, h2, if_true, if_false, rd32Checked, memmoveChecked,
      wr32Checked, c1, c2, c3, c4, c5, c6, memcpyFromChecked, le_refl, and_self,
      Option.bind_eq_bind, Option.some_bind]
    rfl
  · have c1 : 8 + half * 8 + 4 ≤ c.PAGE_SIZE := by omega
    have c2 : 8 + half * 8 + 4 + 4 ≤ c.PAGE_SIZE := by omega
    have c3 : 8 + half * 8 + (e - half) * 8 ≤ c.PAGE_SIZE ∧
        8 + (half + 1) * 8 + (e - half) * 8 ≤ c.PAGE_SIZE := by constructor <;> omega
    have c4 : 8 + e * 8 + 4 ≤ c.PAGE_SIZE := by omega
    have c5 : 8 + e * 8 + 4 + 4 ≤ c.PAGE_SIZE := by omega
    simp only [BTNonLeafNode.splitBranch, h1, h2, if_true, if_false, rd32Checked, memmoveChecked,
      wr32Checked, c1, c2, c3, c4, c5, c6, memcpyFromChecked, le_refl, and_self,
      Option.bind_eq_bind, Option.some_bind]
    rfl

set_option maxRecDepth 1000000 in
/-- C24: with the shipped constants (`PAGE_SIZE = 1024`, `KEYS_PER_PAGE = (1024 - 8) / 8 =
127`, `half = 64`), the full non-leaf node with the keys 10, 20, ..., 1270 and the incoming
key 1275, greater than every stored key, so that the insertion position is
`eid = 127 = KEYS_PER_PAGE`.  In the `eid > half` branch of
`BTNonLeafNode::insertAndSplit` the `memmove` reads `(127 - 64) * 8` bytes from byte
`8 + 65 * 8` on, up to byte 1032, and the incoming pair is then written at bytes
`8 + 127 * 8 = 1024` and 1028: both leave the page of 1024 bytes, and the call has no
defined result.  At each of the positions 0, ..., 126 every access of the three-way branch
stays inside the page. -/
theorem nonleaf_split_last_position_leaves_page :
    shipped.PAGE_SIZE = 1024 ∧ shipped.KEYS_PER_PAGE = (1024 - 8) / 8 ∧
    fullNonLeaf.IsPage shipped ∧ fullNonLeaf.getKeyCount = shipped.KEYS_PER_PAGE ∧
    fullNonLeaf.locate 1275 = 127 ∧ (shipped.KEYS_PER_PAGE + 1) / 2 = 64 ∧
    8 + (64 + 1) * 8 + (127 - 64) * 8 = 1032 ∧
    memmoveChecked shipped.PAGE_SIZE (wr32 fullNonLeaf.buffer 0 64) (8 + 64 * 8)
      (8 + (64 + 1) * 8) ((127 - 64) * 8) = none ∧
    wr32Checked shipped.PAGE_SIZE fullNonLeaf.buffer (8 + 127 * 8) 1275 = none ∧
    wr32Checked shipped.PAGE_SIZE fullNonLeaf.buffer (8 + 127 * 8 + 4) 500 = none ∧
    BTNonLeafNode.splitBranch shipped (wr32 fullNonLeaf.buffer 0 64) 1275 500 127 64 = none ∧
    fullNonLeaf.insertAndSplit shipped 1275 500 (BTNonLeafNode.init shipped) (-1) = none ∧
    (∀ eid : Nat, eid < 127 →
      (BTNonLeafNode.splitBranch shipped (wr32 fullNonLeaf.buffer 0 64) 1275 500 eid 64).isSome
        = true) := by
  decide!

/-! ### C25: the temporary array of the leaf split -/

/-- With an even `ENTRIES_PER_PAGE` and an insertion position below `half`,
`BTLeafNode::insertAndSplit` copies `ENTRIES_PER_PAGE - (half - 1) = half + 1` entries into
the array `copy` of `half` entries: the `memcpy` leaves the array. -/
theorem BTLeafNode.split_below_half_exceeds_copy (c : Config) (n sibling : BTLeafNode)
    (key : Int) (rid : RecordId) (sk : Int) (hsib : sibling.getKeyCount = 0)
    (heven : c.ENTRIES_PER_PAGE % 2 = 0) (hpos : 0 < c.ENTRIES_PER_PAGE)
    (hlt : (n.locate key).2 < (((c.ENTRIES_PER_PAGE + 1) / 2 : Nat) : Int)) :
    c.ENTRIES_PER_PAGE - ((c.ENTRIES_PER_PAGE + 1) / 2 - 1) = (c.ENTRIES_PER_PAGE + 1) / 2 + 1 ∧
    memcpyFromChecked c.PAGE_SIZE ((c.ENTRIES_PER_PAGE + 1) / 2 * 12) n.buffer
      (4 + ((c.ENTRIES_PER_PAGE + 1) / 2 - 1) * 12)
      ((c.ENTRIES_PER_PAGE - ((c.ENTRIES_PER_PAGE + 1) / 2 - 1)) * 12) = none ∧
    n.insertAndSplit c key rid sibling sk = none := by
  have hs0 : ¬ sibling.getKeyCount > 0 := by omega
  have h3 : ¬ (4 + ((c.ENTRIES_PER_PAGE + 1) / 2 - 1) * 12 +
        (c.ENTRIES_PER_PAGE - ((c.ENTRIES_PER_PAGE + 1) / 2 - 1)) * 12 ≤ c.PAGE_SIZE ∧
      (c.ENTRIES_PER_PAGE - ((c.ENTRIES_PER_PAGE + 1) / 2 - 1)) * 12 ≤
        (c.ENTRIES_PER_PAGE + 1) / 2 * 12) := by omega
  have hm : memcpyFromChecked c.PAGE_SIZE ((c.ENTRIES_PER_PAGE + 1) / 2 * 12) n.buffer
      (4 + ((c.ENTRIES_PER_PAGE + 1) / 2 - 1) * 12)
      ((c.ENTRIES_PER_PAGE - ((c.ENTRIES_PER_PAGE + 1) / 2 - 1)) * 12) = none := by
    unfold memcpyFromChecked
    rw [if_neg h3]
  refine ⟨by omega, hm, ?_⟩
  simp only [BTLeafNode.insertAndSplit, hs0, if_false, hlt, if_true, hm]

set_option maxRecDepth 1000000 in
/-- C25: with the shipped constants (`PAGE_SIZE = 1024`, `ENTRIES_PER_PAGE =
(1024 - 8) / 12 = 84`, `half = (84 + 1) / 2 = 42`), the full leaf with the keys 10, 20, ...,
840 and the new key 15, whose insertion position is `eid = 1 < half`, so that
`split = 41`.  `BTLeafNode::insertAndSplit` copies `84 - 41 = 43` entries, 516 bytes, into
the array `copy` of `half = 42` entries, 504 bytes: the source range ends at byte 1012,
inside the page, but the copy is one entry longer than the array, and the call has no
defined result.  The same holds at every insertion position below 42; from position 42 on
`split = 42` and the 42 entries copied fit. -/
theorem leaf_split_copy_exceeds_array :
    shipped.PAGE_SIZE = 1024 ∧ shipped.ENTRIES_PER_PAGE = (1024 - 8) / 12 ∧
    fullLeaf.IsPage shipped ∧ fullLeaf.getKeyCount = shipped.ENTRIES_PER_PAGE ∧
    (shipped.ENTRIES_PER_PAGE + 1) / 2 = 42 ∧
    fullLeaf.locate 15 = (RC_NO_SUCH_RECORD, 1) ∧
    shipped.ENTRIES_PER_PAGE - (42 - 1) = 43 ∧ 4 + 41 * 12 + 43 * 12 = 1012 ∧
    memcpyFromChecked shipped.PAGE_SIZE (42 * 12) fullLeaf.buffer (4 + 41 * 12) (43 * 12) = none ∧
    memcpyFromChecked shipped.PAGE_SIZE (43 * 12) fullLeaf.buffer (4 + 41 * 12) (43 * 12) ≠ none ∧
    fullLeaf.insertAndSplit shipped 15 ⟨0, 15⟩ (BTLeafNode.init shipped) (-1) = none ∧
    (∀ eid : Nat, eid ≤ 84 →
      ((memcpyFromChecked shipped.PAGE_SIZE (42 * 12) fullLeaf.buffer
          (4 + (if eid < 42 then 42 - 1 else 42) * 12)
          ((84 - (if eid < 42 then 42 - 1 else 42)) * 12)).isSome = decide (42 ≤ eid))) := by
  decide!

/-! ### C11: the leaf chain while no non-leaf node is split -/

end Bruinbase
